import Mathlib

/-!
Verification of the QA-dataset pipeline of `dachs_rag_framework`
(`src/scripts/generate_qa_candidates.py` and `src/scripts/generate_qa_dataset.py`)
against its natural-language specification.

The Python code manipulates parsed JSON values (dicts, lists, strings,
numbers, booleans, `None`).  We embed those values as the inductive type
`Jval`; a Python dict is an association list in insertion order.  Machine
arithmetic: Python integers are unbounded, so `Int`/`Nat` are exact;
Python floats appear only as FAISS scores, retry backoff and the ceiling
division of the global quota, and are modelled as rationals (exact for the
values the scripts handle).  `hashlib.sha1` is embedded as a full SHA-1
implementation over the UTF-8 bytes of the input string.
-/

set_option maxRecDepth 100000

/-- Model of a parsed JSON / Python value as manipulated by the scripts.
Python dicts are association lists in insertion order; numbers keep the
int/float distinction because the code branches on `isinstance(x, int)`. -/
inductive Jval where
  | jnull : Jval
  | jbool (b : Bool) : Jval
  | jint (n : Int) : Jval
  | jfloat (q : ℚ) : Jval
  | jstr (s : String) : Jval
  | jarr (xs : List Jval) : Jval
  | jobj (kvs : List (String × Jval)) : Jval

/-- A parsed JSON object (Python dict): association list in insertion order. -/
abbrev Obj := List (String × Jval)

/-- Python truthiness (`bool(x)`) for the values above: `None`, `0`, `0.0`,
empty strings and empty containers are falsy. -/
def pyTruthy : Jval → Bool
  | .jnull => false
  | .jbool b => b
  | .jint n => n != 0
  | .jfloat q => q != 0
  | .jstr s => s != ""
  | .jarr xs => !xs.isEmpty
  | .jobj kvs => !kvs.isEmpty

/-- Python `a or b` on values: `a` if truthy, else `b`. -/
def pyOr (a b : Jval) : Jval := if pyTruthy a then a else b

/-- `str.strip()`: removes leading/trailing whitespace (the ASCII
whitespace characters, which covers the whitespace occurring in the
pipeline's data). -/
def pyStrip (s : String) : String :=
  String.mk (((s.data.dropWhile Char.isWhitespace).reverse.dropWhile
    Char.isWhitespace).reverse)

/-- ASCII `str.lower()` on one character. -/
def charLower (c : Char) : Char :=
  if 'A' ≤ c ∧ c ≤ 'Z' then Char.ofNat (c.toNat + 32) else c

/-- ASCII `str.upper()` on one character. -/
def charUpper (c : Char) : Char :=
  if 'a' ≤ c ∧ c ≤ 'z' then Char.ofNat (c.toNat - 32) else c

/-- `str.lower()` (ASCII; the strings the scripts lowercase are ASCII
apart from German umlauts, whose case never matters to the comparisons). -/
def pyToLower (s : String) : String := String.mk (s.data.map charLower)

/-- `str.upper()` (ASCII). -/
def pyToUpper (s : String) : String := String.mk (s.data.map charUpper)

/-- `s.startswith(p)`. -/
def pyStartsWith (s p : String) : Bool := p.data.isPrefixOf s.data

/-- Python `p in t` substring test. -/
def containsSub (t p : String) : Bool := go t.data
where
  /-- Scan every suffix for the pattern as a prefix. -/
  go : List Char → Bool
    | [] => p.data.isEmpty
    | c :: rest => p.data.isPrefixOf (c :: rest) || go rest

/-- Split on the characters satisfying `p`, keeping empty pieces
(the behaviour of `str.split`-style regex splitting on single characters). -/
def splitPredAux (p : Char → Bool) : List Char → List Char → List String
  | [], acc => [String.mk acc.reverse]
  | c :: rest, acc =>
      if p c then String.mk acc.reverse :: splitPredAux p rest []
      else splitPredAux p rest (c :: acc)

/-- Split a string at every character satisfying `p`. -/
def splitPred (s : String) (p : Char → Bool) : List String :=
  splitPredAux p s.data []

/-- `str.split(sep)` for a non-empty separator, keeping empty pieces; the
fuel argument (the input length) keeps the recursion structural. -/
def splitOnStrAux (sep : List Char) : Nat → List Char → List Char → List String
  | _, [], acc => [String.mk acc.reverse]
  | 0, l, acc => [String.mk (acc.reverse ++ l)]
  | fuel + 1, c :: rest, acc =>
      if sep.isPrefixOf (c :: rest) then
        String.mk acc.reverse :: splitOnStrAux sep fuel ((c :: rest).drop sep.length) []
      else splitOnStrAux sep fuel rest (c :: acc)

/-- `s.split(sep)` on strings (Python semantics; `sep` non-empty at every
call site). -/
def pySplitOn (s sep : String) : List String :=
  if sep = "" then [s] else splitOnStrAux sep.data s.data.length s.data []

/-- Escape one character for the single-quoted Python `repr` of a string. -/
def pyReprCharEsc (c : Char) : String :=
  if c = '\\' then "\\\\"
  else if c = '\'' then "\\'"
  else if c = '\n' then "\\n"
  else if c = '\t' then "\\t"
  else if c = '\r' then "\\r"
  else String.mk [c]

/-- Python `repr` of a string: single-quoted with basic escapes. -/
def pyStrRepr (s : String) : String :=
  "'" ++ String.join (s.data.map pyReprCharEsc) ++ "'"

mutual
/-- Python `str(x)` on the values above (`str(None) = "None"`,
`str(True) = "True"`, containers render via `repr` of their elements).
Rational rendering of floats is an approximation of CPython's float `repr`;
the scripts only ever call `str` on strings, `None`, bools and ints along
the dedup/shard key paths. -/
def pyStr : Jval → String
  | .jnull => "None"
  | .jbool true => "True"
  | .jbool false => "False"
  | .jint n => toString n
  | .jfloat q => toString q
  | .jstr s => s
  | .jarr xs => "[" ++ pyReprSeq xs ++ "]"
  | .jobj kvs => "\x7b" ++ pyReprKvs kvs ++ "\x7d"

/-- Python `repr` of a value (used by `str` on containers). -/
def pyRepr : Jval → String
  | .jstr s => pyStrRepr s
  | .jnull => "None"
  | .jbool true => "True"
  | .jbool false => "False"
  | .jint n => toString n
  | .jfloat q => toString q
  | .jarr xs => "[" ++ pyReprSeq xs ++ "]"
  | .jobj kvs => "\x7b" ++ pyReprKvs kvs ++ "\x7d"

/-- Comma-separated `repr` of list elements. -/
def pyReprSeq : List Jval → String
  | [] => ""
  | [x] => pyRepr x
  | x :: y :: rest => pyRepr x ++ ", " ++ pyReprSeq (y :: rest)

/-- Comma-separated `repr` of dict entries. -/
def pyReprKvs : List (String × Jval) → String
  | [] => ""
  | [(k, v)] => pyStrRepr k ++ ": " ++ pyRepr v
  | (k, v) :: e :: rest => pyStrRepr k ++ ": " ++ pyRepr v ++ ", " ++ pyReprKvs (e :: rest)
end

/-- Lookup in a dict: first binding of the key, if any (Python dict keys are
unique, so first = only). -/
def getKey (o : Obj) (k : String) : Option Jval :=
  (o.find? (fun kv => kv.fst == k)).map (·.snd)

/-- `dict.get(k, d)`. -/
def getD (o : Obj) (k : String) (d : Jval) : Jval := (getKey o k).getD d

/-- `dict.get(k)` (default `None`). -/
def pyGet (o : Obj) (k : String) : Jval := getD o k .jnull

/-- `d[k] = v`: replace the binding in place if the key exists, else append. -/
def setKey : Obj → String → Jval → Obj
  | [], k, v => [(k, v)]
  | (k', v') :: rest, k, v =>
      if k' == k then (k, v) :: rest else (k', v') :: setKey rest k v

/-- Parse a decimal digit. -/
def decDigitVal (c : Char) : Option Nat :=
  if '0' ≤ c ∧ c ≤ '9' then some (c.toNat - 48) else none

/-- Python `float(x)` restricted to the value kinds the scripts feed it:
numbers convert exactly, booleans convert to 0/1, strings parse as simple
signed decimals; anything else (or an unparsable string) is `none`,
modelling the exception branch. -/
def pyFloat? : Jval → Option ℚ
  | .jint n => some (n : ℚ)
  | .jfloat q => some q
  | .jbool b => some (if b then 1 else 0)
  | .jstr s =>
      let s := pyStrip s
      let (neg, body) :=
        if pyStartsWith s "-" then (true, s.drop 1)
        else if pyStartsWith s "+" then (false, s.drop 1) else (false, s)
      match pySplitOn body "." with
      | [intPart] =>
          if intPart = "" then none
          else if intPart.data.all (fun c => (decDigitVal c).isSome) then
            let n := intPart.data.foldl (fun a c => a * 10 + ((decDigitVal c).getD 0)) 0
            some (if neg then -(n : ℚ) else (n : ℚ))
          else none
      | [intPart, fracPart] =>
          if intPart = "" ∧ fracPart = "" then none
          else if (intPart.data ++ fracPart.data).all (fun c => (decDigitVal c).isSome) then
            let n := (intPart.data ++ fracPart.data).foldl
              (fun a c => a * 10 + ((decDigitVal c).getD 0)) 0
            let q : ℚ := (n : ℚ) / ((10 : ℚ) ^ fracPart.length)
            some (if neg then -q else q)
          else none
      | _ => none
  | _ => none

/-! ### SHA-1 (`hashlib.sha1` over UTF-8 bytes) -/

/-- UTF-8 encoding of one Unicode code point. -/
def utf8EncodeChar (n : Nat) : List Nat :=
  if n < 128 then [n]
  else if n < 2048 then [192 ||| (n >>> 6), 128 ||| (n &&& 63)]
  else if n < 65536 then
    [224 ||| (n >>> 12), 128 ||| ((n >>> 6) &&& 63), 128 ||| (n &&& 63)]
  else
    [240 ||| (n >>> 18), 128 ||| ((n >>> 12) &&& 63),
     128 ||| ((n >>> 6) &&& 63), 128 ||| (n &&& 63)]

/-- UTF-8 bytes of a string (`s.encode("utf-8")`). -/
def utf8Bytes (s : String) : List Nat :=
  (s.data.map (fun c => utf8EncodeChar c.toNat)).flatten

/-- Left rotation of a 32-bit word. -/
def rotl32 (n x : Nat) : Nat :=
  (((x <<< n) % 4294967296) ||| (x >>> (32 - n)))

/-- Big-endian bytes of a 64-bit length field. -/
def be8 (n : Nat) : List Nat :=
  (List.range 8).map (fun i => (n >>> (8 * (7 - i))) &&& 255)

/-- SHA-1 padding: append `0x80`, zero bytes to 56 mod 64, then the 64-bit
big-endian bit length. -/
def sha1Pad (msg : List Nat) : List Nat :=
  let z := (120 - ((msg.length + 1) % 64)) % 64
  msg ++ 128 :: List.replicate z 0 ++ be8 (msg.length * 8)

/-- Split a byte list into 64-byte blocks; the fuel argument (any bound on
the number of blocks, here the list length) keeps the recursion structural. -/
def chunk64Aux : Nat → List Nat → List (List Nat)
  | _, [] => []
  | 0, _ => []
  | fuel + 1, x :: xs => ((x :: xs).take 64) :: chunk64Aux fuel ((x :: xs).drop 64)

/-- Split a byte list into 64-byte blocks. -/
def chunk64 (l : List Nat) : List (List Nat) := chunk64Aux l.length l

/-- Assemble a big-endian 32-bit word from four bytes. -/
def word32 (b0 b1 b2 b3 : Nat) : Nat :=
  (b0 <<< 24) ||| (b1 <<< 16) ||| (b2 <<< 8) ||| b3

/-- The 16 message words of one 64-byte block. -/
def blockWords (block : List Nat) : Array Nat :=
  ((List.range 16).map (fun i =>
    word32 (block.getD (4 * i) 0) (block.getD (4 * i + 1) 0)
      (block.getD (4 * i + 2) 0) (block.getD (4 * i + 3) 0))).toArray

/-- Extend 16 message words to the 80-word schedule. -/
def sha1ExtendW (w0 : Array Nat) : Array Nat :=
  (List.range 64).foldl
    (fun w _ =>
      let t := w.size
      w.push (rotl32 1 ((w.getD (t - 3) 0) ^^^ (w.getD (t - 8) 0) ^^^
        (w.getD (t - 14) 0) ^^^ (w.getD (t - 16) 0))))
    w0

/-- One round of the SHA-1 compression function. -/
def sha1Round (w : Array Nat) (st : Nat × Nat × Nat × Nat × Nat) (i : Nat) :
    Nat × Nat × Nat × Nat × Nat :=
  let (a, b, c, d, e) := st
  let fk : Nat × Nat :=
    if i < 20 then ((b &&& c) ||| ((b ^^^ 4294967295) &&& d), 1518500249)
    else if i < 40 then (b ^^^ c ^^^ d, 1859775393)
    else if i < 60 then ((b &&& c) ||| (b &&& d) ||| (c &&& d), 2400959708)
    else (b ^^^ c ^^^ d, 3395469782)
  let temp := (rotl32 5 a + fk.1 + e + fk.2 + w.getD i 0) % 4294967296
  (temp, a, rotl32 30 b, c, d)

/-- Process one 64-byte block. -/
def sha1Block (h : Nat × Nat × Nat × Nat × Nat) (block : List Nat) :
    Nat × Nat × Nat × Nat × Nat :=
  let w := sha1ExtendW (blockWords block)
  let (a, b, c, d, e) := (List.range 80).foldl (sha1Round w) h
  ((h.1 + a) % 4294967296, (h.2.1 + b) % 4294967296, (h.2.2.1 + c) % 4294967296,
   (h.2.2.2.1 + d) % 4294967296, (h.2.2.2.2 + e) % 4294967296)

/-- One lowercase hex digit. -/
def hexDigit (n : Nat) : Char :=
  if n < 10 then Char.ofNat (48 + n) else Char.ofNat (87 + n)

/-- Eight lowercase hex digits of a 32-bit word. -/
def hex8 (n : Nat) : String :=
  String.mk ((List.range 8).map (fun i => hexDigit ((n >>> (4 * (7 - i))) &&& 15)))

/-- Embeds `sha1_hex` (`generate_qa_dataset.py` line 97): the 40-character
lowercase hex SHA-1 digest of the UTF-8 bytes of `s`. -/
def sha1_hex (s : String) : String :=
  let blocks := chunk64 (sha1Pad (utf8Bytes s))
  let h := blocks.foldl sha1Block (1732584193, 4023233417, 2562383102, 271733878, 3285377520)
  hex8 h.1 ++ hex8 h.2.1 ++ hex8 h.2.2.1 ++ hex8 h.2.2.2.1 ++ hex8 h.2.2.2.2

/-- Embeds `sha1_16` (`generate_qa_dataset.py` line 101): first 16 hex chars. -/
def sha1_16 (s : String) : String := (sha1_hex s).take 16

/-- Value of one hex digit as accepted by `int(s, 16)`. -/
def hexDigitVal (c : Char) : Nat :=
  if '0' ≤ c ∧ c ≤ '9' then c.toNat - 48
  else if 'a' ≤ c ∧ c ≤ 'f' then c.toNat - 87
  else if 'A' ≤ c ∧ c ≤ 'F' then c.toNat - 55
  else 0

/-- `int(s, 16)` on a well-formed hex string. -/
def hexToNat (s : String) : Nat :=
  s.data.foldl (fun a c => a * 16 + hexDigitVal c) 0

/-- Embeds `stable_int_hash` (`generate_qa_dataset.py` lines 105-107): the
first 8 hex digits of the SHA-1 digest, read as an integer.  This is a pure
function of the input string, not Python's per-process `hash()`. -/
def stable_int_hash (s : String) : Nat :=
  hexToNat ((sha1_hex s).take 8)

/-! ## `generate_qa_dataset.py`: configuration and row mapping -/

/-- Embeds the fields of the `DatasetConfig` dataclass
(`generate_qa_dataset.py` lines 151-211) that the map/reduce pipeline
reads; defaults are the dataclass defaults.  Integral config values are
exact Python ints. -/
structure DatasetConfig where
  instruction_from : String := "question"
  output_from : String := "answer"
  input_value : String := ""
  require_fields : List String := ["question", "answer"]
  require_nonempty_sources : Bool := true
  min_question_chars : Int := 20
  max_question_chars : Int := 600
  min_answer_chars : Int := 30
  max_answer_chars : Int := 2000
  languages_allowed : List String := ["de", "en"]
  trust_levels_allowed : List String := ["high", "medium"]
  content_types_allowed : List String :=
    ["textbook", "handbook", "paper", "simulation_report", "api_doc", "software_manual"]
  drop_if_language_mismatch : Bool := false
  dedup_mode : String := "exact"
  dedup_keys : List String := ["instruction", "output"]
  dedup_keep : String := "first"
  dedup_store : String := "hash16"
  workspace_abbr : String := "ws"
  id_strategy : String := "sequential"
  id_zero_pad : Nat := 5
  dry_run : Bool := false
  num_shards : Int := 16
  shard_id : Int := 0
  shard_key : String := "anchor_or_candidate"
  limit_num_files : Int := 0
  limit_num_examples : Int := 0
  write_rejects_jsonl : Bool := true
  write_changelog : Bool := true

/-- Embeds `_get_list` (`generate_qa_dataset.py` lines 342-347). -/
def pyGetList : Jval → List Jval
  | .jnull => []
  | .jarr xs => xs
  | v => [v]

/-- Embeds `_first_nonempty_str` (lines 350-354): the first argument that is
a string with non-whitespace content, stripped. -/
def first_nonempty_str (vals : List Jval) : Option String :=
  vals.findSome? fun v =>
    match v with
    | .jstr s => if pyStrip s ≠ "" then some (pyStrip s) else none
    | _ => none

/-- Word characters for the `\b...\b` regexes of `detect_lang_simple`:
ASCII alphanumerics, underscore, and the German letters the heuristic
cares about (Python's `\w` is the full Unicode word class; the word lists
searched for are ASCII plus `für`). -/
def isWordChar (c : Char) : Bool :=
  c.isAlphanum || c = '_' || c = 'ä' || c = 'ö' || c = 'ü' || c = 'ß'

/-- The word tokens of a string: maximal runs of word characters.  Counting
the tokens equal to `w` is the number of regex matches of `\bw\b`. -/
def wordTokens (t : String) : List String :=
  (splitPred t (fun c => !isWordChar c)).filter (· ≠ "")

/-- Embeds `detect_lang_simple` (lines 84-94): a rough de/en heuristic over
umlaut frequency and stop-word counts.  Lowercasing is ASCII
letters; the source's word lists are already lowercase. -/
def detect_lang_simple (text : String) : String :=
  let t := pyToLower text
  let de_mark := t.data.countP (fun c => c = 'ä' ∨ c = 'ö' ∨ c = 'ü' ∨ c = 'ß')
  let en_words := (wordTokens t).countP
    (· ∈ ["the", "and", "or", "of", "to", "in", "for", "with", "is", "are"])
  let de_words := (wordTokens t).countP
    (· ∈ ["der", "die", "das", "und", "oder", "mit", "für", "ist", "sind"])
  if 2 ≤ de_mark ∨ en_words + 2 < de_words then "de"
  else if de_words + 2 < en_words then "en"
  else "unknown"

/-- Collapse runs of underscores to a single underscore. -/
def collapseUS : List Char → List Char
  | [] => []
  | [c] => [c]
  | c :: d :: rest =>
      let tail := collapseUS (d :: rest)
      if c = '_' ∧ d = '_' then tail else c :: tail

/-- Embeds `safe_slug` (lines 77-81): lowercase, replace non-alphanumeric
runs by `_`, collapse and strip underscores, truncate to `max_len`. -/
def safe_slug (s : String) (max_len : Nat := 40) : String :=
  let lowered := pyToLower (pyStrip s)
  let replaced := lowered.data.map
    (fun c => if ('a' ≤ c ∧ c ≤ 'z') ∨ ('0' ≤ c ∧ c ≤ '9') then c else '_')
  let collapsed := collapseUS replaced
  let stripped := ((collapsed.dropWhile (· = '_')).reverse.dropWhile (· = '_')).reverse
  String.mk (stripped.take max_len)

/-- Is the value a Python `str`? -/
def isStr : Jval → Bool
  | .jstr _ => true
  | _ => false

/-- Is the value a string with non-whitespace content? -/
def isNonemptyStr : Jval → Bool
  | .jstr s => pyStrip s ≠ ""
  | _ => false

/-- Embeds `validate_and_map_candidate` (`generate_qa_dataset.py` lines
357-435).  Returns the mapped sample dict, or the drop reason (the Python
function's `(None, reason)` outcome). -/
def validate_and_map_candidate (cand : Obj) (cfg : DatasetConfig)
    (version created_at_run : String) : Except String Obj :=
  match cfg.require_fields.find? (fun k => !isNonemptyStr (pyGet cand k)) with
  | some k => .error ("missing_or_empty:" ++ k)
  | none =>
  let q := pyStrip (pyStr (getD cand cfg.instruction_from (.jstr "")))
  let a := pyStrip (pyStr (getD cand cfg.output_from (.jstr "")))
  if (q.length : Int) < cfg.min_question_chars then .error "question_too_short"
  else if cfg.max_question_chars < (q.length : Int) then .error "question_too_long"
  else if (a.length : Int) < cfg.min_answer_chars then .error "answer_too_short"
  else if cfg.max_answer_chars < (a.length : Int) then .error "answer_too_long"
  else
  let lang := first_nonempty_str [pyGet cand "language"]
  if (match lang with
      | some l => !cfg.languages_allowed.isEmpty && !cfg.languages_allowed.contains l
      | none => false) then .error "language_not_allowed"
  else
  let trust := first_nonempty_str [pyGet cand "trust_level"]
  if (match trust with
      | some l => !cfg.trust_levels_allowed.isEmpty && !cfg.trust_levels_allowed.contains l
      | none => false) then .error "trust_level_not_allowed"
  else
  let ctypes := ((pyGetList (pyGet cand "content_type")).map pyStr).filter
    (fun s => pyStrip s ≠ "")
  if !ctypes.isEmpty && !cfg.content_types_allowed.isEmpty &&
      !ctypes.any (cfg.content_types_allowed.contains ·) then .error "content_type_not_allowed"
  else
  let source_chunks := pyGet cand "source_chunks"
  if cfg.require_nonempty_sources &&
      (match source_chunks with
       | .jarr xs => xs.isEmpty
       | _ => true) then .error "missing_sources"
  else
  if cfg.drop_if_language_mismatch && (lang == some "de" || lang == some "en") &&
      (let detected := detect_lang_simple (q ++ " " ++ a)
       (detected == "de" || detected == "en") && some detected != lang) then
    .error "language_mismatch"
  else
  let source_ids : List String :=
    match source_chunks with
    | .jarr xs => xs.filterMap (fun v =>
        match v with
        | .jstr s => if pyStrip s ≠ "" then some ("chunk:" ++ pyStrip s) else none
        | _ => none)
    | _ =>
        match pyGet cand "anchor_chunk_id" with
        | .jstr s => ["chunk:" ++ s]
        | _ => []
  let domain := ((pyGetList (pyGet cand "domain")).map pyStr).filter
    (fun s => pyStrip s ≠ "")
  let out : Obj :=
    [("id", .jnull),
     ("instruction", .jstr q),
     ("input", .jstr cfg.input_value),
     ("output", .jstr a),
     ("language", .jstr (lang.getD "unknown")),
     ("content_type", .jarr (ctypes.map .jstr)),
     ("domain", .jarr (domain.map .jstr)),
     ("trust_level", .jstr (trust.getD "unknown")),
     ("source_ids", .jarr (source_ids.map .jstr)),
     ("created_by", .jstr "llm_auto"),
     ("created_at", .jstr created_at_run),
     ("version", .jstr version),
     ("provenance", getD cand "provenance" (.jobj [])),
     ("candidate_id", pyGet cand "id"),
     ("anchor_chunk_id", pyGet cand "anchor_chunk_id"),
     ("anchor_doc_id", pyGet cand "anchor_doc_id"),
     ("difficulty", pyGet cand "difficulty")]
  let workspace :=
    (first_nonempty_str [pyGet cand "workspace", pyGet cand "workspace_name"]).getD ""
  let out := setKey out "workspace" (.jstr workspace)
  let topic0 := first_nonempty_str [pyGet cand "topic"]
  let topic :=
    match topic0 with
    | some t => t
    | none => match domain with
              | d :: _ => safe_slug d
              | [] => ""
  let out := setKey out "topic" (.jstr topic)
  .ok out

/-- `str(seq).zfill(pad)` for a non-negative sequence number. -/
def zfill (s : String) (w : Nat) : String :=
  if s.length < w then String.mk (List.replicate (w - s.length) '0') ++ s else s

/-- Embeds `make_id` (lines 438-448): candidate id pass-through, content
hash, or zero-padded sequential id; an unusable candidate id falls through
to the sequential format. -/
def make_id (cfg : DatasetConfig) (seq : Nat) (sample : Obj) : String :=
  if cfg.id_strategy = "candidate" ∧ isNonemptyStr (pyGet sample "candidate_id") then
    match pyGet sample "candidate_id" with
    | .jstr s => pyStrip s
    | _ => cfg.workspace_abbr ++ "_" ++ zfill (toString seq) cfg.id_zero_pad ++ "_q1"
  else if cfg.id_strategy = "hash" then
    let base := pyStr (pyOr (pyGet sample "anchor_chunk_id") (.jstr "")) ++ "\n" ++
      pyStr (pyOr (pyGet sample "instruction") (.jstr "")) ++ "\n" ++
      pyStr (pyOr (pyGet sample "output") (.jstr ""))
    cfg.workspace_abbr ++ "_" ++ sha1_16 base ++ "_q1"
  else cfg.workspace_abbr ++ "_" ++ zfill (toString seq) cfg.id_zero_pad ++ "_q1"

/-- Embeds `dedup_key` (lines 451-456): the newline join over the configured
keys of `v.strip() if isinstance(v, str) else str(v)`. -/
def dedup_key (sample : Obj) (keys : List String) : String :=
  String.intercalate "\n" (keys.map fun k =>
    match pyGet sample k with
    | .jstr s => pyStrip s
    | v => pyStr v)

/-- Embeds `dedup_fingerprint` (lines 459-461): the raw key for store
`"full"`, else its 16-hex-char SHA-1 prefix. -/
def dedup_fingerprint (cfg : DatasetConfig) (sample : Obj) : String :=
  let k := dedup_key sample cfg.dedup_keys
  if cfg.dedup_store = "full" then k else sha1_16 k

/-- The shard key string chosen by `shard_of_candidate` (lines 464-468):
the question text for `shard_key = "question"`, else the anchor chunk id,
falling back to the candidate id and then the question text. -/
def shardKeyOf (cfg : DatasetConfig) (cand : Obj) : String :=
  if cfg.shard_key = "question" then pyStr (pyOr (pyGet cand cfg.instruction_from) (.jstr ""))
  else
    match first_nonempty_str [pyGet cand "anchor_chunk_id", pyGet cand "id"] with
    | some s => s
    | none => pyStr (pyOr (pyGet cand cfg.instruction_from) (.jstr ""))

/-- Embeds `shard_of_candidate` (lines 464-469): the stable hash of the
shard key, reduced modulo `max(num_shards, 1)`. -/
def shard_of_candidate (cfg : DatasetConfig) (cand : Obj) : Int :=
  (stable_int_hash (shardKeyOf cfg cand) : Int) % (max cfg.num_shards 1)

/-! ## `generate_qa_dataset.py`: map phase (`run_map`, lines 497-569) -/

/-- The mutable counters of a map/reduce run (`Counters`, lines 334-339). -/
structure Counters where
  read : Nat := 0
  kept : Nat := 0
  dropped : Nat := 0
  duped : Nat := 0

/-- State threaded through the `run_map` loops: counters, the local dedup
set `seen`, the intermediate shard rows written so far, and the rejects
rows written so far. -/
structure MapState where
  counters : Counters := {}
  seen : List String := []
  out : List Obj := []
  rejects : List Obj := []

/-- The loop-break condition of lines 559-562: a positive
`limit_num_examples` has been reached by `kept`. -/
def limitReached (cfg : DatasetConfig) (kept : Nat) : Bool :=
  0 < cfg.limit_num_examples && cfg.limit_num_examples ≤ (kept : Int)

/-- The reject row written at line 538. -/
def mapRejectRow (reason fileName : String) (lineNo : Nat) (cand : Obj) : Obj :=
  [("reason", .jstr reason), ("file", .jstr fileName), ("line", .jint (lineNo : Int)),
   ("candidate_id", pyGet cand "id"), ("anchor_chunk_id", pyGet cand "anchor_chunk_id")]

/-- One iteration of the inner `run_map` loop (lines 529-560) on a parsed
row.  Returns the new state and whether the row was kept (the limit check
at lines 559-560 runs only on the kept path, the other paths `continue`). -/
def mapRow (cfg : DatasetConfig) (version created_at : String) (fileName : String)
    (row : Nat × Obj) (st : MapState) : MapState × Bool :=
  let (lineNo, cand) := row
  if shard_of_candidate cfg cand ≠ cfg.shard_id then (st, false)
  else
    let c := st.counters
    let c := { c with read := c.read + 1 }
    match validate_and_map_candidate cand cfg version created_at with
    | .error reason =>
        let rejects :=
          if ¬ cfg.dry_run ∧ cfg.write_rejects_jsonl then
            st.rejects ++ [mapRejectRow reason fileName lineNo cand]
          else st.rejects
        ({ st with counters := { c with dropped := c.dropped + 1 }, rejects := rejects }, false)
    | .ok sample =>
        if cfg.dedup_mode = "exact" ∧ dedup_fingerprint cfg sample ∈ st.seen then
          ({ st with counters := { c with duped := c.duped + 1 } }, false)
        else
          let seen :=
            if cfg.dedup_mode = "exact" then dedup_fingerprint cfg sample :: st.seen
            else st.seen
          let sample := setKey sample "id" .jnull
          let out := if ¬ cfg.dry_run then st.out ++ [sample] else st.out
          ({ st with counters := { c with kept := c.kept + 1 }, seen := seen, out := out }, true)

/-- The inner `run_map` loop over the parsed rows of one candidate file. -/
def mapRows (cfg : DatasetConfig) (version created_at fileName : String) :
    List (Nat × Obj) → MapState → MapState
  | [], st => st
  | row :: rest, st =>
      let r := mapRow cfg version created_at fileName row st
      if r.2 ∧ limitReached cfg r.1.counters.kept then r.1
      else mapRows cfg version created_at fileName rest r.1

/-- The outer `run_map` loop over the input files (name, parsed rows). -/
def mapFiles (cfg : DatasetConfig) (version created_at : String) :
    List (String × List (Nat × Obj)) → MapState → MapState
  | [], st => st
  | (name, rows) :: rest, st =>
      let st' := mapRows cfg version created_at name rows st
      if limitReached cfg st'.counters.kept then st'
      else mapFiles cfg version created_at rest st'

/-- Embeds `run_map` (lines 497-569).  `in_files` are the glob-sorted
candidate files with their parsed rows (`read_jsonl` yields only the valid
dict rows, with their line numbers).  The two guard clauses are the fatal
`ValueError`s of lines 498-501; file-system effects are not modelled beyond
the written rows. -/
def run_map (cfg : DatasetConfig) (version created_at : String)
    (in_files : List (String × List (Nat × Obj))) : Except String MapState :=
  if cfg.num_shards ≤ 0 then .error "num_shards must be > 0"
  else if cfg.shard_id < 0 ∨ cfg.num_shards ≤ cfg.shard_id then
    .error "shard_id out of range"
  else
    let files :=
      if 0 < cfg.limit_num_files then in_files.take cfg.limit_num_files.toNat else in_files
    .ok (mapFiles cfg version created_at files {})

/-! ## `generate_qa_dataset.py`: reduce phase (`run_reduce`, lines 572-672) -/

/-- State threaded through the `run_reduce` loops; `seq` is the final-id
sequence counter. -/
structure RedState where
  counters : Counters := {}
  seq : Nat := 0
  seen : List String := []
  out : List Obj := []
  rejects : List Obj := []

/-- One iteration of the inner `run_reduce` loop (lines 607-635) on a
parsed shard row; returns the new state and whether the row was kept. -/
def redRow (cfg : DatasetConfig) (created_at : String) (fileName : String)
    (row : Nat × Obj) (st : RedState) : RedState × Bool :=
  let (lineNo, sample) := row
  let c := st.counters
  let c := { c with read := c.read + 1 }
  if ¬ (isStr (pyGet sample "instruction") ∧ isStr (pyGet sample "output")) then
    let rejects :=
      if ¬ cfg.dry_run ∧ cfg.write_rejects_jsonl then
        st.rejects ++ [[("reason", .jstr "invalid_intermediate_sample"),
                        ("file", .jstr fileName), ("line", .jint (lineNo : Int))]]
      else st.rejects
    ({ st with counters := { c with dropped := c.dropped + 1 }, rejects := rejects }, false)
  else if cfg.dedup_mode = "exact" ∧ dedup_fingerprint cfg sample ∈ st.seen then
    ({ st with counters := { c with duped := c.duped + 1 } }, false)
  else
    let seen :=
      if cfg.dedup_mode = "exact" then dedup_fingerprint cfg sample :: st.seen
      else st.seen
    let seq := st.seq + 1
    let sample := setKey sample "created_at" (.jstr created_at)
    let sample := setKey sample "id" (.jstr (make_id cfg seq sample))
    let out := if ¬ cfg.dry_run then st.out ++ [sample] else st.out
    ({ st with counters := { c with kept := c.kept + 1 }, seq := seq, seen := seen,
               out := out }, true)

/-- The inner `run_reduce` loop over the parsed rows of one shard file. -/
def redRows (cfg : DatasetConfig) (created_at fileName : String) :
    List (Nat × Obj) → RedState → RedState
  | [], st => st
  | row :: rest, st =>
      let r := redRow cfg created_at fileName row st
      if r.2 ∧ limitReached cfg r.1.counters.kept then r.1
      else redRows cfg created_at fileName rest r.1

/-- The outer `run_reduce` loop over the shard files (name, parsed rows). -/
def redFiles (cfg : DatasetConfig) (created_at : String) :
    List (String × List (Nat × Obj)) → RedState → RedState
  | [], st => st
  | (name, rows) :: rest, st =>
      let st' := redRows cfg created_at name rows st
      if limitReached cfg st'.counters.kept then st'
      else redFiles cfg created_at rest st'

/-- The changelog stats of a reduce run (lines 644-663): the four counters
(the filter block only echoes configuration). -/
structure ChangelogStats where
  read : Nat
  kept : Nat
  dropped : Nat
  duped : Nat

/-- Result of a successful reduce: final loop state plus the changelog
entry, present exactly when one is written (not dry-run, `write_changelog`). -/
structure ReduceResult where
  state : RedState
  changelog : Option ChangelogStats

/-- The `shard_{i:02d}` part of a shard file name. -/
def shardFileName (i : Nat) : String :=
  "shard_" ++ zfill (toString i) 2 ++ ".jsonl"

/-- Embeds `run_reduce` (lines 572-672).  `shards i` is the parsed content
of intermediate file `shard_{i:02d}.jsonl`, or `none` if that file does not
exist.  The function checks that every one of the `num_shards` shard files
exists before producing any output (the existence loop of lines 583-586
precedes the opening of the output, rejects and changelog files), and a
missing file is the fatal `FileNotFoundError`. -/
def run_reduce (cfg : DatasetConfig) (_version created_at : String)
    (shards : Nat → Option (List (Nat × Obj))) : Except String ReduceResult :=
  if cfg.num_shards ≤ 0 then .error "num_shards must be > 0"
  else
    let idxs := List.range cfg.num_shards.toNat
    match idxs.find? (fun i => (shards i).isNone) with
    | some i => .error ("Missing shard file: " ++ shardFileName i ++ " (run map first for all shards)")
    | none =>
        let files := idxs.map (fun i => (shardFileName i, (shards i).getD []))
        let final := redFiles cfg created_at files {}
        let changelog :=
          if ¬ cfg.dry_run ∧ cfg.write_changelog then
            some ⟨final.counters.read, final.counters.kept, final.counters.dropped,
                  final.counters.duped⟩
          else none
        .ok ⟨final, changelog⟩

/-! ## `generate_qa_candidates.py`: configuration and chunk helpers -/

/-- Embeds `FaissMetricInfo` (`generate_qa_candidates.py` lines 180-188). -/
structure FaissMetricInfo where
  metric : String := "IP"
  index_type : String := "IndexFlatIP"
  normalized : Bool := true

/-- The `higher_is_better` property (lines 186-188). -/
def FaissMetricInfo.higher_is_better (m : FaissMetricInfo) : Bool :=
  pyToUpper m.metric == "IP"

/-- The values read from `cfg.filters` (with the defaults used at the read
sites in `is_candidate_chunk` and `filter_faiss_neighbors`). -/
structure QAFilters where
  languages_allowed : List String := []
  trust_levels_allowed : List String := []
  chunk_roles_allowed : List String := []
  content_types_allowed : List String := []
  artifact_roles_excluded : List String := []
  min_content_chars : Int := 0

/-- The values read from `cfg.neighbors`. -/
structure QANeighbors where
  max_local_neighbors_before : Int := 1
  max_local_neighbors_after : Int := 1
  similarity_threshold : ℚ := 0
  max_neighbors : Int := 8
  top_k_faiss : Int := 16

/-- The values read from `cfg.grouping`. -/
structure QAGrouping where
  min_group_size : Int := 2
  max_group_size : Int := 6
  max_chars_per_chunk : Int := 1200
  max_total_context_chars : Int := 0

/-- The values read from `cfg.sampling`; `max_qa_per_document` may be an
int or an adaptive-mode dict, so it stays a `Jval`. -/
structure QASampling where
  max_qa_per_group : Int := 3
  max_groups_per_chunk : Int := 1
  max_qa_per_document : Jval := .jint 0
  global_qa_limit : Int := 0

/-- The values read from `cfg.runtime`. -/
structure QARuntime where
  resume_mode : String := "append"
  dry_run : Bool := false
  log_every_n_examples : Int := 50
  grounding_drop_if_meta_leak : Bool := false

/-- The values read from `cfg.llm` (lines 740-749 and 765); the sampling
parameters are forwarded to the external model call and recorded in
provenance.  `plan_max_tokens` is `none` when unset, giving the read-site
default `min(900, max_tokens)`. -/
structure QALlm where
  backend : String := "ollama"
  model : String := "qwen2.5:32b-instruct-q4_K_M"
  temperature : ℚ := 2 / 10
  top_p : ℚ := 9 / 10
  max_tokens : Int := 1024
  num_ctx : Int := 8192
  request_timeout_s : Int := 600
  max_retries : Nat := 3
  retry_backoff_s : ℚ := 5
  plan_max_tokens : Option Int := none

/-- The values read from `cfg.debug`. -/
structure QADebug where
  limit_num_chunks : Int := 0
  limit_num_files : Int := 0

/-- Embeds the `QAConfig` property-accessor bundle (lines 62-101) as the
typed values the pipeline extracts from the raw config dict; defaults are
the defaults used at each read site. -/
structure QAConfig where
  filters : QAFilters := {}
  neighbors : QANeighbors := {}
  grouping : QAGrouping := {}
  sampling : QASampling := {}
  runtime : QARuntime := {}
  llm : QALlm := {}
  debug : QADebug := {}

/-- Embeds `get_semantic_field` (lines 357-363): a top-level key wins, else
the field is looked up in the `semantic` sub-dict. -/
def get_semantic_field (chunk : Obj) (field : String) (dflt : Jval) : Jval :=
  match getKey chunk field with
  | some v => v
  | none =>
      match pyOr (pyGet chunk "semantic") (.jobj []) with
      | .jobj kvs => getD kvs field dflt
      | _ => dflt

/-- Embeds `get_flat_list_field` (lines 366-372): a string becomes a
singleton, a list is stringified elementwise, anything else is empty. -/
def get_flat_list_field (chunk : Obj) (field : String) : List String :=
  match get_semantic_field chunk field (.jarr []) with
  | .jstr s => [s]
  | .jarr xs => xs.map pyStr
  | _ => []

/-- Python `x in <set of strings>` for a value `x`: only a string can be a
member. -/
def jvalInStrs (v : Jval) (ss : List String) : Bool :=
  match v with
  | .jstr s => ss.contains s
  | _ => false

/-- Embeds `is_candidate_chunk` (lines 375-421): the anchor-eligibility
filter over language, trust level, chunk role, content type, artifact role
and minimum content length. -/
def is_candidate_chunk (chunk : Obj) (cfg : QAConfig) : Bool :=
  let fl := cfg.filters
  let language := pyGet chunk "language"
  if !fl.languages_allowed.isEmpty && !jvalInStrs language fl.languages_allowed then false
  else
  let trust_level := get_semantic_field chunk "trust_level" .jnull
  if !fl.trust_levels_allowed.isEmpty &&
      !(match trust_level with
        | .jarr xs => (xs.map pyStr).any (fl.trust_levels_allowed.contains ·)
        | v => jvalInStrs v fl.trust_levels_allowed) then false
  else
  let chunk_role := get_semantic_field chunk "chunk_role" .jnull
  if !fl.chunk_roles_allowed.isEmpty &&
      !(match chunk_role with
        | .jarr xs => (xs.map pyStr).any (fl.chunk_roles_allowed.contains ·)
        | v => jvalInStrs v fl.chunk_roles_allowed) then false
  else
  let content_types := get_flat_list_field chunk "content_type"
  if !fl.content_types_allowed.isEmpty &&
      !content_types.any (fl.content_types_allowed.contains ·) then false
  else
  let artifact_roles := get_flat_list_field chunk "artifact_role"
  if !fl.artifact_roles_excluded.isEmpty &&
      artifact_roles.any (fl.artifact_roles_excluded.contains ·) then false
  else
  match pyOr (pyGet chunk "content") (.jstr "") with
  | .jstr s =>
      if pyStrip s = "" then false
      else if 0 < fl.min_content_chars ∧ ((pyStrip s).length : Int) < fl.min_content_chars then
        false
      else true
  | _ => false

/-- Embeds `get_local_neighbors` (lines 424-446): up to `before` preceding
and `after` following chunks of the same document.  The Python loops break
at the first out-of-range offset; since subsequent offsets are also out of
range, the break is equivalent to the bound filter used here. -/
def get_local_neighbors (chunks : List Obj) (idx : Nat) (cfg : QAConfig) : List Obj :=
  let nb := cfg.neighbors.max_local_neighbors_before.toNat
  let na := cfg.neighbors.max_local_neighbors_after.toNat
  ((List.range nb).filterMap (fun o =>
      if o + 1 ≤ idx then some (chunks.getD (idx - (o + 1)) []) else none)) ++
  ((List.range na).filterMap (fun o =>
      if idx + o + 1 < chunks.length then some (chunks.getD (idx + o + 1) []) else none))

mutual
/-- Python `==` on the modelled values (used for the
`nb_chunk_id == candidate_chunk_id` comparison; chunk ids are strings or
`None`).  Numeric cross-type equality follows Python; dict comparison is
modelled order-sensitively, which agrees with Python on the dicts this
pipeline compares. -/
def jvalEq : Jval → Jval → Bool
  | .jnull, .jnull => true
  | .jbool a, .jbool b => a == b
  | .jint a, .jint b => a == b
  | .jfloat a, .jfloat b => a == b
  | .jint a, .jfloat b => ((a : ℚ) == b)
  | .jfloat a, .jint b => (a == (b : ℚ))
  | .jbool a, .jint b => ((if a then (1 : Int) else 0) == b)
  | .jint a, .jbool b => (a == (if b then (1 : Int) else 0))
  | .jstr a, .jstr b => a == b
  | .jarr a, .jarr b => jvalEqList a b
  | .jobj a, .jobj b => jvalEqKvs a b
  | _, _ => false

/-- Elementwise Python `==` on lists. -/
def jvalEqList : List Jval → List Jval → Bool
  | [], [] => true
  | x :: xs, y :: ys => jvalEq x y && jvalEqList xs ys
  | _, _ => false

/-- Entrywise Python `==` on dict entries. -/
def jvalEqKvs : List (String × Jval) → List (String × Jval) → Bool
  | [], [] => true
  | (k1, v1) :: xs, (k2, v2) :: ys => k1 == k2 && jvalEq v1 v2 && jvalEqKvs xs ys
  | _, _ => false
end

/-- The score of a neighbor row as computed at lines 475-479:
`float(score)` when present, `0.0` when `None` or unconvertible. -/
def neighborScore (nb : Obj) : ℚ :=
  match pyGet nb "score" with
  | .jnull => 0
  | v => (pyFloat? v).getD 0

/-- The sort key of line 512: `float(x.get("score") or 0.0)`. -/
def neighborSortKey (nb : Obj) : ℚ :=
  (pyFloat? (pyOr (pyGet nb "score") (.jfloat 0))).getD 0

/-- Stable insertion of an element into a list sorted by the boolean
preorder `le`: the element goes before the first strictly greater entry,
after equal ones (the order Python's stable `list.sort` produces). -/
def stableInsertBy {α : Type} (le : α → α → Bool) (p : α) : List α → List α
  | [] => [p]
  | q :: rest =>
      if le q p && !(le p q) then q :: stableInsertBy le p rest
      else p :: q :: rest

/-- Stable sort by the boolean preorder `le` (insertion sort; agrees with
Python's stable `list.sort` for any total preorder). -/
def stableSortBy {α : Type} (le : α → α → Bool) : List α → List α
  | [] => []
  | x :: xs => stableInsertBy le x (stableSortBy le xs)

/-- Embeds `filter_faiss_neighbors` (lines 449-519): drop the anchor
itself, apply the threshold in the metric's direction, apply the
language/trust/content-type/artifact-role/domain filters, then stable-sort
by score (descending for inner product, ascending for L2) and truncate to
`max_neighbors`. -/
def filter_faiss_neighbors (candidate : Obj) (neighbors : List Obj)
    (cfg : QAConfig) (metric_info : FaissMetricInfo) : List Obj :=
  let fl := cfg.filters
  let domains_candidate := get_flat_list_field candidate "domain"
  let score_threshold := cfg.neighbors.similarity_threshold
  let max_neighbors := cfg.neighbors.max_neighbors
  let candidate_chunk_id := pyGet candidate "chunk_id"
  let keep := fun (nb : Obj) =>
    if jvalEq (pyGet nb "chunk_id") candidate_chunk_id then false
    else
    let score_f := neighborScore nb
    if Rat.blt 0 score_threshold &&
        (if metric_info.higher_is_better then Rat.blt score_f score_threshold
         else Rat.blt score_threshold score_f) then false
    else
    if !fl.languages_allowed.isEmpty &&
        !jvalInStrs (pyGet nb "language") fl.languages_allowed then false
    else
    if !fl.trust_levels_allowed.isEmpty &&
        !jvalInStrs (get_semantic_field nb "trust_level" .jnull) fl.trust_levels_allowed then
      false
    else
    let nb_ct := get_flat_list_field nb "content_type"
    if !fl.content_types_allowed.isEmpty &&
        !nb_ct.any (fl.content_types_allowed.contains ·) then false
    else
    let nb_ar := get_flat_list_field nb "artifact_role"
    if !fl.artifact_roles_excluded.isEmpty &&
        nb_ar.any (fl.artifact_roles_excluded.contains ·) then false
    else
    let nb_domains := get_flat_list_field nb "domain"
    if !domains_candidate.isEmpty && !nb_domains.isEmpty &&
        !nb_domains.any (domains_candidate.contains ·) then false
    else true
  let filtered := neighbors.filter keep
  let sorted :=
    if metric_info.higher_is_better then
      stableSortBy (fun a b => !Rat.blt (neighborSortKey a) (neighborSortKey b)) filtered
    else
      stableSortBy (fun a b => !Rat.blt (neighborSortKey b) (neighborSortKey a)) filtered
  if 0 < max_neighbors then sorted.take max_neighbors.toNat else sorted

/-! ## `generate_qa_candidates.py`: plan validation, retries, evidence -/

/-- Embeds `parse_plan_output` (lines 140-178): the strict schema check on
the pass-1 output — a one-element array holding a dict with exactly two
evidence-backed takeaways, a boolean `equations_present`, and string lists
`equation_quotes` and `generator_checks`.  Returns the dict if valid. -/
def parse_plan_output (plan_arr : List Jval) : Option Obj :=
  match plan_arr with
  | [.jobj obj] =>
      let tkOk := fun (t : Jval) =>
        match t with
        | .jobj tk =>
            isNonemptyStr (pyGet tk "takeaway") &&
            (match pyGet tk "evidence_chunks" with
             | .jarr evs => !evs.isEmpty && evs.all isNonemptyStr
             | _ => false)
        | _ => false
      match pyGet obj "takeaways" with
      | .jarr [t1, t2] =>
          if tkOk t1 && tkOk t2 &&
              (match pyGet obj "equations_present" with
               | .jbool _ => true
               | _ => false) &&
              (match pyGet obj "equation_quotes" with
               | .jarr xs => xs.all isStr
               | _ => false) &&
              (match pyGet obj "generator_checks" with
               | .jarr xs => xs.all isStr
               | _ => false) then
            some obj
          else none
      | _ => none
  | _ => none

/-- The two ways one LLM HTTP call can fail, as distinguished by
`call_llm_ollama_once` (lines 541-598): the HTTP-404 "model tag not
available" `RuntimeError`, and every other (transient HTTP / empty-content
/ JSON-parse) failure. -/
inductive LLMErr where
  | notFound404 : LLMErr
  | transient : LLMErr

/-- Outcome of `call_llm_ollama_with_retries`: the final result, the number
of attempts actually made, and the sleep durations between attempts. -/
structure RetryOutcome where
  result : Except LLMErr (List Jval)
  attempts : Nat
  sleeps : List ℚ

/-- The backoff-with-jitter sleep before retrying after failed attempt
`attempt` (lines 635-637): `retry_backoff_s * 2**attempt`, jittered into
`[0.9, 1.1)` of itself by `0.9 + 0.2 * random()`, clamped at 0. -/
def sleepFor (backoff : ℚ) (attempt : Nat) (r : ℚ) : ℚ :=
  max 0 (backoff * 2 ^ attempt * (9 / 10 + 2 / 10 * r))

/-- The retry loop of lines 618-637, parametrized by the outcome of each
attempt (`oracle`) and the jitter draws (`rand`); `remaining` counts the
attempts still permitted, starting at `max_retries + 1`. -/
def callRetriesGo (oracle : Nat → Except LLMErr (List Jval)) (rand : Nat → ℚ)
    (backoff : ℚ) (attempt : Nat) : Nat → RetryOutcome
  | 0 => ⟨.error .transient, 0, []⟩
  | remaining + 1 =>
      match oracle attempt with
      | .ok xs => ⟨.ok xs, 1, []⟩
      | .error e =>
          if remaining = 0 then ⟨.error e, 1, []⟩
          else
            let res := callRetriesGo oracle rand backoff (attempt + 1) remaining
            ⟨res.result, res.attempts + 1,
             sleepFor backoff attempt (rand attempt) :: res.sleeps⟩

/-- Embeds `call_llm_ollama_with_retries` (lines 601-641): up to
`max_retries + 1` attempts (`for attempt in range(max_retries + 1)`), the
first success wins, exponential backoff with jitter between attempts, and
after the last failed attempt the last error is re-raised — a 404 is
retried and re-raised like any other failure. -/
def call_llm_ollama_with_retries (oracle : Nat → Except LLMErr (List Jval))
    (rand : Nat → ℚ) (backoff : ℚ) (max_retries : Nat) : RetryOutcome :=
  callRetriesGo oracle rand backoff 0 (max_retries + 1)

/-- Embeds `normalize_chunk_id_list` (lines 279-286): the non-blank string
entries of a list value, stripped; anything non-list is empty. -/
def normalize_chunk_id_list : Jval → List String
  | .jarr xs => xs.filterMap (fun v =>
      match v with
      | .jstr s => if pyStrip s ≠ "" then some (pyStrip s) else none
      | _ => none)
  | _ => []

/-- The chunk-id list of a context group as computed at line 991:
`[c.get("chunk_id") for c in context_group if isinstance(c.get("chunk_id"), str)]`. -/
def allChunkIds (context_group : List Obj) : List String :=
  context_group.filterMap (fun c =>
    match pyGet c "chunk_id" with
    | .jstr s => some s
    | _ => none)

/-- The raw evidence value of lines 994-999:
`qa_obj.get("evidence_chunks") or qa_obj.get("source_chunks") or qa_obj.get("evidence") or []`. -/
def rawEvidence (qa_obj : Obj) : Jval :=
  pyOr (pyGet qa_obj "evidence_chunks")
    (pyOr (pyGet qa_obj "source_chunks")
      (pyOr (pyGet qa_obj "evidence") (.jarr [])))

/-- The evidence resolution of lines 991-1003: normalize the model's
evidence list, keep the ids that belong to the group, and substitute the
full context id list when nothing remains. -/
def resolveEvidence (context_group : List Obj) (qa_obj : Obj) : List String :=
  let all_chunk_ids := allChunkIds context_group
  let evidence := (normalize_chunk_id_list (rawEvidence qa_obj)).filter
    (fun cid => all_chunk_ids.contains cid)
  if evidence.isEmpty then all_chunk_ids else evidence

/-- Embeds `_contains_meta_leak` (lines 212-220): case-insensitive
substring search for deictic phrases. -/
def contains_meta_leak (text : String) : Bool :=
  let t := pyToLower text
  ["in the text", "in this text", "in the article", "in this article", "in this paper",
   "this section", "this chapter", "as mentioned", "as described", "here", "above", "below",
   "im text", "in diesem text", "im artikel", "in diesem artikel", "in dieser arbeit",
   "dieser abschnitt", "dieses kapitel", "wie oben", "wie unten", "hier", "oben",
   "unten"].any (fun p => containsSub t p)

/-- Python `int(x)` on the value kinds that reach `_as_int` and the
adaptive-quota reads: ints pass through, floats truncate toward zero, bools
become 0/1, strings parse as signed decimal integers; otherwise `none`
(the exception branch). -/
def pyInt? : Jval → Option Int
  | .jint n => some n
  | .jfloat q => some (q.num.tdiv q.den)
  | .jbool b => some (if b then 1 else 0)
  | .jstr s =>
      let s := pyStrip s
      let (neg, body) :=
        if pyStartsWith s "-" then (true, s.drop 1)
        else if pyStartsWith s "+" then (false, s.drop 1) else (false, s)
      if body ≠ "" ∧ body.data.all (fun c => (decDigitVal c).isSome) then
        let n : Int := body.data.foldl (fun a c => a * 10 + (((decDigitVal c).getD 0 : Nat) : Int)) 0
        some (if neg then -n else n)
      else none
  | _ => none

/-- Python `float(x)` with rationals, for numeric config reads. -/
def pyRat (v : Jval) (dflt : ℚ) : ℚ := (pyFloat? v).getD dflt

/-- Python `round(x)` (banker's rounding, half to even) on a rational. -/
def pyRound (q : ℚ) : Int :=
  let f := ⌊q⌋
  let frac := q - (f : ℚ)
  if frac < 1 / 2 then f
  else if 1 / 2 < frac then f + 1
  else if f % 2 = 0 then f else f + 1

/-- Embeds `compute_max_qa_per_document` (lines 223-237): a plain int is
the quota; an adaptive dict scales with chunk count and character volume,
clamped to `[min, max]`; a `fixed` dict uses `value`; everything else
(including a dict with an unknown mode) yields 50. -/
def compute_max_qa_per_document (max_cfg : Jval) (num_chunks : Nat)
    (total_chars : Nat) : Int :=
  match max_cfg with
  | .jint n => n
  | .jobj kvs =>
      let mode := pyToLower (pyStr (pyOr (pyGet kvs "mode") (.jstr "adaptive")))
      if mode = "adaptive" then
        let mn := (pyInt? (getD kvs "min" (.jint 10))).getD 0
        let mx := (pyInt? (getD kvs "max" (.jint 200))).getD 0
        let per_100_chunks := pyRat (getD kvs "per_100_chunks" (.jfloat 5)) 0
        let per_100k_chars := pyRat (getD kvs "per_100k_chars" (.jfloat 0)) 0
        let v := pyRound ((num_chunks : ℚ) / 100 * per_100_chunks +
          (total_chars : ℚ) / 100000 * per_100k_chars)
        max mn (min mx v)
      else if mode = "fixed" then (pyInt? (getD kvs "value" (.jint 50))).getD 0
      else 50
  | _ => 50

/-- JSON string escaping as produced by `json.dumps` with
`ensure_ascii=False` (quote, backslash and the common control characters;
other characters pass through). -/
def jsonEscChar (c : Char) : String :=
  if c = '"' then "\\\""
  else if c = '\\' then "\\\\"
  else if c = '\n' then "\\n"
  else if c = '\t' then "\\t"
  else if c = '\r' then "\\r"
  else String.mk [c]

/-- JSON string literal. -/
def jsonStr (s : String) : String :=
  "\"" ++ String.join (s.data.map jsonEscChar) ++ "\""

/-- Code-point lexicographic strict order on character lists (how Python
compares strings). -/
def strLtChars : List Char → List Char → Bool
  | [], [] => false
  | [], _ :: _ => true
  | _ :: _, [] => false
  | c :: cs, d :: ds =>
      if c.toNat < d.toNat then true
      else if d.toNat < c.toNat then false
      else strLtChars cs ds

/-- Code-point `a <= b` on strings. -/
def strLeB (a b : String) : Bool := !(strLtChars b.data a.data)

/-- Insert an entry into a key-sorted entry list (insertion step). -/
def insertByKey (p : String × Jval) : List (String × Jval) → List (String × Jval)
  | [] => [p]
  | q :: rest => if strLeB p.fst q.fst then p :: q :: rest else q :: insertByKey p rest

/-- Sort dict entries by key (insertion sort; dict keys are unique, so any
correct sort agrees with Python's). -/
def sortByKey : List (String × Jval) → List (String × Jval)
  | [] => []
  | p :: rest => insertByKey p (sortByKey rest)

mutual
/-- Recursively sort all dict keys in a value (the `sort_keys=True` part of
the canonical dump). -/
def sortJval : Jval → Jval
  | .jarr xs => .jarr (sortJvalList xs)
  | .jobj kvs => .jobj (sortByKey (sortJvalKvs kvs))
  | v => v

/-- `sortJval` mapped over array elements. -/
def sortJvalList : List Jval → List Jval
  | [] => []
  | x :: rest => sortJval x :: sortJvalList rest

/-- `sortJval` mapped over entry values. -/
def sortJvalKvs : List (String × Jval) → List (String × Jval)
  | [] => []
  | (k, v) :: rest => (k, sortJval v) :: sortJvalKvs rest
end

mutual
/-- Compact JSON dump (`separators=(",", ":")`, `ensure_ascii=False`) of an
already key-sorted value; float rendering approximated (the pipeline only
dumps strings, ints, bools and containers of those). -/
def jsonDumpsCompact : Jval → String
  | .jnull => "null"
  | .jbool true => "true"
  | .jbool false => "false"
  | .jint n => toString n
  | .jfloat q => toString q
  | .jstr s => jsonStr s
  | .jarr xs => "[" ++ jsonDumpsSeq xs ++ "]"
  | .jobj kvs => "\x7b" ++ jsonDumpsKvs kvs ++ "\x7d"

/-- Comma-joined array elements. -/
def jsonDumpsSeq : List Jval → String
  | [] => ""
  | [x] => jsonDumpsCompact x
  | x :: y :: rest => jsonDumpsCompact x ++ "," ++ jsonDumpsSeq (y :: rest)

/-- Comma-joined dict entries. -/
def jsonDumpsKvs : List (String × Jval) → String
  | [] => ""
  | [(k, v)] => jsonStr k ++ ":" ++ jsonDumpsCompact v
  | (k, v) :: e :: rest =>
      jsonStr k ++ ":" ++ jsonDumpsCompact v ++ "," ++ jsonDumpsKvs (e :: rest)
end

/-- `json.dumps(obj, sort_keys=True, ensure_ascii=False, separators=(",", ":"))`. -/
def jsonDumpsSorted (v : Jval) : String := jsonDumpsCompact (sortJval v)

/-- Embeds `_stable_sha1_16` (lines 200-202): 16 hex chars of the SHA-1 of
the canonical (sorted-keys, compact) JSON dump. -/
def stable_sha1_16 (obj : Obj) : String :=
  sha1_16 (jsonDumpsSorted (.jobj obj))

/-- `(payload.get(k) or "").strip()` for the string payload fields of
`make_candidate_id`. -/
def payloadStr (payload : Obj) (k : String) : String :=
  match pyOr (pyGet payload k) (.jstr "") with
  | .jstr s => pyStrip s
  | v => pyStrip (pyStr v)

/-- Embeds `make_candidate_id` (lines 205-209): deterministic candidate id
from the anchor id and a content hash of question, answer and index. -/
def make_candidate_id (anchor_chunk_id : String) (qa_index : Nat) (payload : Obj) : String :=
  let q := payloadStr payload "question"
  let a := payloadStr payload "answer"
  let h := stable_sha1_16 [("q", .jstr q), ("a", .jstr a), ("i", .jint (qa_index : Int))]
  anchor_chunk_id ++ ":" ++ h

/-- Embeds `make_source_ref` (lines 268-277). -/
def make_source_ref (chunk : Obj) : Obj :=
  let meta :=
    match pyGet chunk "meta" with
    | .jobj kvs => kvs
    | _ => []
  let asIntJ := fun (v : Jval) =>
    match pyInt? v with
    | some n => Jval.jint n
    | none => Jval.jnull
  [("chunk_id", pyGet chunk "chunk_id"), ("doc_id", pyGet chunk "doc_id"),
   ("source_path", pyGet chunk "source_path"), ("title", pyGet chunk "title"),
   ("page_start", asIntJ (pyGet meta "page_start")),
   ("page_end", asIntJ (pyGet meta "page_end"))]

/-! ## `generate_qa_candidates.py`: context-group assembly (lines 1121-1223) -/

/-- The guarded per-chunk projection `slim_chunk` (lines 1145-1164),
threading the `seen_ids` dedup set: a chunk whose stringified id is falsy
or already seen yields nothing. -/
def slimChunk (seen : List String) (ch : Obj) : Option Obj × List String :=
  let cid := pyStr (pyGet ch "chunk_id")
  if cid = "" ∨ cid ∈ seen then (none, seen)
  else
    let summary :=
      match get_semantic_field ch "summary_short" .jnull with
      | .jstr s => Jval.jstr s
      | _ => Jval.jnull
    (some [("chunk_id", .jstr cid), ("doc_id", pyGet ch "doc_id"),
           ("language", pyGet ch "language"),
           ("trust_level", get_semantic_field ch "trust_level" .jnull),
           ("content_type", .jarr ((get_flat_list_field ch "content_type").map .jstr)),
           ("domain", .jarr ((get_flat_list_field ch "domain").map .jstr)),
           ("summary_short", summary),
           ("content", pyGet ch "content")], cid :: seen)

/-- `slim_chunk` folded over a chunk list, keeping the successful slims. -/
def slimFold (seen : List String) : List Obj → List Obj × List String
  | [] => ([], seen)
  | ch :: rest =>
      match slimChunk seen ch with
      | (some s, seen') =>
          let (xs, seen'') := slimFold seen' rest
          (s :: xs, seen'')
      | (none, seen') => slimFold seen' rest

/-- The windowing loop of lines 1210-1218: slice the remaining FAISS slims
into windows of `rs` (the free slots per group), append each window that
reaches `min_group_size`, and stop once `max_groups_per_chunk` (when
positive) is reached.  The fuel argument (any bound on the remaining list
length) keeps the recursion structural; callers guarantee `1 ≤ rs`. -/
def windowLoopAux (bp : List Obj) (rs : Nat) (minSize maxg : Int) :
    Nat → List Obj → List (List Obj) → List (List Obj)
  | _, [], acc => acc
  | 0, _, acc => acc
  | fuel + 1, x :: rest, acc =>
      let g := bp ++ (x :: rest).take rs
      let acc' := if minSize ≤ (g.length : Int) then acc ++ [g] else acc
      if 0 < maxg ∧ maxg ≤ (acc'.length : Int) then acc'
      else windowLoopAux bp rs minSize maxg fuel ((x :: rest).drop rs) acc'

/-- The anchor's stringified chunk id (`str(chunk.get("chunk_id"))`). -/
def anchorIdOf (candidate : Obj) : String := pyStr (pyGet candidate "chunk_id")

/-- The stringified chunk id of a (slim) chunk dict. -/
def slimId (s : Obj) : String := pyStr (pyGet s "chunk_id")

/-- The anchor's slim (line 1168), started with an empty `seen_ids` set. -/
def cgAnchor (candidate : Obj) : Option Obj × List String := slimChunk [] candidate

/-- The base of every context group (lines 1166-1175): the anchor slim
followed by the local-neighbor slims, with the threaded `seen_ids` set. -/
def cgBase (candidate : Obj) (local_neighbors : List Obj) : List Obj × List String :=
  let a := cgAnchor candidate
  let base0 : List Obj := match a.1 with | some s => [s] | none => []
  let l := slimFold a.2 local_neighbors
  (base0 ++ l.1, l.2)

/-- The slimmed FAISS neighbors (lines 1177-1182), deduplicated against the
base's `seen_ids`. -/
def cgFaissSlim (candidate : Obj) (local_neighbors faiss_neighbors : List Obj) : List Obj :=
  (slimFold (cgBase candidate local_neighbors).2 faiss_neighbors).1

/-- The group-assembly step of `build_context_groups` (lines 1195-1223),
applied once the prefilled base `bp0` and the window start index are
known: cap the base to `max_group_size`, then emit the single base group
or window the remaining FAISS slims. -/
def cgAssemble (cfg : QAConfig) (max_groups_per_chunk : Int) (faiss_slim : List Obj)
    (bp0 : List Obj) (start_idx : Nat) : List (List Obj) :=
  let minSize := cfg.grouping.min_group_size
  let maxSize := cfg.grouping.max_group_size
  let bp := if maxSize < (bp0.length : Int) then bp0.take maxSize.toNat else bp0
  let remaining_slots : Int := maxSize - bp.length
  if remaining_slots ≤ 0 ∨ faiss_slim.length ≤ start_idx then
    let groups := [bp]
    if 0 < max_groups_per_chunk then groups.take max_groups_per_chunk.toNat else groups
  else
    let rest := faiss_slim.drop start_idx
    let groups := windowLoopAux bp remaining_slots.toNat minSize max_groups_per_chunk
      rest.length rest []
    if groups.isEmpty then [bp] else groups

/-- Embeds `build_context_groups` (lines 1121-1223): slim the anchor, the
local neighbors, and the FAISS neighbors (deduplicated by id, anchor
first); top the base up with FAISS slims if it misses `min_group_size`
(no group at all if the pool cannot close the gap); then hand the base
and start index to `cgAssemble`. -/
def build_context_groups (candidate : Obj) (local_neighbors faiss_neighbors : List Obj)
    (cfg : QAConfig) (max_groups_per_chunk : Int) : List (List Obj) :=
  let minSize := cfg.grouping.min_group_size
  let base := (cgBase candidate local_neighbors).1
  let faiss_slim := cgFaissSlim candidate local_neighbors faiss_neighbors
  if minSize ≤ (base.length : Int) then
    cgAssemble cfg max_groups_per_chunk faiss_slim base 0
  else
    let need := (minSize - base.length).toNat
    if faiss_slim.length < need then []
    else cgAssemble cfg max_groups_per_chunk faiss_slim (base ++ faiss_slim.take need) need

/-! ## `generate_qa_candidates.py`: the per-file pipeline (lines 717-1119) -/

/-- The four prompt templates loaded from `prompts.json`
(`load_prompt_bundle`, lines 676-715). -/
structure PromptBundle where
  plan_system : String
  plan_user : String
  gen_system : String
  gen_user : String

/-- Embeds `sha1_text` (lines 244-245). -/
def sha1_text (s : String) : String := sha1_hex s

/-- One persisted candidate (the `out_record` dict of lines 1024-1078),
with the dict keys as fields. -/
structure CandidateRecord where
  id : String
  anchor_chunk_id : String
  anchor_doc_id : String
  context_chunks : List String
  source_chunks : List String
  source_refs : List Obj
  context_refs : List Obj
  doc_ids : List String
  question : String
  answer : String
  difficulty : String
  language : Jval
  content_type : List String
  domain : List String
  trust_level : Jval
  workspace_file : String
  provenance : Obj

/-- Per-file context: configuration, metric info, prompt hashes (lines
752-760), config hash (line 762) and the input file name. -/
structure FileCtx where
  cfg : QAConfig
  metric : FaissMetricInfo
  prompts : PromptBundle
  config_hash : String
  in_name : String

/-- Per-anchor context assembled at lines 804-848. -/
structure ChunkCtx where
  chunk : Obj
  chunk_id : String
  local_neighbor_ids : List String
  faiss_neighbor_ids : List String
  faiss_neighbor_scores : List ℚ

/-- State threaded through `process_semantic_file`: the records written,
the written/attempted counts, the two remaining-quota counters, the
processed-anchor resume set, and the pending fatal error (the unsupported
backend `ValueError` of line 875, which propagates out of the function). -/
structure ProcState where
  records : List CandidateRecord := []
  total_written : Nat := 0
  total_groups : Nat := 0
  remaining_doc : Option Int := none
  remaining_global : Option Int := none
  processed : List String := []
  err : Option String := none

/-- `x is not None and x <= 0` for a quota counter. -/
def remExhausted : Option Int → Bool
  | some r => r ≤ 0
  | none => false

/-- `s[: s.rfind(sep) per rsplit]`: everything before the last occurrence
of `sep` (`chunk_id.rsplit("_c", 1)[0]`, line 1017); the whole string when
`sep` does not occur. -/
def rsplitBefore (s sep : String) : String :=
  match pySplitOn s sep with
  | [] => s
  | [_] => s
  | parts => String.intercalate sep parts.dropLast

/-- The recognized difficulty labels (line 988). -/
def difficultyOk : Jval → Bool
  | .jstr d => d ∈ ["basic", "intermediate", "advanced"]
  | _ => false

/-- The `out_record` construction of lines 1005-1078 for a validated
question/answer object. -/
def buildRecord (f : FileCtx) (cc : ChunkCtx) (plan_obj : Obj) (group : List Obj)
    (qaIdx : Nat) (qa_obj : Obj) (q a d : String) : CandidateRecord :=
  let all_chunk_ids := allChunkIds group
  let evidence := resolveEvidence group qa_obj
  let context_refs := group.map make_source_ref
  let evidence_refs := context_refs.filter (fun r => jvalInStrs (pyGet r "chunk_id") evidence)
  let anchor_doc_id :=
    match pyGet cc.chunk "doc_id" with
    | .jstr s => if s ≠ "" then s else rsplitBefore cc.chunk_id "_c"
    | _ => rsplitBefore cc.chunk_id "_c"
  let llm := f.cfg.llm
  let plan_max_tokens := llm.plan_max_tokens.getD (min 900 llm.max_tokens)
  { id := make_candidate_id cc.chunk_id qaIdx qa_obj
    anchor_chunk_id := cc.chunk_id
    anchor_doc_id := anchor_doc_id
    context_chunks := all_chunk_ids
    source_chunks := evidence
    source_refs := evidence_refs
    context_refs := context_refs
    doc_ids := (group.filterMap (fun c =>
      match pyGet c "doc_id" with
      | .jstr s => some s
      | _ => none)).eraseDups
    question := q
    answer := a
    difficulty := d
    language := pyOr (pyGet cc.chunk "language")
      (pyOr (get_semantic_field cc.chunk "language" .jnull) (.jstr "unknown"))
    content_type := get_flat_list_field cc.chunk "content_type"
    domain := get_flat_list_field cc.chunk "domain"
    trust_level := pyOr (pyGet cc.chunk "trust_level")
      (pyOr (get_semantic_field cc.chunk "trust_level" .jnull) (.jstr "missing"))
    workspace_file := f.in_name
    provenance :=
      [("faiss", .jobj
         [("metric", .jstr f.metric.metric), ("index_type", .jstr f.metric.index_type),
          ("normalized", .jbool f.metric.normalized),
          ("neighbor_chunk_ids", .jarr (cc.faiss_neighbor_ids.map .jstr)),
          ("neighbor_scores", .jarr (cc.faiss_neighbor_scores.map .jfloat))]),
       ("local_neighbor_chunk_ids", .jarr (cc.local_neighbor_ids.map .jstr)),
       ("config_hash", .jstr f.config_hash),
       ("prompts", .jobj
         [("double_pass", .jbool true),
          ("plan_system_hash", .jstr (sha1_text f.prompts.plan_system)),
          ("plan_user_hash", .jstr (sha1_text f.prompts.plan_user)),
          ("gen_system_hash", .jstr (sha1_text f.prompts.gen_system)),
          ("gen_user_hash", .jstr (sha1_text f.prompts.gen_user))]),
       ("system_prompt_hash", .jstr (sha1_text f.prompts.gen_system)),
       ("user_template_hash", .jstr (sha1_text f.prompts.gen_user)),
       ("llm", .jobj
         [("backend", .jstr llm.backend), ("model", .jstr llm.model),
          ("temperature", .jfloat llm.temperature), ("top_p", .jfloat llm.top_p),
          ("num_ctx", .jint llm.num_ctx),
          ("max_tokens_generate", .jint llm.max_tokens),
          ("max_tokens_plan", .jint plan_max_tokens)]),
       ("plan", .jobj
         [("equations_present", .jbool (match pyGet plan_obj "equations_present" with
            | .jbool b => b
            | v => pyTruthy v)),
          ("equation_quotes", getD plan_obj "equation_quotes" (.jarr [])),
          ("generator_checks", getD plan_obj "generator_checks" (.jarr [])),
          ("takeaways", getD plan_obj "takeaways" (.jarr []))])] }

/-- The post-write quota bookkeeping of lines 1084-1092: decrement the
document quota then the global quota (when tracked), and report whether
either has just reached zero (breaking the question/answer loop). -/
def quotaStep (st : ProcState) : ProcState × Bool :=
  let stepDoc :=
    match st.remaining_doc with
    | some r => ({ st with remaining_doc := some (r - 1) }, decide (r - 1 ≤ 0))
    | none => (st, false)
  let st := stepDoc.1
  if stepDoc.2 then (st, true)
  else
    let stepGlob :=
      match st.remaining_global with
      | some g => ({ st with remaining_global := some (g - 1) }, decide (g - 1 ≤ 0))
      | none => (st, false)
    let st := stepGlob.1
    if stepGlob.2 then (st, true) else (st, false)

/-- The inner question/answer loop of lines 971-1092: validate each object,
write the record, and decrement the document and global quotas, breaking
as soon as either reaches zero.  Returns the state and `written_for_group`. -/
def qaLoop (f : FileCtx) (cc : ChunkCtx) (plan_obj : Obj) (group : List Obj) :
    List Jval → Nat → ProcState → Nat → ProcState × Nat
  | [], _, st, wfg => (st, wfg)
  | qa :: rest, qaIdx, st, wfg =>
      if remExhausted st.remaining_global then (st, wfg)
      else
        match qa with
        | .jobj qa_obj =>
            match pyGet qa_obj "question", pyGet qa_obj "answer", pyGet qa_obj "difficulty" with
            | .jstr q, .jstr a, .jstr d =>
                if pyStrip q = "" ∨ pyStrip a = "" ∨ d ∉ ["basic", "intermediate", "advanced"] then
                  qaLoop f cc plan_obj group rest (qaIdx + 1) st wfg
                else if f.cfg.runtime.grounding_drop_if_meta_leak ∧
                    (contains_meta_leak q ∨ contains_meta_leak a) then
                  qaLoop f cc plan_obj group rest (qaIdx + 1) st wfg
                else
                  let record := buildRecord f cc plan_obj group qaIdx qa_obj q a d
                  let st := { st with records := st.records ++ [record],
                                      total_written := st.total_written + 1 }
                  let qs := quotaStep st
                  if qs.2 then (qs.1, wfg + 1)
                  else qaLoop f cc plan_obj group rest (qaIdx + 1) qs.1 (wfg + 1)
            | _, _, _ => qaLoop f cc plan_obj group rest (qaIdx + 1) st wfg
        | _ => qaLoop f cc plan_obj group rest (qaIdx + 1) st wfg

/-- The per-group loop of lines 863-1103: quota checks, the unsupported
backend `ValueError`, the dry-run skip, the plan pass (retried; an error or
an invalid plan abandons the group — the source logs a "generate without
plan" fallback and builds an empty plan object, but its `continue` on line
931 skips the generate pass, leaving that fallback dead), the generate
pass (retried; an error abandons the group), and the question/answer loop.
`planO`/`genO` give the outcome of each attempt per (group, attempt); the
jitter draws only influence sleep durations, which have no further effect,
so a constant draw is passed. -/
def groupLoop (f : FileCtx) (cc : ChunkCtx)
    (planO genO : Nat → Nat → Except LLMErr (List Jval)) :
    List (List Obj) → Nat → ProcState → Nat → ProcState × Nat
  | [], _, st, wa => (st, wa)
  | g :: rest, gIdx, st, wa =>
      if remExhausted st.remaining_doc then (st, wa)
      else if remExhausted st.remaining_global then (st, wa)
      else
        let st := { st with total_groups := st.total_groups + 1 }
        if f.cfg.llm.backend ≠ "ollama" then
          ({ st with err := some ("Nicht unterstuetzter LLM-Backend-Typ: " ++ f.cfg.llm.backend) },
           wa)
        else if f.cfg.runtime.dry_run then groupLoop f cc planO genO rest (gIdx + 1) st wa
        else
          match (call_llm_ollama_with_retries (planO gIdx) (fun _ => 0)
              f.cfg.llm.retry_backoff_s f.cfg.llm.max_retries).result with
          | .error _ => groupLoop f cc planO genO rest (gIdx + 1) st wa
          | .ok plan_arr =>
              match parse_plan_output plan_arr with
              | none => groupLoop f cc planO genO rest (gIdx + 1) st wa
              | some plan_obj =>
                  match (call_llm_ollama_with_retries (genO gIdx) (fun _ => 0)
                      f.cfg.llm.retry_backoff_s f.cfg.llm.max_retries).result with
                  | .error _ => groupLoop f cc planO genO rest (gIdx + 1) st wa
                  | .ok qa_list =>
                      if qa_list.isEmpty then groupLoop f cc planO genO rest (gIdx + 1) st wa
                      else
                        let r := qaLoop f cc plan_obj g qa_list 0 st 0
                        let wa := if 0 < r.2 then wa + r.2 else wa
                        groupLoop f cc planO genO rest (gIdx + 1) r.1 wa

/-- The resume-set update of line 1107. -/
def markProcessed (st : ProcState) (cid : String) : ProcState :=
  { st with processed := cid :: st.processed }

/-- The per-anchor preparation of lines 826-861: the neighbor retrieval
and filtering, the chunk context, and the built context groups. -/
def chunkPrep (f : FileCtx) (chunksAll : List Obj) (faissO : Nat → List Obj)
    (idx : Nat) (chunk : Obj) : ChunkCtx × List (List Obj) :=
  let chunk_id := pyStr (pyGet chunk "chunk_id")
  let local_neighbors := get_local_neighbors chunksAll idx f.cfg
  let faiss_filtered := filter_faiss_neighbors chunk (faissO idx) f.cfg f.metric
  ({ chunk := chunk
     chunk_id := chunk_id
     local_neighbor_ids := local_neighbors.filterMap (fun ch =>
       if pyTruthy (pyGet ch "chunk_id") then some (pyStr (pyGet ch "chunk_id"))
       else none)
     faiss_neighbor_ids := faiss_filtered.filterMap (fun nb =>
       if pyTruthy (pyGet nb "chunk_id") then some (pyStr (pyGet nb "chunk_id"))
       else none)
     faiss_neighbor_scores := faiss_filtered.map neighborScore },
   build_context_groups chunk local_neighbors faiss_filtered
     f.cfg f.cfg.sampling.max_groups_per_chunk)

/-- The per-chunk loop of lines 795-1109: debug limit, anchor guards
(non-empty id, resume skip, eligibility filter), quota breaks, neighbor
retrieval and filtering, group building, the group loop, and the resume-set
update.  `faissO idx` is the neighbor list returned for chunk `idx` (an
exception in retrieval yields `[]`, line 838). -/
def chunkLoop (f : FileCtx) (chunksAll : List Obj) (faissO : Nat → List Obj)
    (planO genO : Nat → Nat → Nat → Except LLMErr (List Jval)) :
    List Obj → Nat → ProcState → ProcState
  | [], _, st => st
  | chunk :: rest, idx, st =>
      if f.cfg.debug.limit_num_chunks ≠ 0 ∧ f.cfg.debug.limit_num_chunks ≤ (idx : Int) then st
      else
        let chunk_id := pyStr (pyGet chunk "chunk_id")
        if chunk_id = "" then chunkLoop f chunksAll faissO planO genO rest (idx + 1) st
        else if chunk_id ∈ st.processed then
          chunkLoop f chunksAll faissO planO genO rest (idx + 1) st
        else if ¬ is_candidate_chunk chunk f.cfg then
          chunkLoop f chunksAll faissO planO genO rest (idx + 1) st
        else if remExhausted st.remaining_doc then st
        else if remExhausted st.remaining_global then st
        else
          let cg := chunkPrep f chunksAll faissO idx chunk
          if cg.2.isEmpty then
            chunkLoop f chunksAll faissO planO genO rest (idx + 1) st
          else
            let r := groupLoop f cg.1 (planO idx) (genO idx) cg.2 0 st 0
            if r.1.err.isSome then r.1
            else
              let st := if 0 < r.2 then markProcessed r.1 chunk_id else r.1
              if remExhausted st.remaining_global then st
              else chunkLoop f chunksAll faissO planO genO rest (idx + 1) st

/-- The total character volume of a document
(`sum(len((c.get("content") or c.get("text") or "")) for c in chunks)`,
line 771); `len` of a non-string truthy value is its container length. -/
def pyLen : Jval → Nat
  | .jstr s => s.length
  | .jarr xs => xs.length
  | .jobj kvs => kvs.length
  | _ => 0

/-- The per-document quota initialization of lines 768-776: `None`
(unlimited) for a non-positive fixed int, else the computed quota. -/
def docQuotaInit (cfg : QAConfig) (chunks : List Obj) : Option Int :=
  match cfg.sampling.max_qa_per_document with
  | .jint n =>
      if n ≤ 0 then none
      else some (compute_max_qa_per_document (.jint n) chunks.length
        (chunks.map (fun c => pyLen (pyOr (pyGet c "content") (pyOr (pyGet c "text") (.jstr ""))))).sum)
  | mcfg =>
      some (compute_max_qa_per_document mcfg chunks.length
        (chunks.map (fun c => pyLen (pyOr (pyGet c "content") (pyOr (pyGet c "text") (.jstr ""))))).sum)

/-- Embeds `process_semantic_file` (lines 717-1119).  External effects are
parameters: `processed_anchor_ids` is the resume scan of the existing
output file, `remaining_global` the shared `global_state["remaining_global"]`,
`faissO` the retrieval collaborator, and `planO`/`genO` the outcome of each
LLM attempt per (chunk, group, attempt).  Prompt rendering only shapes the
text sent to the collaborator, so it does not appear in the state. -/
def process_semantic_file (cfg : QAConfig) (metric : FaissMetricInfo)
    (prompts : PromptBundle) (config_hash : String) (in_name : String)
    (chunks : List Obj) (processed_anchor_ids : List String)
    (remaining_global : Option Int) (faissO : Nat → List Obj)
    (planO genO : Nat → Nat → Nat → Except LLMErr (List Jval)) : ProcState :=
  let st0 : ProcState :=
    { remaining_doc := docQuotaInit cfg chunks
      remaining_global := remaining_global
      processed := processed_anchor_ids }
  if chunks.isEmpty then st0
  else
    let f : FileCtx := { cfg := cfg, metric := metric, prompts := prompts,
                         config_hash := config_hash, in_name := in_name }
    chunkLoop f chunks faissO planO genO chunks 0 st0

/-! ## `generate_qa_candidates.py`: `main` (lines 1301-1423) -/

/-- The global-quota pre-division of lines 1380-1389: with sharding, a
positive `global_qa_limit` becomes `ceil(limit / num_shards)` per shard
(`math.ceil` is exact here; the rational division below matches it for the
magnitudes involved). -/
def mainGlobalLimit (global_qa_limit num_shards : Int) : Int :=
  if 0 < global_qa_limit ∧ 1 < num_shards then
    (global_qa_limit + num_shards - 1) / num_shards
  else global_qa_limit

/-- The initial `global_state["remaining_global"]` (lines 1391-1393). -/
def initialGlobalState (global_qa_limit : Int) : Option Int :=
  if 0 < global_qa_limit then some global_qa_limit else none

/-- The external inputs of one whole run: per-file resume sets and the
retrieval/LLM collaborators, indexed by file. -/
structure ProcOracles where
  processedOf : Nat → List String
  faiss : Nat → Nat → List Obj
  plan : Nat → Nat → Nat → Nat → Except LLMErr (List Jval)
  gen : Nat → Nat → Nat → Nat → Except LLMErr (List Jval)

/-- The per-file loop of `main` (lines 1398-1416): stop when the global
budget is exhausted, else process the next file, threading
`remaining_global` and accumulating `total_written_global`; an unhandled
error from `process_semantic_file` aborts the run. -/
def runFiles (cfg : QAConfig) (metric : FaissMetricInfo) (prompts : PromptBundle)
    (config_hash : String) (orc : ProcOracles) :
    List (String × List Obj) → Nat → Option Int → Nat → Nat × Option Int × Option String
  | [], _, remaining, total => (total, remaining, none)
  | (name, chunks) :: rest, fidx, remaining, total =>
      if remExhausted remaining then (total, remaining, none)
      else
        let res := process_semantic_file cfg metric prompts config_hash name chunks
          (orc.processedOf fidx) remaining (orc.faiss fidx) (orc.plan fidx) (orc.gen fidx)
        let total := total + res.total_written
        if res.err.isSome then (total, res.remaining_global, res.err)
        else runFiles cfg metric prompts config_hash orc rest (fidx + 1)
          res.remaining_global total

/-- The structural check of `run_reduce` line 610: both `instruction` and
`output` are strings. -/
def validRow (sample : Obj) : Bool :=
  isStr (pyGet sample "instruction") && isStr (pyGet sample "output")

/-- The reduce phase's input stream: the rows of the `num_shards` shard
files, in file order, each tagged with its file name. -/
def reduceStream (cfg : DatasetConfig) (shards : Nat → Option (List (Nat × Obj))) :
    List (String × Nat × Obj) :=
  (List.range cfg.num_shards.toNat).flatMap
    (fun i => ((shards i).getD []).map (fun r => (shardFileName i, r)))

/-- `redRow` folded over a tagged row stream; when `limit_num_examples` is
non-positive the whole reduce loop is this fold over `reduceStream`. -/
def streamFold (cfg : DatasetConfig) (ca : String) :
    List (String × Nat × Obj) → RedState → RedState
  | [], st => st
  | e :: rest, st => streamFold cfg ca rest (redRow cfg ca e.1 e.2 st).1

/-- The pass-1 failure input of C4: the plan attempt succeeds at HTTP/JSON
level but returns `[]`, which `parse_plan_output` rejects. -/
def c4PlanOracle : Nat → Nat → Except LLMErr (List Jval) := fun _ _ => .ok []

/-- The file context used to exercise the C4 code path. -/
def c4File : FileCtx :=
  { cfg := {}, metric := {}, prompts := ⟨"p", "p", "p", "p"⟩,
    config_hash := "h", in_name := "f.jsonl" }

/-- The chunk context used to exercise the C4 code path. -/
def c4Chunk : ChunkCtx :=
  { chunk := [("chunk_id", Jval.jstr "c1")], chunk_id := "c1",
    local_neighbor_ids := [], faiss_neighbor_ids := [], faiss_neighbor_scores := [] }

/-- A takeaway for the C5 run's valid plan. -/
def c5Takeaway : Jval :=
  .jobj [("takeaway", .jstr "T1"), ("evidence_chunks", .jarr [.jstr "d1_c0"])]

/-- A schema-valid plan object for the C5 run. -/
def c5PlanObj : Jval :=
  .jobj [("takeaways", .jarr [c5Takeaway, c5Takeaway]),
         ("equations_present", .jbool false),
         ("equation_quotes", .jarr []), ("generator_checks", .jarr [])]

/-- A valid question/answer object for the C5 run. -/
def c5QaObj : Jval :=
  .jobj [("question", .jstr "Frage eins?"), ("answer", .jstr "Antwort eins."),
         ("difficulty", .jstr "basic")]

/-- A two-chunk input file for the C5 run: the plan pass for chunk 0 hits
the model-not-found (HTTP 404) condition on every attempt, while chunk 1
succeeds in both passes. -/
def c5Run : ProcState :=
  process_semantic_file {} {} ⟨"p", "p", "p", "p"⟩ "h" "f.jsonl"
    [[("chunk_id", Jval.jstr "d1_c0"), ("content", Jval.jstr "Inhalt null")],
     [("chunk_id", Jval.jstr "d1_c1"), ("content", Jval.jstr "Inhalt eins")]]
    [] none (fun _ => [])
    (fun chunkIdx _ _ => if chunkIdx = 0 then .error .notFound404 else .ok [c5PlanObj])
    (fun _ _ _ => .ok [c5QaObj])

/-- The file context for the C5 witness group. -/
def c5WitnessFile : FileCtx :=
  { cfg := {}, metric := {}, prompts := ⟨"p", "p", "p", "p"⟩,
    config_hash := "h", in_name := "f" }

/-- The chunk context for the C5 witness group. -/
def c5WitnessChunk : ChunkCtx :=
  { chunk := [("chunk_id", Jval.jstr "c9x")], chunk_id := "c9x",
    local_neighbor_ids := [], faiss_neighbor_ids := [], faiss_neighbor_scores := [] }

/-- A schema-valid plan object for the C8 run. -/
def c8Plan : Jval := Jval.jobj
  [("takeaways", Jval.jarr
     [Jval.jobj [("takeaway", Jval.jstr "T1"),
                 ("evidence_chunks", Jval.jarr [Jval.jstr "d3_c0"])],
      Jval.jobj [("takeaway", Jval.jstr "T2"),
                 ("evidence_chunks", Jval.jarr [Jval.jstr "d3_c0"])]]),
   ("equations_present", Jval.jbool false),
   ("equation_quotes", Jval.jarr []), ("generator_checks", Jval.jarr [])]

/-- A valid question/answer object for the C8 run. -/
def c8Qa : Jval := Jval.jobj
  [("question", Jval.jstr "Frage?"), ("answer", Jval.jstr "Antwort."),
   ("difficulty", Jval.jstr "basic")]

/-- The C8 configuration: one question/answer pair per document, a global
limit of two, to be pre-divided across two shards. -/
def c8Cfg : QAConfig :=
  { sampling := { max_qa_per_document := Jval.jint 1, global_qa_limit := 2 } }

/-- Collaborators for the C8 run: no resume sets, no FAISS neighbors, and
both passes succeed on every attempt. -/
def c8Orc : ProcOracles :=
  { processedOf := fun _ => [], faiss := fun _ _ => [],
    plan := fun _ _ _ _ => .ok [c8Plan], gen := fun _ _ _ _ => .ok [c8Qa] }

/-- Two input files of two chunks each for the C8 run. -/
def c8Files : List (String × List Obj) :=
  [("f1.jsonl", [[("chunk_id", Jval.jstr "d3_c0"), ("content", Jval.jstr "Inhalt drei")],
                 [("chunk_id", Jval.jstr "d3_c1"), ("content", Jval.jstr "Inhalt mehr")]]),
   ("f2.jsonl", [[("chunk_id", Jval.jstr "d4_c0"), ("content", Jval.jstr "Inhalt vier")],
                 [("chunk_id", Jval.jstr "d4_c1"), ("content", Jval.jstr "Inhalt noch")]])]

/-- Scenario D, shard 0: a valid candidate row. -/
def c2RowA : Obj := [("instruction", Jval.jstr "Frage A?"), ("output", Jval.jstr "Antwort A.")]

/-- Scenario D, shard 1: a row with the same (instruction, output) content
as `c2RowA` — an exact cross-shard duplicate. -/
def c2RowB : Obj := [("instruction", Jval.jstr "Frage A?"), ("output", Jval.jstr "Antwort A."),
  ("anchor_chunk_id", Jval.jstr "d9_c0")]

/-- Scenario D configuration: two shards, full-key dedup store. -/
def c2Cfg : DatasetConfig := { num_shards := 2, dedup_store := "full" }

/-- Scenario D shard files: one row each, duplicated across the shards. -/
def c2Shards : Nat → Option (List (Nat × Obj)) :=
  fun i => if i = 0 then some [(1, c2RowA)] else if i = 1 then some [(1, c2RowB)] else none

/-- The (successful) Scenario D reduce result. -/
def c2Res : ReduceResult :=
  match run_reduce c2Cfg "0.1" "2024-01-01T00:00:00Z" c2Shards with
  | .ok r => r
  | .error _ => ⟨{}, none⟩

/-! ## Theorems

General helper lemmas, then one theorem (with witness or counterexample)
per specification claim. -/

-- SHA-1 test vectors (FIPS 180): digests of "abc" and of the empty string.
example : sha1_hex "abc" = "a9993e364706816aba3e25717850c26c9cd0d89d" := by decide
example : sha1_hex "" = "da39a3ee5e6b4b0d3255bfef95601890afd80709" := by decide

/-- `find?` only depends on the predicate's values on the list. -/
theorem find?_congr {α : Type} (l : List α) (p q : α → Bool)
    (h : ∀ a ∈ l, p a = q a) : l.find? p = l.find? q := by
  induction l with
  | nil => rfl
  | cons x xs ih =>
      simp only [List.find?]
      rw [h x (by simp)]
      cases hq : q x with
      | true => rfl
      | false => exact ih (fun a ha => h a (by simp [ha]))

/-- Updating one key leaves the other keys' lookups unchanged. -/
theorem getKey_setKey_ne (o : Obj) (k : String) (v : Jval) (k' : String)
    (h : k' ≠ k) : getKey (setKey o k v) k' = getKey o k' := by
  have hbeq : (k == k') = false := by
    simp only [beq_eq_false_iff_ne, ne_eq]
    exact fun hc => h hc.symm
  induction o with
  | nil => simp only [setKey, getKey, List.find?, hbeq]
  | cons kv rest ih =>
      rcases kv with ⟨k0, v0⟩
      by_cases hk : k0 = k
      · subst hk
        simp only [setKey, beq_self_eq_true, if_true, getKey, List.find?, hbeq]
      · have h0 : ¬ ((k0 == k) = true) := by simp [hk]
        simp only [setKey, if_neg h0]
        simp only [getKey, List.find?] at ih ⊢
        cases hq : (k0 == k') with
        | true => rfl
        | false => exact ih

/-- A fingerprint over keys that avoid `k` is unchanged by setting `k`. -/
theorem dedup_fingerprint_setKey (cfg : DatasetConfig) (o : Obj) (k : String)
    (v : Jval) (h : k ∉ cfg.dedup_keys) :
    dedup_fingerprint cfg (setKey o k v) = dedup_fingerprint cfg o := by
  have hkey : dedup_key (setKey o k v) cfg.dedup_keys = dedup_key o cfg.dedup_keys := by
    unfold dedup_key
    congr 1
    apply List.map_congr_left
    intro a ha
    have hne : a ≠ k := fun hc => h (hc ▸ ha)
    rw [pyGet, pyGet, getD, getD, getKey_setKey_ne o k v a hne]
  unfold dedup_fingerprint
  rw [hkey]

/-- C3: `shard_of_candidate` computes `stable_int_hash(key) mod num_shards`
for the configured key (anchor id by default, question text for
`shard_key = "question"`), where `stable_int_hash` is the SHA-1-based hash
embedded above (not a runtime in-memory hash); with `num_shards ≥ 1` every
candidate gets exactly one shard id in `[0, num_shards)`, and the
assignment depends only on the extracted key, so repeated invocation over
the same candidates is identical. -/
theorem shard_of_candidate_stable (cfg : DatasetConfig) (cand : Obj)
    (h : 1 ≤ cfg.num_shards) :
    shard_of_candidate cfg cand =
      (stable_int_hash (shardKeyOf cfg cand) : Int) % cfg.num_shards ∧
    0 ≤ shard_of_candidate cfg cand ∧
    shard_of_candidate cfg cand < cfg.num_shards ∧
    ∀ cand2 : Obj, shardKeyOf cfg cand2 = shardKeyOf cfg cand →
      shard_of_candidate cfg cand2 = shard_of_candidate cfg cand := by
  have hmax : max cfg.num_shards 1 = cfg.num_shards := max_eq_left h
  refine ⟨by rw [shard_of_candidate, hmax], ?_, ?_, ?_⟩
  · rw [shard_of_candidate]
    exact Int.emod_nonneg _ (by omega)
  · rw [shard_of_candidate, hmax]
    exact Int.emod_lt_of_pos _ (by omega)
  · intro cand2 hk
    rw [shard_of_candidate, shard_of_candidate, hk]

/-- Witness for C3 at a concrete config and candidate. -/
theorem shard_of_candidate_stable_witness :
    (1 : Int) ≤ ({ num_shards := 2 } : DatasetConfig).num_shards ∧
    (0 ≤ shard_of_candidate { num_shards := 2 } [("anchor_chunk_id", Jval.jstr "doc1_c3")] ∧
     shard_of_candidate { num_shards := 2 } [("anchor_chunk_id", Jval.jstr "doc1_c3")] <
       ({ num_shards := 2 } : DatasetConfig).num_shards) :=
  ⟨by decide,
   (shard_of_candidate_stable { num_shards := 2 }
      [("anchor_chunk_id", Jval.jstr "doc1_c3")] (by decide)).2.1,
   (shard_of_candidate_stable { num_shards := 2 }
      [("anchor_chunk_id", Jval.jstr "doc1_c3")] (by decide)).2.2.1⟩

/-- C9: `run_reduce` consumes exactly the `num_shards` shard files
`shard_00 … shard_{num_shards-1}` — its outcome depends only on those — and
if any one of them is missing it fails with a fatal error before any
output, rejects or changelog exists (an `.error` result carries no
`ReduceResult`, so nothing is written). -/
theorem run_reduce_missing_shard_fatal (cfg : DatasetConfig)
    (version created_at : String) :
    (∀ (shards : Nat → Option (List (Nat × Obj))) (i : Nat),
       (i : Int) < cfg.num_shards → shards i = none →
       ∃ msg, run_reduce cfg version created_at shards = .error msg) ∧
    (∀ shards shards2 : Nat → Option (List (Nat × Obj)),
       (∀ j, j < cfg.num_shards.toNat → shards j = shards2 j) →
       run_reduce cfg version created_at shards =
         run_reduce cfg version created_at shards2) := by
  constructor
  · intro shards i hi hnone
    have hpos : ¬ cfg.num_shards ≤ 0 := by omega
    rw [run_reduce, if_neg hpos]
    have hsome : ((List.range cfg.num_shards.toNat).find?
        (fun j => (shards j).isNone)).isSome := by
      rw [List.find?_isSome]
      refine ⟨i, List.mem_range.mpr (by omega), by simp [hnone]⟩
    obtain ⟨j, hj⟩ := Option.isSome_iff_exists.mp hsome
    refine ⟨"Missing shard file: " ++ shardFileName j ++ " (run map first for all shards)", ?_⟩
    simp only [hj]
  · intro shards shards2 hagree
    rw [run_reduce, run_reduce]
    by_cases hpos : cfg.num_shards ≤ 0
    · rw [if_pos hpos, if_pos hpos]
    · rw [if_neg hpos, if_neg hpos]
      have hfind : (List.range cfg.num_shards.toNat).find? (fun j => (shards j).isNone) =
          (List.range cfg.num_shards.toNat).find? (fun j => (shards2 j).isNone) := by
        apply find?_congr
        intro a ha
        rw [hagree a (List.mem_range.mp ha)]
      have hmap : (List.range cfg.num_shards.toNat).map
          (fun i => (shardFileName i, (shards i).getD [])) =
          (List.range cfg.num_shards.toNat).map
          (fun i => (shardFileName i, (shards2 i).getD [])) := by
        apply List.map_congr_left
        intro a ha
        rw [hagree a (List.mem_range.mp ha)]
      cases hc : (List.range cfg.num_shards.toNat).find? (fun j => (shards2 j).isNone) with
      | some j => simp only [hfind, hc]
      | none => simp only [hfind, hc, hmap]

/-- Witness for C9: with two shards configured and `shard_01` absent, the
reduce run fails. -/
theorem run_reduce_missing_shard_fatal_witness :
    ((1 : Int) < ({ num_shards := 2 } : DatasetConfig).num_shards) ∧
    ((fun j => if j = 0 then some ([] : List (Nat × Obj)) else none) 1 = none) ∧
    (∃ msg, run_reduce { num_shards := 2 } "v1" "t0"
        (fun j => if j = 0 then some [] else none) = .error msg) :=
  ⟨by decide, rfl,
   (run_reduce_missing_shard_fatal { num_shards := 2 } "v1" "t0").1
     (fun j => if j = 0 then some [] else none) 1 (by decide) rfl⟩

/-- One map-phase row keeps the counter identity
`read = kept + dropped + duped`. -/
theorem mapRow_counts (cfg : DatasetConfig) (v ca fn : String) (row : Nat × Obj)
    (st : MapState)
    (h : st.counters.read = st.counters.kept + st.counters.dropped + st.counters.duped) :
    ((mapRow cfg v ca fn row st).1).counters.read =
      ((mapRow cfg v ca fn row st).1).counters.kept +
      ((mapRow cfg v ca fn row st).1).counters.dropped +
      ((mapRow cfg v ca fn row st).1).counters.duped := by
  rcases row with ⟨ln, cand⟩
  rw [mapRow]
  split
  · exact h
  · split
    · split <;> simp <;> omega
    · split
      · simp
        omega
      · simp
        omega

/-- The inner map loop keeps the counter identity. -/
theorem mapRows_counts (cfg : DatasetConfig) (v ca fn : String)
    (rows : List (Nat × Obj)) (st : MapState)
    (h : st.counters.read = st.counters.kept + st.counters.dropped + st.counters.duped) :
    (mapRows cfg v ca fn rows st).counters.read =
      (mapRows cfg v ca fn rows st).counters.kept +
      (mapRows cfg v ca fn rows st).counters.dropped +
      (mapRows cfg v ca fn rows st).counters.duped := by
  induction rows generalizing st with
  | nil => exact h
  | cons row rest ih =>
      rw [mapRows]
      have h' := mapRow_counts cfg v ca fn row st h
      split
      · exact h'
      · exact ih _ h'

/-- The outer map loop keeps the counter identity. -/
theorem mapFiles_counts (cfg : DatasetConfig) (v ca : String)
    (files : List (String × List (Nat × Obj))) (st : MapState)
    (h : st.counters.read = st.counters.kept + st.counters.dropped + st.counters.duped) :
    (mapFiles cfg v ca files st).counters.read =
      (mapFiles cfg v ca files st).counters.kept +
      (mapFiles cfg v ca files st).counters.dropped +
      (mapFiles cfg v ca files st).counters.duped := by
  induction files generalizing st with
  | nil => exact h
  | cons f rest ih =>
      rcases f with ⟨name, rows⟩
      rw [mapFiles]
      have h' := mapRows_counts cfg v ca name rows st h
      split
      · exact h'
      · exact ih _ h'

/-- One reduce-phase row keeps the counter identity. -/
theorem redRow_counts (cfg : DatasetConfig) (ca fn : String) (row : Nat × Obj)
    (st : RedState)
    (h : st.counters.read = st.counters.kept + st.counters.dropped + st.counters.duped) :
    ((redRow cfg ca fn row st).1).counters.read =
      ((redRow cfg ca fn row st).1).counters.kept +
      ((redRow cfg ca fn row st).1).counters.dropped +
      ((redRow cfg ca fn row st).1).counters.duped := by
  rcases row with ⟨ln, sample⟩
  rw [redRow]
  split
  · split <;> simp <;> omega
  · split
    · simp
      omega
    · simp
      omega

/-- The inner reduce loop keeps the counter identity. -/
theorem redRows_counts (cfg : DatasetConfig) (ca fn : String)
    (rows : List (Nat × Obj)) (st : RedState)
    (h : st.counters.read = st.counters.kept + st.counters.dropped + st.counters.duped) :
    (redRows cfg ca fn rows st).counters.read =
      (redRows cfg ca fn rows st).counters.kept +
      (redRows cfg ca fn rows st).counters.dropped +
      (redRows cfg ca fn rows st).counters.duped := by
  induction rows generalizing st with
  | nil => exact h
  | cons row rest ih =>
      rw [redRows]
      have h' := redRow_counts cfg ca fn row st h
      split
      · exact h'
      · exact ih _ h'

/-- The outer reduce loop keeps the counter identity. -/
theorem redFiles_counts (cfg : DatasetConfig) (ca : String)
    (files : List (String × List (Nat × Obj))) (st : RedState)
    (h : st.counters.read = st.counters.kept + st.counters.dropped + st.counters.duped) :
    (redFiles cfg ca files st).counters.read =
      (redFiles cfg ca files st).counters.kept +
      (redFiles cfg ca files st).counters.dropped +
      (redFiles cfg ca files st).counters.duped := by
  induction files generalizing st with
  | nil => exact h
  | cons f rest ih =>
      rcases f with ⟨name, rows⟩
      rw [redFiles]
      have h' := redRows_counts cfg ca name rows st h
      split
      · exact h'
      · exact ih _ h'

/-- C10: in both `run_map` and `run_reduce`, every row counted as read is
counted in exactly one of kept, dropped, or duped, so the final counters —
and the read/kept/dropped/duplicates numbers recorded in the changelog —
always satisfy `read = kept + dropped + duped`. -/
theorem map_reduce_counters_consistent :
    (∀ (cfg : DatasetConfig) (version created_at : String)
       (files : List (String × List (Nat × Obj))) (st : MapState),
       run_map cfg version created_at files = .ok st →
       st.counters.read = st.counters.kept + st.counters.dropped + st.counters.duped) ∧
    (∀ (cfg : DatasetConfig) (version created_at : String)
       (shards : Nat → Option (List (Nat × Obj))) (r : ReduceResult),
       run_reduce cfg version created_at shards = .ok r →
       (r.state.counters.read = r.state.counters.kept + r.state.counters.dropped +
          r.state.counters.duped) ∧
       ∀ cs ∈ r.changelog, cs.read = cs.kept + cs.dropped + cs.duped) := by
  constructor
  · intro cfg version created_at files st hok
    rw [run_map] at hok
    split at hok
    · exact absurd hok (by simp)
    · split at hok
      · exact absurd hok (by simp)
      · have hst : st = mapFiles cfg version created_at
            (if 0 < cfg.limit_num_files then files.take cfg.limit_num_files.toNat
             else files) {} := by
          exact (Except.ok.injEq _ _).mp hok.symm
        rw [hst]
        exact mapFiles_counts _ _ _ _ _ (by simp)
  · intro cfg version created_at shards r hok
    rw [run_reduce] at hok
    split at hok
    · exact absurd hok (by simp)
    · revert hok
      cases hc : (List.range cfg.num_shards.toNat).find? (fun i => (shards i).isNone) with
      | some i =>
          intro hok
          simp only [hc] at hok
          exact absurd hok (by simp)
      | none =>
          intro hok
          simp only [hc] at hok
          have hfin := redFiles_counts cfg created_at
            ((List.range cfg.num_shards.toNat).map
              (fun i => (shardFileName i, (shards i).getD []))) {} (by simp)
          have hr : r = ⟨redFiles cfg created_at
              ((List.range cfg.num_shards.toNat).map
                (fun i => (shardFileName i, (shards i).getD []))) {},
              if ¬ cfg.dry_run ∧ cfg.write_changelog then
                some ⟨(redFiles cfg created_at ((List.range cfg.num_shards.toNat).map
                    (fun i => (shardFileName i, (shards i).getD []))) {}).counters.read,
                  (redFiles cfg created_at ((List.range cfg.num_shards.toNat).map
                    (fun i => (shardFileName i, (shards i).getD []))) {}).counters.kept,
                  (redFiles cfg created_at ((List.range cfg.num_shards.toNat).map
                    (fun i => (shardFileName i, (shards i).getD []))) {}).counters.dropped,
                  (redFiles cfg created_at ((List.range cfg.num_shards.toNat).map
                    (fun i => (shardFileName i, (shards i).getD []))) {}).counters.duped⟩
              else none⟩ := by
            exact (Except.ok.injEq _ _).mp hok.symm
          subst hr
          refine ⟨hfin, ?_⟩
          intro cs hcs
          split at hcs
          · simp only [Option.mem_def, Option.some.injEq] at hcs
            rw [← hcs]
            exact hfin
          · simp at hcs

/-- Witness for C10: a concrete map run (one dropped row) and a concrete
reduce run (one kept row), each satisfying the counter identity. -/
theorem map_reduce_counters_consistent_witness :
    run_map { num_shards := 1 } "v1" "t0"
      [("f.jsonl", [(1, [("anchor_chunk_id", Jval.jstr "d1_c1")])])] =
      .ok { counters := { read := 1, kept := 0, dropped := 1, duped := 0 },
            seen := [], out := [],
            rejects := [[("reason", Jval.jstr "missing_or_empty:question"),
                         ("file", Jval.jstr "f.jsonl"), ("line", Jval.jint 1),
                         ("candidate_id", Jval.jnull),
                         ("anchor_chunk_id", Jval.jstr "d1_c1")]] } ∧
    (1 : Nat) = 0 + 1 + 0 ∧
    run_reduce { num_shards := 1, dedup_store := "full" } "v1" "t0"
      (fun _ => some [(1, [("instruction", Jval.jstr "A"), ("output", Jval.jstr "B")])]) =
      .ok { state := { counters := { read := 1, kept := 1, dropped := 0, duped := 0 },
                       seq := 1, seen := ["A\nB"],
                       out := [[("instruction", Jval.jstr "A"), ("output", Jval.jstr "B"),
                                ("created_at", Jval.jstr "t0"),
                                ("id", Jval.jstr "ws_00001_q1")]],
                       rejects := [] },
            changelog := some ⟨1, 1, 0, 0⟩ } ∧
    (1 : Nat) = 1 + 0 + 0 := by
  refine ⟨rfl, ?_, rfl, ?_⟩
  · exact map_reduce_counters_consistent.1 { num_shards := 1 } "v1" "t0"
      [("f.jsonl", [(1, [("anchor_chunk_id", Jval.jstr "d1_c1")])])] _ rfl
  · exact (map_reduce_counters_consistent.2 { num_shards := 1, dedup_store := "full" }
      "v1" "t0"
      (fun _ => some [(1, [("instruction", Jval.jstr "A"), ("output", Jval.jstr "B")])])
      _ rfl).1

/-- Counterexample to C6 as stated: with group ids `{c1, c2}` and model
evidence `["c1", "cX"]`, the evidence list is *not* a subset of the group's
ids, yet the validator does not fall back to the full context list — it
keeps the filtered list `["c1"]`.  The fallback happens exactly when the
filtered list is empty, not whenever the list fails to be a subset. -/
theorem resolveEvidence_not_subset_no_fallback :
    ¬ (∀ cid ∈ normalize_chunk_id_list (rawEvidence
        [("evidence_chunks", Jval.jarr [Jval.jstr "c1", Jval.jstr "cX"])]),
        cid ∈ allChunkIds [[("chunk_id", Jval.jstr "c1")], [("chunk_id", Jval.jstr "c2")]]) ∧
    resolveEvidence [[("chunk_id", Jval.jstr "c1")], [("chunk_id", Jval.jstr "c2")]]
        [("evidence_chunks", Jval.jarr [Jval.jstr "c1", Jval.jstr "cX"])] ≠
      allChunkIds [[("chunk_id", Jval.jstr "c1")], [("chunk_id", Jval.jstr "c2")]] ∧
    resolveEvidence [[("chunk_id", Jval.jstr "c1")], [("chunk_id", Jval.jstr "c2")]]
        [("evidence_chunks", Jval.jarr [Jval.jstr "c1", Jval.jstr "cX"])] = ["c1"] := by
  decide

/-- C6 (amended): the validator resolves the model's evidence list against
the group's chunk-id set by *filtering* it to the ids that belong to the
group, and falls back to the full `context_chunks` list exactly when that
filtered list is empty — in particular when the evidence list is empty or
lies entirely outside the group (Scenario B); a partially-valid list is
cut down to its valid members instead of triggering the fallback.  The
result is always a subset of the group's ids. -/
theorem resolveEvidence_amended (group : List Obj) (qa_obj : Obj) :
    (∀ cid ∈ resolveEvidence group qa_obj, cid ∈ allChunkIds group) ∧
    ((normalize_chunk_id_list (rawEvidence qa_obj)).filter
        (fun cid => (allChunkIds group).contains cid) = [] →
      resolveEvidence group qa_obj = allChunkIds group) ∧
    ((normalize_chunk_id_list (rawEvidence qa_obj)).filter
        (fun cid => (allChunkIds group).contains cid) ≠ [] →
      resolveEvidence group qa_obj = (normalize_chunk_id_list (rawEvidence qa_obj)).filter
        (fun cid => (allChunkIds group).contains cid)) := by
  have key : resolveEvidence group qa_obj =
      if ((normalize_chunk_id_list (rawEvidence qa_obj)).filter
          (fun cid => (allChunkIds group).contains cid)).isEmpty then allChunkIds group
      else (normalize_chunk_id_list (rawEvidence qa_obj)).filter
          (fun cid => (allChunkIds group).contains cid) := rfl
  cases hf : (normalize_chunk_id_list (rawEvidence qa_obj)).filter
      (fun cid => (allChunkIds group).contains cid) with
  | nil =>
      rw [key, hf]
      exact ⟨fun cid hmem => by simpa using hmem, fun _ => by simp,
             fun hne => by simp at hne⟩
  | cons a as =>
      rw [key, hf]
      refine ⟨?_, fun h => absurd h (by simp), fun _ => by simp⟩
      intro cid hmem
      simp only [List.isEmpty_cons, Bool.false_eq_true, if_false] at hmem
      rw [← hf] at hmem
      have := List.of_mem_filter hmem
      simpa using this

/-- Witness for C6 (amended), instantiating Scenario B: evidence `["cX"]`
wholly outside the group's id set `{c1, c2}` falls back to the full
context list. -/
theorem resolveEvidence_amended_witness :
    ((normalize_chunk_id_list (rawEvidence [("evidence_chunks", Jval.jarr [Jval.jstr "cX"])])).filter
        (fun cid => (allChunkIds [[("chunk_id", Jval.jstr "c1")],
          [("chunk_id", Jval.jstr "c2")]]).contains cid) = []) ∧
    resolveEvidence [[("chunk_id", Jval.jstr "c1")], [("chunk_id", Jval.jstr "c2")]]
        [("evidence_chunks", Jval.jarr [Jval.jstr "cX"])] = ["c1", "c2"] := by
  refine ⟨rfl, ?_⟩
  have h := (resolveEvidence_amended
    [[("chunk_id", Jval.jstr "c1")], [("chunk_id", Jval.jstr "c2")]]
    [("evidence_chunks", Jval.jarr [Jval.jstr "cX"])]).2.1 rfl
  rw [h]
  rfl

/-- C4: contrary to the claim (and the spec's degraded mode), when
`parse_plan_output` returns `None` the implementation does *not* proceed to
the generate pass: the `continue` on line 931 abandons the group — the
logged "generate without plan" fallback object is dead code.  Concretely,
for a group whose plan pass returns the schema-invalid `[]`, the group loop
returns with only the attempted-group counter advanced and no records, and
its result is the same for every generate-pass oracle, so the generate pass
is never consulted. -/
theorem plan_invalid_skips_generate :
    ∀ genO : Nat → Nat → Except LLMErr (List Jval),
      groupLoop c4File c4Chunk c4PlanOracle genO
          [[[("chunk_id", Jval.jstr "c1")]]] 0 {} 0 =
        ({ total_groups := 1 }, 0) ∧
      (({ total_groups := 1 } : ProcState)).records = [] :=
  fun _ => ⟨rfl, rfl⟩

/-- Counterexample to C5 as stated: (i) with `max_retries = 1` and every
attempt failing, the retry loop makes 2 attempts — `max_retries + 1`, more
than the claimed "up to max_retries attempts"; (ii) the model-not-found
(HTTP 404) condition is *not* fatal for the whole run: in `c5Run` the plan
pass for chunk 0 returns 404 on every attempt, yet the run completes
normally (`err = none`), abandons only that chunk's group, and still
writes the record for chunk 1. -/
theorem llm_retry_counterexample :
    (call_llm_ollama_with_retries (fun _ => .error .notFound404) (fun _ => 0) 5 1).attempts = 2 ∧
    ¬ ((call_llm_ollama_with_retries (fun _ => .error .notFound404) (fun _ => 0) 5 1).attempts ≤ 1) ∧
    c5Run.err = none ∧ c5Run.records.length = 1 ∧ c5Run.total_written = 1 ∧
    c5Run.processed = ["d1_c1"] := by
  exact ⟨rfl, by decide, rfl, rfl, rfl, rfl⟩

/-- The retry loop makes at most `remaining` attempts. -/
theorem callRetriesGo_attempts_le (oracle : Nat → Except LLMErr (List Jval))
    (rand : Nat → ℚ) (backoff : ℚ) :
    ∀ (r attempt : Nat), (callRetriesGo oracle rand backoff attempt r).attempts ≤ r := by
  intro r
  induction r with
  | zero => intro attempt; simp [callRetriesGo]
  | succ n ih =>
      intro attempt
      rw [callRetriesGo]
      cases ho : oracle attempt with
      | ok xs => simp
      | error e =>
          by_cases hn : n = 0
          · simp [hn]
          · simp only [if_neg hn]
            have := ih (attempt + 1)
            simp
            omega

/-- An immediately successful attempt ends the retry loop at one attempt
with no sleeps. -/
theorem callRetriesGo_firstSuccess (oracle : Nat → Except LLMErr (List Jval))
    (rand : Nat → ℚ) (backoff : ℚ) (r attempt : Nat) (xs : List Jval)
    (h : oracle attempt = .ok xs) :
    callRetriesGo oracle rand backoff attempt (r + 1) = ⟨.ok xs, 1, []⟩ := by
  rw [callRetriesGo, h]

/-- When every permitted attempt fails, the retry loop makes them all,
sleeps the backoff-with-jitter duration between consecutive attempts, and
ends with the last error. -/
theorem callRetriesGo_allFail (oracle : Nat → Except LLMErr (List Jval))
    (rand : Nat → ℚ) (backoff : ℚ) :
    ∀ (r attempt : Nat),
      (∀ k, attempt ≤ k → k ≤ attempt + r → ∃ e, oracle k = .error e) →
      ∃ e, oracle (attempt + r) = .error e ∧
        callRetriesGo oracle rand backoff attempt (r + 1) =
          ⟨.error e, r + 1,
           (List.range r).map (fun k => sleepFor backoff (attempt + k) (rand (attempt + k)))⟩ := by
  intro r
  induction r with
  | zero =>
      intro attempt h
      obtain ⟨e, he⟩ := h attempt (le_refl _) (by omega)
      refine ⟨e, by simpa using he, ?_⟩
      rw [callRetriesGo, he]
      simp
  | succ n ih =>
      intro attempt h
      obtain ⟨e0, he0⟩ := h attempt (le_refl _) (by omega)
      obtain ⟨e, he, heq⟩ := ih (attempt + 1)
        (fun k hk1 hk2 => h k (by omega) (by omega))
      refine ⟨e, by rw [show attempt + (n + 1) = attempt + 1 + n from by omega]; exact he, ?_⟩
      have hsl : (List.range (n + 1)).map
          (fun k => sleepFor backoff (attempt + k) (rand (attempt + k))) =
          sleepFor backoff attempt (rand attempt) ::
            (List.range n).map (fun k => sleepFor backoff (attempt + 1 + k)
              (rand (attempt + 1 + k))) := by
        rw [List.range_succ_eq_map]
        simp only [List.map_cons, List.map_map, Nat.add_zero]
        refine congrArg _ ?_
        apply List.map_congr_left
        intro k _
        simp only [Function.comp_apply]
        rw [show attempt + (k + 1) = attempt + 1 + k from by omega]
      rw [callRetriesGo, he0]
      simp only [Nat.succ_ne_zero, if_false, heq, hsl]

/-- C5 (amended): each LLM call makes up to `max_retries + 1` attempts
(one initial try plus up to `max_retries` retries); the first successful
attempt ends the loop; when every attempt fails the loop makes all
`max_retries + 1` attempts, sleeping the exponential-backoff-with-jitter
duration between consecutive attempts, and ends with the *last* error —
the model-not-found (HTTP 404) condition is raised as a distinguished
diagnostic error but is caught, retried and handed on exactly like a
transient failure; at the pipeline level an erroring plan call of either
kind only abandons the affected group (the attempted-group counter
advances, nothing is written, processing continues with the next group) —
no LLM error is fatal to the run. -/
theorem llm_retry_amended (oracle : Nat → Except LLMErr (List Jval)) (rand : Nat → ℚ)
    (backoff : ℚ) (m : Nat) :
    (call_llm_ollama_with_retries oracle rand backoff m).attempts ≤ m + 1 ∧
    (∀ xs, oracle 0 = .ok xs →
      call_llm_ollama_with_retries oracle rand backoff m = ⟨.ok xs, 1, []⟩) ∧
    ((∀ k, k ≤ m → ∃ e, oracle k = .error e) →
      ∃ e, oracle m = .error e ∧
        call_llm_ollama_with_retries oracle rand backoff m =
          ⟨.error e, m + 1, (List.range m).map (fun k => sleepFor backoff k (rand k))⟩) ∧
    (∀ (f : FileCtx) (cc : ChunkCtx)
       (planO genO : Nat → Nat → Except LLMErr (List Jval))
       (g : List Obj) (rest : List (List Obj)) (gIdx : Nat) (st : ProcState)
       (wa : Nat) (e : LLMErr),
       remExhausted st.remaining_doc = false →
       remExhausted st.remaining_global = false →
       f.cfg.llm.backend = "ollama" →
       f.cfg.runtime.dry_run = false →
       (call_llm_ollama_with_retries (planO gIdx) (fun _ => 0)
          f.cfg.llm.retry_backoff_s f.cfg.llm.max_retries).result = .error e →
       groupLoop f cc planO genO (g :: rest) gIdx st wa =
         groupLoop f cc planO genO rest (gIdx + 1)
           { st with total_groups := st.total_groups + 1 } wa) := by
  refine ⟨callRetriesGo_attempts_le oracle rand backoff (m + 1) 0, ?_, ?_, ?_⟩
  · intro xs h
    exact callRetriesGo_firstSuccess oracle rand backoff m 0 xs h
  · intro h
    obtain ⟨e, he, heq⟩ := callRetriesGo_allFail oracle rand backoff m 0
      (fun k _ hk2 => h k (by omega))
    refine ⟨e, by simpa using he, ?_⟩
    rw [call_llm_ollama_with_retries, heq]
    simp
  · intro f cc planO genO g rest gIdx st wa e hdoc hglob hback hdry herr
    rw [groupLoop]
    rw [if_neg (by simp [hdoc]), if_neg (by simp [hglob]),
      if_neg (by simp [hback]), if_neg (by simp [hdry]), herr]

/-- Witness for C5 (amended): with `max_retries = 1` and every attempt
hitting the 404 condition, the loop makes both attempts, sleeps once, and
ends with the 404 error; and a concrete group whose plan call fails is
abandoned with only the group counter advanced. -/
theorem llm_retry_amended_witness :
    ((call_llm_ollama_with_retries (fun _ => .error .notFound404) (fun _ => 0) 5 1).attempts ≤ 2) ∧
    (∃ e, (fun _ => (.error .notFound404 : Except LLMErr (List Jval))) 1 = .error e ∧
      call_llm_ollama_with_retries (fun _ => .error .notFound404) (fun _ => 0) 5 1 =
        ⟨.error e, 2, (List.range 1).map (fun k => sleepFor 5 k 0)⟩) ∧
    groupLoop c5WitnessFile c5WitnessChunk
      (fun _ _ => .error .transient) (fun _ _ => .ok [])
      [[[("chunk_id", Jval.jstr "c9x")]]] 0 {} 0 =
      groupLoop c5WitnessFile c5WitnessChunk
        (fun _ _ => .error .transient) (fun _ _ => .ok []) [] 1
        { total_groups := 1 } 0 :=
  ⟨(llm_retry_amended (fun _ => .error .notFound404) (fun _ => 0) 5 1).1,
   (llm_retry_amended (fun _ => .error .notFound404) (fun _ => 0) 5 1).2.2.1
     (fun _ _ => ⟨.notFound404, rfl⟩),
   (llm_retry_amended (fun _ => .error .transient) (fun _ => 0) 5 3).2.2.2
     c5WitnessFile c5WitnessChunk
     (fun _ _ => .error .transient) (fun _ _ => .ok [])
     [[("chunk_id", Jval.jstr "c9x")]] [] 0 {} 0 .transient rfl rfl rfl rfl rfl⟩

/-- Invariants of the `seen_ids`-threaded slimming: the produced slims have
pairwise-distinct, non-blank string ids, none already seen; the seen set
only grows and absorbs the produced ids. -/
theorem slimFold_spec (chs : List Obj) : ∀ (seen : List String),
    (((slimFold seen chs).1.map slimId).Nodup) ∧
    (∀ s ∈ (slimFold seen chs).1, slimId s ∉ seen) ∧
    (∀ s ∈ (slimFold seen chs).1, slimId s ∈ (slimFold seen chs).2) ∧
    (∀ x ∈ seen, x ∈ (slimFold seen chs).2) ∧
    (∀ s ∈ (slimFold seen chs).1, ∃ cid, pyGet s "chunk_id" = Jval.jstr cid ∧ cid ≠ "") := by
  induction chs with
  | nil => intro seen; simp [slimFold]
  | cons ch rest ih =>
      intro seen
      by_cases hg : (pyStr (pyGet ch "chunk_id") = "" ∨ pyStr (pyGet ch "chunk_id") ∈ seen)
      · have hsc : slimChunk seen ch = (none, seen) := by rw [slimChunk, if_pos hg]
        simp only [slimFold, hsc]
        exact ih seen
      · push_neg at hg
        set cid := pyStr (pyGet ch "chunk_id") with hcid
        have hsc : slimChunk seen ch =
            (some [("chunk_id", .jstr cid), ("doc_id", pyGet ch "doc_id"),
              ("language", pyGet ch "language"),
              ("trust_level", get_semantic_field ch "trust_level" .jnull),
              ("content_type", .jarr ((get_flat_list_field ch "content_type").map .jstr)),
              ("domain", .jarr ((get_flat_list_field ch "domain").map .jstr)),
              ("summary_short",
                match get_semantic_field ch "summary_short" .jnull with
                | .jstr s => Jval.jstr s
                | _ => Jval.jnull),
              ("content", pyGet ch "content")], cid :: seen) := by
          rw [slimChunk, if_neg (by push_neg; exact hg)]
        obtain ⟨ihN, ih2, ih3, ih4, ih5⟩ := ih (cid :: seen)
        have hslim : slimId [("chunk_id", Jval.jstr cid), ("doc_id", pyGet ch "doc_id"),
            ("language", pyGet ch "language"),
            ("trust_level", get_semantic_field ch "trust_level" .jnull),
            ("content_type", .jarr ((get_flat_list_field ch "content_type").map .jstr)),
            ("domain", .jarr ((get_flat_list_field ch "domain").map .jstr)),
            ("summary_short",
              match get_semantic_field ch "summary_short" .jnull with
              | .jstr s => Jval.jstr s
              | _ => Jval.jnull),
            ("content", pyGet ch "content")] = cid := rfl
        simp only [slimFold, hsc]
        refine ⟨?_, ?_, ?_, ?_, ?_⟩
        · simp only [List.map_cons, List.nodup_cons, hslim]
          exact ⟨fun hmem => by
            obtain ⟨s, hs, hid⟩ := List.mem_map.mp hmem
            exact (ih2 s hs) (hid ▸ List.mem_cons_self _ _), ihN⟩
        · intro s hs
          rcases List.mem_cons.mp hs with h | h
          · rw [h, hslim]; exact hg.2
          · exact fun hc => (ih2 s h) (List.mem_cons_of_mem _ hc)
        · intro s hs
          rcases List.mem_cons.mp hs with h | h
          · rw [h, hslim]; exact ih4 cid (List.mem_cons_self _ _)
          · exact ih3 s h
        · intro x hx
          exact ih4 x (List.mem_cons_of_mem _ hx)
        · intro s hs
          rcases List.mem_cons.mp hs with h | h
          · exact ⟨cid, by rw [h]; rfl, hg.1⟩
          · exact ih5 s h

/-- With a non-blank anchor id, the anchor always slims successfully. -/
theorem cgAnchor_spec (candidate : Obj) (hA : anchorIdOf candidate ≠ "") :
    ∃ sA, cgAnchor candidate = (some sA, [anchorIdOf candidate]) ∧
      pyGet sA "chunk_id" = Jval.jstr (anchorIdOf candidate) ∧
      slimId sA = anchorIdOf candidate := by
  have h : cgAnchor candidate =
      (some [("chunk_id", .jstr (anchorIdOf candidate)),
        ("doc_id", pyGet candidate "doc_id"),
        ("language", pyGet candidate "language"),
        ("trust_level", get_semantic_field candidate "trust_level" .jnull),
        ("content_type", .jarr ((get_flat_list_field candidate "content_type").map .jstr)),
        ("domain", .jarr ((get_flat_list_field candidate "domain").map .jstr)),
        ("summary_short",
          match get_semantic_field candidate "summary_short" .jnull with
          | .jstr s => Jval.jstr s
          | _ => Jval.jnull),
        ("content", pyGet candidate "content")], [anchorIdOf candidate]) := by
    rw [cgAnchor, slimChunk,
      if_neg (fun hor => hor.elim hA (List.not_mem_nil _))]
    rfl
  exact ⟨_, h, rfl, rfl⟩

/-- The slimmed base starts with the anchor, and the ids across base and
FAISS slims are pairwise distinct, non-blank strings. -/
theorem cg_spec (candidate : Obj) (locals faiss : List Obj)
    (hA : anchorIdOf candidate ≠ "") :
    ∃ sA tl, (cgBase candidate locals).1 = sA :: tl ∧
      (cgAnchor candidate).1 = some sA ∧
      pyGet sA "chunk_id" = Jval.jstr (anchorIdOf candidate) ∧
      (((cgBase candidate locals).1 ++ cgFaissSlim candidate locals faiss).map slimId).Nodup ∧
      (∀ s ∈ (cgBase candidate locals).1 ++ cgFaissSlim candidate locals faiss,
        ∃ cid, pyGet s "chunk_id" = Jval.jstr cid ∧ cid ≠ "") := by
  obtain ⟨sA, hAnch, hid, hsid⟩ := cgAnchor_spec candidate hA
  have hbase : (cgBase candidate locals).1 =
      sA :: (slimFold [anchorIdOf candidate] locals).1 := by
    rw [cgBase, hAnch]
    rfl
  have hseen : (cgBase candidate locals).2 =
      (slimFold [anchorIdOf candidate] locals).2 := by
    rw [cgBase, hAnch]
  obtain ⟨locN, loc2, loc3, loc4, loc5⟩ := slimFold_spec locals [anchorIdOf candidate]
  obtain ⟨faiN, fai2, fai3, fai4, fai5⟩ :=
    slimFold_spec faiss (slimFold [anchorIdOf candidate] locals).2
  have hfai : cgFaissSlim candidate locals faiss =
      (slimFold (slimFold [anchorIdOf candidate] locals).2 faiss).1 := by
    rw [cgFaissSlim, hseen]
  refine ⟨sA, (slimFold [anchorIdOf candidate] locals).1, hbase, by rw [hAnch], hid, ?_, ?_⟩
  · rw [hbase, hfai]
    simp only [List.cons_append, List.map_cons, List.map_append, List.nodup_cons, hsid]
    constructor
    · intro hmem
      rcases List.mem_append.mp hmem with h | h
      · obtain ⟨s, hs, hids⟩ := List.mem_map.mp h
        exact (loc2 s hs) (hids ▸ List.mem_cons_self _ _)
      · obtain ⟨s, hs, hids⟩ := List.mem_map.mp h
        exact (fai2 s hs) (hids ▸ loc4 _ (List.mem_cons_self _ _))
    · rw [List.nodup_append]
      refine ⟨locN, faiN, ?_⟩
      intro x hx hx'
      obtain ⟨s, hs, hids⟩ := List.mem_map.mp hx
      obtain ⟨t, ht, hidt⟩ := List.mem_map.mp hx'
      exact (fai2 t ht) (hidt ▸ hids ▸ loc3 s hs)
  · intro s hs
    rw [hbase, hfai] at hs
    have hs' : s = sA ∨ s ∈ (slimFold [anchorIdOf candidate] locals).1 ∨
        s ∈ (slimFold (slimFold [anchorIdOf candidate] locals).2 faiss).1 := by
      simpa using hs
    rcases hs' with h | h | h
    · exact ⟨anchorIdOf candidate, h ▸ hid, hA⟩
    · exact loc5 s h
    · exact fai5 s h

/-- Every group produced by the windowing loop is either carried over from
the accumulator or is the base followed by one window — a sublist of the
remaining FAISS slims of length at most `rs` that lifts the group to
`min_group_size`; and the produced group count respects a positive
`max_groups_per_chunk`. -/
theorem windowLoopAux_spec (bp : List Obj) (rs : Nat) (minSize maxg : Int)
    (tail0 : List Obj) (Q : List Obj → Prop)
    (hQ : ∀ w, w.Sublist tail0 → w.length ≤ rs →
      minSize ≤ ((bp ++ w).length : Int) → Q (bp ++ w)) :
    ∀ (fuel : Nat) (rest : List Obj) (acc : List (List Obj)),
    rest.IsSuffix tail0 →
    (∀ g ∈ acc, Q g) →
    (∀ g ∈ windowLoopAux bp rs minSize maxg fuel rest acc, Q g) ∧
    (0 < maxg → (acc.length : Int) < maxg →
      ((windowLoopAux bp rs minSize maxg fuel rest acc).length : Int) ≤ maxg) := by
  have hdrop : ∀ (l : List Obj) (n : Nat), (l.drop n).IsSuffix l :=
    fun l n => ⟨l.take n, List.take_append_drop n l⟩
  intro fuel
  induction fuel with
  | zero =>
      intro rest acc _ hacc
      cases rest with
      | nil => exact ⟨hacc, fun _ hlt => by rw [windowLoopAux]; omega⟩
      | cons x r =>
          refine ⟨hacc, fun _ hlt => ?_⟩
          have h0 : windowLoopAux bp rs minSize maxg 0 (x :: r) acc = acc := rfl
          rw [h0]
          omega
  | succ fuel ih =>
      intro rest acc hsuf hacc
      cases rest with
      | nil => exact ⟨hacc, fun _ hlt => by rw [windowLoopAux]; omega⟩
      | cons x r =>
          rw [windowLoopAux]
          have hw : Q (bp ++ (x :: r).take rs) ∨
              ¬ minSize ≤ ((bp ++ (x :: r).take rs).length : Int) := by
            by_cases hm : minSize ≤ ((bp ++ (x :: r).take rs).length : Int)
            · exact Or.inl (hQ _ ((List.take_sublist _ _).trans hsuf.sublist)
                (by exact List.length_take_le rs (x :: r)) hm)
            · exact Or.inr hm
          set g := bp ++ (x :: r).take rs with hg
          by_cases hm : minSize ≤ ((g.length : Int))
          · have hQg : Q g := by
              rcases hw with h | h
              · exact h
              · exact absurd hm h
            rw [if_pos hm]
            have hacc' : ∀ g' ∈ acc ++ [g], Q g' := by
              intro g' hg'
              rcases List.mem_append.mp hg' with h | h
              · exact hacc g' h
              · rw [List.mem_singleton.mp h]; exact hQg
            by_cases hstop : 0 < maxg ∧ maxg ≤ ((acc ++ [g]).length : Int)
            · rw [if_pos hstop]
              refine ⟨hacc', fun _ hlt => ?_⟩
              simp only [List.length_append, List.length_singleton]
              push_cast
              simp only [List.length_append, List.length_singleton] at hstop
              omega
            · rw [if_neg hstop]
              have hrec := ih ((x :: r).drop rs) (acc ++ [g])
                (List.IsSuffix.trans (hdrop _ _) hsuf) hacc'
              refine ⟨hrec.1, fun hpos _ => hrec.2 hpos ?_⟩
              by_contra hcon
              push_neg at hcon
              exact hstop ⟨hpos, hcon⟩
          · rw [if_neg hm]
            by_cases hstop : 0 < maxg ∧ maxg ≤ ((acc).length : Int)
            · rw [if_pos hstop]
              exact ⟨hacc, fun _ hlt => by omega⟩
            · rw [if_neg hstop]
              exact ih ((x :: r).drop rs) acc (List.IsSuffix.trans (hdrop _ _) hsuf) hacc

/-- Invariants of the assembly step (lines 1195-1223): if the prefilled
base starts with `sA`, reaches `min_group_size`, and every pair of a
sub-selection of the base and of the remaining FAISS slims has distinct,
non-blank string ids, then every emitted group has size in
`[min_group_size, max_group_size]`, starts with `sA`, has pairwise
distinct non-blank string ids, and the group count respects a positive
`max_groups_per_chunk`. -/
theorem cgAssemble_spec (cfg : QAConfig) (maxg : Int) (fsl : List Obj)
    (bp0 : List Obj) (start : Nat) (sA : Obj)
    (hmin : 1 ≤ cfg.grouping.min_group_size)
    (hminmax : cfg.grouping.min_group_size ≤ cfg.grouping.max_group_size)
    (hhead : ∃ t, bp0 = sA :: t)
    (hlen : cfg.grouping.min_group_size ≤ (bp0.length : Int))
    (H : ∀ (u w : List Obj), u.Sublist bp0 → w.Sublist (fsl.drop start) →
      ((u ++ w).map slimId).Nodup ∧
      (∀ c ∈ u ++ w, ∃ cid, pyGet c "chunk_id" = Jval.jstr cid ∧ cid ≠ "")) :
    (∀ g ∈ cgAssemble cfg maxg fsl bp0 start,
      cfg.grouping.min_group_size ≤ (g.length : Int) ∧
      (g.length : Int) ≤ cfg.grouping.max_group_size ∧
      g.head? = some sA ∧
      (g.map slimId).Nodup ∧
      (∀ c ∈ g, ∃ cid, pyGet c "chunk_id" = Jval.jstr cid ∧ cid ≠ "")) ∧
    (0 < maxg → ((cgAssemble cfg maxg fsl bp0 start).length : Int) ≤ maxg) := by
  obtain ⟨t0, ht0⟩ := hhead
  set bp := if cfg.grouping.max_group_size < (bp0.length : Int)
      then bp0.take cfg.grouping.max_group_size.toNat else bp0 with hbp
  have hunfold : cgAssemble cfg maxg fsl bp0 start =
      (if cfg.grouping.max_group_size - (bp.length : Int) ≤ 0 ∨ fsl.length ≤ start then
        (if 0 < maxg then [bp].take maxg.toNat else [bp])
      else
        (if (windowLoopAux bp (cfg.grouping.max_group_size - (bp.length : Int)).toNat
              cfg.grouping.min_group_size maxg (fsl.drop start).length (fsl.drop start)
              []).isEmpty
          then [bp]
          else windowLoopAux bp (cfg.grouping.max_group_size - (bp.length : Int)).toNat
            cfg.grouping.min_group_size maxg (fsl.drop start).length (fsl.drop start) [])) := by
    rw [hbp]
    rfl
  have hbpsub : bp.Sublist bp0 := by
    rw [hbp]
    split
    · exact List.take_sublist _ _
    · exact List.Sublist.refl _
  have hbpfacts : cfg.grouping.min_group_size ≤ (bp.length : Int) ∧
      (bp.length : Int) ≤ cfg.grouping.max_group_size := by
    rw [hbp]
    split
    · rename_i hcap
      rw [List.length_take]
      push_cast
      omega
    · rename_i hcap
      push_neg at hcap
      exact ⟨hlen, hcap⟩
  have hbphead : ∃ t, bp = sA :: t := by
    rw [hbp, ht0]
    split
    · rename_i hcap
      obtain ⟨k, hk⟩ : ∃ k, cfg.grouping.max_group_size.toNat = k + 1 :=
        ⟨cfg.grouping.max_group_size.toNat - 1, by omega⟩
      exact ⟨t0.take k, by rw [hk, List.take_succ_cons]⟩
    · exact ⟨t0, rfl⟩
  have hQbp : cfg.grouping.min_group_size ≤ (bp.length : Int) ∧
      (bp.length : Int) ≤ cfg.grouping.max_group_size ∧
      bp.head? = some sA ∧ (bp.map slimId).Nodup ∧
      (∀ c ∈ bp, ∃ cid, pyGet c "chunk_id" = Jval.jstr cid ∧ cid ≠ "") := by
    obtain ⟨t, ht⟩ := hbphead
    have hH := H bp [] hbpsub (List.nil_sublist _)
    simp only [List.append_nil] at hH
    exact ⟨hbpfacts.1, hbpfacts.2, by rw [ht]; rfl, hH.1, hH.2⟩
  rw [hunfold]
  by_cases hbr : cfg.grouping.max_group_size - (bp.length : Int) ≤ 0 ∨ fsl.length ≤ start
  · rw [if_pos hbr]
    constructor
    · intro g hg
      have hgbp : g = bp := by
        split at hg
        · exact List.mem_singleton.mp ((List.take_sublist _ _).subset hg)
        · exact List.mem_singleton.mp hg
      rw [hgbp]
      exact hQbp
    · intro hpos
      rw [if_pos hpos]
      simp only [List.length_take, List.length_singleton]
      push_cast
      omega
  · rw [if_neg hbr]
    push_neg at hbr
    obtain ⟨hslots, hstart⟩ := hbr
    have hQw : ∀ w, w.Sublist (fsl.drop start) →
        w.length ≤ (cfg.grouping.max_group_size - (bp.length : Int)).toNat →
        cfg.grouping.min_group_size ≤ ((bp ++ w).length : Int) →
        (cfg.grouping.min_group_size ≤ ((bp ++ w).length : Int) ∧
          ((bp ++ w).length : Int) ≤ cfg.grouping.max_group_size ∧
          (bp ++ w).head? = some sA ∧
          ((bp ++ w).map slimId).Nodup ∧
          (∀ c ∈ bp ++ w, ∃ cid, pyGet c "chunk_id" = Jval.jstr cid ∧ cid ≠ "")) := by
      intro w hw hwlen hwmin
      obtain ⟨t, ht⟩ := hbphead
      have hH := H bp w hbpsub hw
      refine ⟨hwmin, ?_, by rw [ht]; rfl, hH.1, hH.2⟩
      rw [List.length_append]
      push_cast
      omega
    have hspec := windowLoopAux_spec bp
      (cfg.grouping.max_group_size - (bp.length : Int)).toNat
      cfg.grouping.min_group_size maxg (fsl.drop start)
      (fun g => cfg.grouping.min_group_size ≤ ((g.length : Int)) ∧
        ((g.length : Int)) ≤ cfg.grouping.max_group_size ∧
        g.head? = some sA ∧ (g.map slimId).Nodup ∧
        (∀ c ∈ g, ∃ cid, pyGet c "chunk_id" = Jval.jstr cid ∧ cid ≠ ""))
      hQw (fsl.drop start).length (fsl.drop start) [] (List.suffix_refl _)
      (fun g hg => absurd hg (List.not_mem_nil g))
    split
    · constructor
      · intro g hg
        rw [List.mem_singleton.mp hg]
        exact hQbp
      · intro hpos
        simp only [List.length_singleton]
        omega
    · refine ⟨hspec.1, fun hpos => hspec.2 hpos ?_⟩
      simpa using hpos

/-- The full invariant bundle of `build_context_groups`: group sizes in
`[min_group_size, max_group_size]`, the anchor slim first, pairwise
distinct non-blank string ids, the positive `max_groups_per_chunk` bound,
and the insufficient-pool skip. -/
theorem build_context_groups_spec (candidate : Obj)
    (locals faiss : List Obj) (cfg : QAConfig) (maxg : Int)
    (hmin : 1 ≤ cfg.grouping.min_group_size)
    (hminmax : cfg.grouping.min_group_size ≤ cfg.grouping.max_group_size)
    (hA : anchorIdOf candidate ≠ "") :
    (∀ g ∈ build_context_groups candidate locals faiss cfg maxg,
      cfg.grouping.min_group_size ≤ (g.length : Int) ∧
      (g.length : Int) ≤ cfg.grouping.max_group_size ∧
      g.head? = (cgAnchor candidate).1 ∧
      (g.map slimId).Nodup ∧
      (∀ c ∈ g, ∃ cid, pyGet c "chunk_id" = Jval.jstr cid ∧ cid ≠ "")) ∧
    (0 < maxg →
      ((build_context_groups candidate locals faiss cfg maxg).length : Int) ≤ maxg) ∧
    ((((cgBase candidate locals).1.length : Int) +
        ((cgFaissSlim candidate locals faiss).length : Int) <
        cfg.grouping.min_group_size) →
      build_context_groups candidate locals faiss cfg maxg = []) := by
  obtain ⟨sA, tl, hbase, hanch, hid, hnodup, hstr⟩ := cg_spec candidate locals faiss hA
  by_cases hge : cfg.grouping.min_group_size ≤ (((cgBase candidate locals).1).length : Int)
  · have hunfold : build_context_groups candidate locals faiss cfg maxg =
        cgAssemble cfg maxg (cgFaissSlim candidate locals faiss)
          (cgBase candidate locals).1 0 := by
      rw [build_context_groups]
      simp only [if_pos hge]
    have hH : ∀ (u w : List Obj), u.Sublist (cgBase candidate locals).1 →
        w.Sublist ((cgFaissSlim candidate locals faiss).drop 0) →
        ((u ++ w).map slimId).Nodup ∧
        (∀ c ∈ u ++ w, ∃ cid, pyGet c "chunk_id" = Jval.jstr cid ∧ cid ≠ "") := by
      intro u w hu hw
      rw [List.drop_zero] at hw
      have hsub : (u ++ w).Sublist
          ((cgBase candidate locals).1 ++ cgFaissSlim candidate locals faiss) :=
        List.Sublist.append hu hw
      exact ⟨List.Nodup.sublist (List.Sublist.map slimId hsub) hnodup,
        fun c hc => hstr c (hsub.subset hc)⟩
    have hmain := cgAssemble_spec cfg maxg (cgFaissSlim candidate locals faiss)
      (cgBase candidate locals).1 0 sA hmin hminmax ⟨tl, hbase⟩ hge hH
    rw [hunfold]
    refine ⟨?_, hmain.2, ?_⟩
    · intro g hg
      have hQ := hmain.1 g hg
      exact ⟨hQ.1, hQ.2.1, hQ.2.2.1.trans hanch.symm, hQ.2.2.2.1, hQ.2.2.2.2⟩
    · intro hins
      exfalso
      omega
  · by_cases hpool : (cgFaissSlim candidate locals faiss).length <
        (cfg.grouping.min_group_size - (((cgBase candidate locals).1).length : Int)).toNat
    · have hunfold : build_context_groups candidate locals faiss cfg maxg = [] := by
        rw [build_context_groups]
        simp only [if_neg hge, if_pos hpool]
      rw [hunfold]
      exact ⟨by simp, fun hpos => by simpa using hpos.le, fun _ => rfl⟩
    · have hunfold : build_context_groups candidate locals faiss cfg maxg =
          cgAssemble cfg maxg (cgFaissSlim candidate locals faiss)
            ((cgBase candidate locals).1 ++ (cgFaissSlim candidate locals faiss).take
              (cfg.grouping.min_group_size - (((cgBase candidate locals).1).length : Int)).toNat)
            (cfg.grouping.min_group_size - (((cgBase candidate locals).1).length : Int)).toNat := by
        rw [build_context_groups]
        simp only [if_neg hge, if_neg hpool]
      have hhead2 : ∃ t, (cgBase candidate locals).1 ++ (cgFaissSlim candidate locals faiss).take
          (cfg.grouping.min_group_size - (((cgBase candidate locals).1).length : Int)).toNat =
          sA :: t := by
        refine ⟨tl ++ (cgFaissSlim candidate locals faiss).take
          (cfg.grouping.min_group_size - (((cgBase candidate locals).1).length : Int)).toNat, ?_⟩
        rw [hbase]
        rfl
      have hlen2 : cfg.grouping.min_group_size ≤
          ((((cgBase candidate locals).1 ++ (cgFaissSlim candidate locals faiss).take
            (cfg.grouping.min_group_size -
              (((cgBase candidate locals).1).length : Int)).toNat)).length : Int) := by
        rw [List.length_append, List.length_take]
        push_cast
        omega
      have hH : ∀ (u w : List Obj),
          u.Sublist ((cgBase candidate locals).1 ++ (cgFaissSlim candidate locals faiss).take
            (cfg.grouping.min_group_size - (((cgBase candidate locals).1).length : Int)).toNat) →
          w.Sublist ((cgFaissSlim candidate locals faiss).drop
            (cfg.grouping.min_group_size - (((cgBase candidate locals).1).length : Int)).toNat) →
          ((u ++ w).map slimId).Nodup ∧
          (∀ c ∈ u ++ w, ∃ cid, pyGet c "chunk_id" = Jval.jstr cid ∧ cid ≠ "") := by
        intro u w hu hw
        have heq : ((cgBase candidate locals).1 ++ (cgFaissSlim candidate locals faiss).take
            (cfg.grouping.min_group_size - (((cgBase candidate locals).1).length : Int)).toNat) ++
            (cgFaissSlim candidate locals faiss).drop
              (cfg.grouping.min_group_size - (((cgBase candidate locals).1).length : Int)).toNat =
            (cgBase candidate locals).1 ++ cgFaissSlim candidate locals faiss := by
          rw [List.append_assoc, List.take_append_drop]
        have hsub : (u ++ w).Sublist
            ((cgBase candidate locals).1 ++ cgFaissSlim candidate locals faiss) :=
          heq ▸ List.Sublist.append hu hw
        exact ⟨List.Nodup.sublist (List.Sublist.map slimId hsub) hnodup,
          fun c hc => hstr c (hsub.subset hc)⟩
      have hmain := cgAssemble_spec cfg maxg (cgFaissSlim candidate locals faiss)
        ((cgBase candidate locals).1 ++ (cgFaissSlim candidate locals faiss).take
          (cfg.grouping.min_group_size - (((cgBase candidate locals).1).length : Int)).toNat)
        (cfg.grouping.min_group_size - (((cgBase candidate locals).1).length : Int)).toNat
        sA hmin hminmax hhead2 hlen2 hH
      rw [hunfold]
      refine ⟨?_, hmain.2, ?_⟩
      · intro g hg
        have hQ := hmain.1 g hg
        exact ⟨hQ.1, hQ.2.1, hQ.2.2.1.trans hanch.symm, hQ.2.2.2.1, hQ.2.2.2.2⟩
      · intro hins
        exfalso
        push_neg at hge hpool
        omega

/-- C7: every context group returned by `build_context_groups` has size in
`[min_group_size, max_group_size]`; its first element is the anchor's slim
(`cgAnchor`); its chunk ids are pairwise distinct, non-blank strings; the
number of groups returned for the anchor never exceeds a positive
`max_groups_per_chunk`; and when the base set plus the FAISS-neighbor pool
cannot reach `min_group_size` the function returns zero groups (a skip,
not an error). -/
theorem build_context_groups_invariants (candidate : Obj)
    (locals faiss : List Obj) (cfg : QAConfig) (maxg : Int)
    (hmin : 1 ≤ cfg.grouping.min_group_size)
    (hminmax : cfg.grouping.min_group_size ≤ cfg.grouping.max_group_size)
    (hA : anchorIdOf candidate ≠ "") :
    (∀ g ∈ build_context_groups candidate locals faiss cfg maxg,
      cfg.grouping.min_group_size ≤ (g.length : Int) ∧
      (g.length : Int) ≤ cfg.grouping.max_group_size ∧
      g.head? = (cgAnchor candidate).1 ∧
      (g.map slimId).Nodup ∧
      (∀ c ∈ g, ∃ cid, pyGet c "chunk_id" = Jval.jstr cid ∧ cid ≠ "")) ∧
    (0 < maxg →
      ((build_context_groups candidate locals faiss cfg maxg).length : Int) ≤ maxg) ∧
    ((((cgBase candidate locals).1.length : Int) +
        ((cgFaissSlim candidate locals faiss).length : Int) <
        cfg.grouping.min_group_size) →
      build_context_groups candidate locals faiss cfg maxg = []) :=
  build_context_groups_spec candidate locals faiss cfg maxg hmin hminmax hA

/-- Witness for C7: a concrete anchor with one local neighbor under the
default grouping configuration satisfies the hypotheses, and the
invariants hold for the groups it yields. -/
theorem build_context_groups_invariants_witness :
    (1 ≤ ({} : QAConfig).grouping.min_group_size ∧
      ({} : QAConfig).grouping.min_group_size ≤ ({} : QAConfig).grouping.max_group_size ∧
      anchorIdOf [("chunk_id", Jval.jstr "w7c1"), ("content", Jval.jstr "x")] ≠ "") ∧
    ((∀ g ∈ build_context_groups
        [("chunk_id", Jval.jstr "w7c1"), ("content", Jval.jstr "x")]
        [[("chunk_id", Jval.jstr "w7c2"), ("content", Jval.jstr "y")]] [] {} 1,
      ({} : QAConfig).grouping.min_group_size ≤ (g.length : Int) ∧
      (g.length : Int) ≤ ({} : QAConfig).grouping.max_group_size ∧
      g.head? = (cgAnchor [("chunk_id", Jval.jstr "w7c1"), ("content", Jval.jstr "x")]).1 ∧
      (g.map slimId).Nodup ∧
      (∀ c ∈ g, ∃ cid, pyGet c "chunk_id" = Jval.jstr cid ∧ cid ≠ "")) ∧
    ((0 : Int) < 1 →
      ((build_context_groups
        [("chunk_id", Jval.jstr "w7c1"), ("content", Jval.jstr "x")]
        [[("chunk_id", Jval.jstr "w7c2"), ("content", Jval.jstr "y")]] [] {} 1).length : Int) ≤ 1) ∧
    ((((cgBase [("chunk_id", Jval.jstr "w7c1"), ("content", Jval.jstr "x")]
          [[("chunk_id", Jval.jstr "w7c2"), ("content", Jval.jstr "y")]]).1.length : Int) +
        ((cgFaissSlim [("chunk_id", Jval.jstr "w7c1"), ("content", Jval.jstr "x")]
          [[("chunk_id", Jval.jstr "w7c2"), ("content", Jval.jstr "y")]] []).length : Int) <
        ({} : QAConfig).grouping.min_group_size) →
      build_context_groups
        [("chunk_id", Jval.jstr "w7c1"), ("content", Jval.jstr "x")]
        [[("chunk_id", Jval.jstr "w7c2"), ("content", Jval.jstr "y")]] [] {} 1 = [])) :=
  ⟨⟨by decide, by decide, by decide⟩,
   build_context_groups_invariants
     [("chunk_id", Jval.jstr "w7c1"), ("content", Jval.jstr "x")]
     [[("chunk_id", Jval.jstr "w7c2"), ("content", Jval.jstr "y")]] [] {} 1
     (by decide) (by decide) (by decide)⟩

/-- When the group has at least one string chunk id, the resolved evidence
is non-empty and contained in the group's chunk-id list. -/
theorem resolveEvidence_mem (group : List Obj) (qa_obj : Obj)
    (hne : allChunkIds group ≠ []) :
    resolveEvidence group qa_obj ≠ [] ∧
      ∀ s ∈ resolveEvidence group qa_obj, s ∈ allChunkIds group := by
  have hval : resolveEvidence group qa_obj =
      (if ((normalize_chunk_id_list (rawEvidence qa_obj)).filter
          (fun cid => (allChunkIds group).contains cid)).isEmpty
        then allChunkIds group
        else (normalize_chunk_id_list (rawEvidence qa_obj)).filter
          (fun cid => (allChunkIds group).contains cid)) := rfl
  rw [hval]
  by_cases he : ((normalize_chunk_id_list (rawEvidence qa_obj)).filter
      (fun cid => (allChunkIds group).contains cid)).isEmpty
  · rw [if_pos he]
    exact ⟨hne, fun s hs => hs⟩
  · rw [if_neg he]
    refine ⟨fun hc => he (by rw [hc]; rfl), fun s hs => ?_⟩
    have hp := (List.mem_filter.mp hs).2
    simpa using hp

/-- A non-empty group whose members carry string chunk ids has a non-empty
chunk-id list. -/
theorem allChunkIds_ne_nil (g : List Obj)
    (hstr : ∀ c ∈ g, ∃ cid, pyGet c "chunk_id" = Jval.jstr cid ∧ cid ≠ "")
    (hg : g ≠ []) : allChunkIds g ≠ [] := by
  cases g with
  | nil => exact absurd rfl hg
  | cons c rest =>
      obtain ⟨cid, hcid, _⟩ := hstr c (List.mem_cons_self _ _)
      simp only [allChunkIds, List.filterMap_cons, hcid]
      exact List.cons_ne_nil _ _

/-- Every group built for an anchored candidate has a non-empty chunk-id
list. -/
theorem build_groups_allChunkIds (candidate : Obj) (locals faiss : List Obj)
    (cfg : QAConfig) (maxg : Int)
    (hmin : 1 ≤ cfg.grouping.min_group_size)
    (hminmax : cfg.grouping.min_group_size ≤ cfg.grouping.max_group_size)
    (hA : anchorIdOf candidate ≠ "") :
    ∀ g ∈ build_context_groups candidate locals faiss cfg maxg,
      allChunkIds g ≠ [] := by
  intro g hg
  have hQ := (build_context_groups_spec candidate locals faiss cfg maxg
    hmin hminmax hA).1 g hg
  obtain ⟨sA, hanch, _, _⟩ := cgAnchor_spec candidate hA
  have hhead : g.head? = some sA := by
    rw [hQ.2.2.1, hanch]
  refine allChunkIds_ne_nil g hQ.2.2.2.2 ?_
  intro hcon
  rw [hcon] at hhead
  exact Option.noConfusion hhead

/-- The quota bookkeeping never touches the written records. -/
theorem quotaStep_records (st : ProcState) : (quotaStep st).1.records = st.records := by
  rw [quotaStep]
  rcases hd : st.remaining_doc with _ | r <;>
    rcases hg : st.remaining_global with _ | g <;>
      simp only [hd, hg] <;>
      (repeat' split) <;> simp_all

/-- Every record in the state after the question/answer loop satisfies the
evidence-containment invariant, provided the incoming records do and the
group has a non-empty chunk-id list. -/
theorem qaLoop_evidence (f : FileCtx) (cc : ChunkCtx) (plan_obj : Obj) (group : List Obj)
    (hg : allChunkIds group ≠ []) :
    ∀ (l : List Jval) (qaIdx : Nat) (st : ProcState) (wfg : Nat),
    (∀ rec ∈ st.records, rec.source_chunks ≠ [] ∧
      ∀ s ∈ rec.source_chunks, s ∈ rec.context_chunks) →
    ∀ rec ∈ (qaLoop f cc plan_obj group l qaIdx st wfg).1.records,
      rec.source_chunks ≠ [] ∧ ∀ s ∈ rec.source_chunks, s ∈ rec.context_chunks := by
  have hbuilt : ∀ (qaIdx : Nat) (qa_obj : Obj) (q a d : String),
      (buildRecord f cc plan_obj group qaIdx qa_obj q a d).source_chunks ≠ [] ∧
      ∀ s ∈ (buildRecord f cc plan_obj group qaIdx qa_obj q a d).source_chunks,
        s ∈ (buildRecord f cc plan_obj group qaIdx qa_obj q a d).context_chunks := by
    intro qaIdx qa_obj q a d
    have h1 : (buildRecord f cc plan_obj group qaIdx qa_obj q a d).source_chunks =
        resolveEvidence group qa_obj := rfl
    have h2 : (buildRecord f cc plan_obj group qaIdx qa_obj q a d).context_chunks =
        allChunkIds group := rfl
    rw [h1, h2]
    exact resolveEvidence_mem group qa_obj hg
  intro l
  induction l with
  | nil => intro qaIdx st wfg hst; exact hst
  | cons qa rest ih =>
      intro qaIdx st wfg hst rec hmem
      rw [qaLoop.eq_def] at hmem
      simp only [] at hmem
      split at hmem
      · exact hst rec hmem
      · split at hmem
        · split at hmem
          · split at hmem
            · exact ih _ _ _ hst rec hmem
            · split at hmem
              · exact ih _ _ _ hst rec hmem
              · rename_i qa_obj x1 x2 x3 q a d htq hta htd hvalid hleak
                have hst' : ∀ r ∈ st.records ++
                    [buildRecord f cc plan_obj group qaIdx qa_obj q a d],
                    r.source_chunks ≠ [] ∧
                    ∀ s ∈ r.source_chunks, s ∈ r.context_chunks := by
                  intro r hr
                  rcases List.mem_append.mp hr with h | h
                  · exact hst r h
                  · rw [List.mem_singleton.mp h]
                    exact hbuilt qaIdx qa_obj q a d
                split at hmem
                · rw [quotaStep_records] at hmem
                  exact hst' rec hmem
                · refine ih _ _ _ ?_ rec hmem
                  intro r hr
                  rw [quotaStep_records] at hr
                  exact hst' r hr
          · exact ih _ _ _ hst rec hmem
        · exact ih _ _ _ hst rec hmem

/-- The per-group loop preserves the evidence-containment invariant when
every offered group has a non-empty chunk-id list. -/
theorem groupLoop_evidence (f : FileCtx) (cc : ChunkCtx)
    (planO genO : Nat → Nat → Except LLMErr (List Jval)) :
    ∀ (gs : List (List Obj)) (gIdx : Nat) (st : ProcState) (wa : Nat),
    (∀ g ∈ gs, allChunkIds g ≠ []) →
    (∀ rec ∈ st.records, rec.source_chunks ≠ [] ∧
      ∀ s ∈ rec.source_chunks, s ∈ rec.context_chunks) →
    ∀ rec ∈ (groupLoop f cc planO genO gs gIdx st wa).1.records,
      rec.source_chunks ≠ [] ∧ ∀ s ∈ rec.source_chunks, s ∈ rec.context_chunks := by
  intro gs
  induction gs with
  | nil => intro gIdx st wa _ hst; exact hst
  | cons g rest ih =>
      intro gIdx st wa hgs hst rec hmem
      have hgrest : ∀ g' ∈ rest, allChunkIds g' ≠ [] :=
        fun g' h => hgs g' (List.mem_cons_of_mem _ h)
      have hg : allChunkIds g ≠ [] := hgs g (List.mem_cons_self _ _)
      rw [groupLoop.eq_def] at hmem
      simp only [] at hmem
      split at hmem
      · exact hst rec hmem
      · split at hmem
        · exact hst rec hmem
        · split at hmem
          · exact hst rec hmem
          · split at hmem
            · exact ih _ _ _ hgrest (by exact fun r hr => hst r hr) rec hmem
            · split at hmem
              · exact ih _ _ _ hgrest (by exact fun r hr => hst r hr) rec hmem
              · split at hmem
                · exact ih _ _ _ hgrest (by exact fun r hr => hst r hr) rec hmem
                · split at hmem
                  · exact ih _ _ _ hgrest (by exact fun r hr => hst r hr) rec hmem
                  · split at hmem
                    · exact ih _ _ _ hgrest (by exact fun r hr => hst r hr) rec hmem
                    · refine ih _ _ _ hgrest ?_ rec hmem
                      exact qaLoop_evidence f cc _ g hg _ _ _ _ hst

/-- The per-chunk loop preserves the evidence-containment invariant under a
sane grouping configuration. -/
theorem chunkLoop_evidence (f : FileCtx) (chunksAll : List Obj) (faissO : Nat → List Obj)
    (planO genO : Nat → Nat → Nat → Except LLMErr (List Jval))
    (hmin : 1 ≤ f.cfg.grouping.min_group_size)
    (hminmax : f.cfg.grouping.min_group_size ≤ f.cfg.grouping.max_group_size) :
    ∀ (cl : List Obj) (idx : Nat) (st : ProcState),
    (∀ rec ∈ st.records, rec.source_chunks ≠ [] ∧
      ∀ s ∈ rec.source_chunks, s ∈ rec.context_chunks) →
    ∀ rec ∈ (chunkLoop f chunksAll faissO planO genO cl idx st).records,
      rec.source_chunks ≠ [] ∧ ∀ s ∈ rec.source_chunks, s ∈ rec.context_chunks := by
  intro cl
  induction cl with
  | nil => intro idx st hst; exact hst
  | cons chunk rest ih =>
      intro idx st hst rec hmem0
      have hmem : rec ∈ (
          if f.cfg.debug.limit_num_chunks ≠ 0 ∧ f.cfg.debug.limit_num_chunks ≤ (idx : Int)
            then st
          else if pyStr (pyGet chunk "chunk_id") = "" then
            chunkLoop f chunksAll faissO planO genO rest (idx + 1) st
          else if pyStr (pyGet chunk "chunk_id") ∈ st.processed then
            chunkLoop f chunksAll faissO planO genO rest (idx + 1) st
          else if ¬ is_candidate_chunk chunk f.cfg then
            chunkLoop f chunksAll faissO planO genO rest (idx + 1) st
          else if remExhausted st.remaining_doc then st
          else if remExhausted st.remaining_global then st
          else if (chunkPrep f chunksAll faissO idx chunk).2.isEmpty then
            chunkLoop f chunksAll faissO planO genO rest (idx + 1) st
          else if (groupLoop f (chunkPrep f chunksAll faissO idx chunk).1 (planO idx)
              (genO idx) (chunkPrep f chunksAll faissO idx chunk).2 0 st 0).1.err.isSome then
            (groupLoop f (chunkPrep f chunksAll faissO idx chunk).1 (planO idx)
              (genO idx) (chunkPrep f chunksAll faissO idx chunk).2 0 st 0).1
          else if remExhausted (if 0 < (groupLoop f (chunkPrep f chunksAll faissO idx chunk).1
              (planO idx) (genO idx) (chunkPrep f chunksAll faissO idx chunk).2 0 st 0).2 then
                markProcessed (groupLoop f (chunkPrep f chunksAll faissO idx chunk).1 (planO idx)
                  (genO idx) (chunkPrep f chunksAll faissO idx chunk).2 0 st 0).1
                  (pyStr (pyGet chunk "chunk_id"))
              else (groupLoop f (chunkPrep f chunksAll faissO idx chunk).1 (planO idx)
                (genO idx) (chunkPrep f chunksAll faissO idx chunk).2 0 st 0).1).remaining_global
            then
            (if 0 < (groupLoop f (chunkPrep f chunksAll faissO idx chunk).1
                (planO idx) (genO idx) (chunkPrep f chunksAll faissO idx chunk).2 0 st 0).2 then
              markProcessed (groupLoop f (chunkPrep f chunksAll faissO idx chunk).1 (planO idx)
                (genO idx) (chunkPrep f chunksAll faissO idx chunk).2 0 st 0).1
                (pyStr (pyGet chunk "chunk_id"))
            else (groupLoop f (chunkPrep f chunksAll faissO idx chunk).1 (planO idx)
              (genO idx) (chunkPrep f chunksAll faissO idx chunk).2 0 st 0).1)
          else chunkLoop f chunksAll faissO planO genO rest (idx + 1)
            (if 0 < (groupLoop f (chunkPrep f chunksAll faissO idx chunk).1
                (planO idx) (genO idx) (chunkPrep f chunksAll faissO idx chunk).2 0 st 0).2 then
              markProcessed (groupLoop f (chunkPrep f chunksAll faissO idx chunk).1 (planO idx)
                (genO idx) (chunkPrep f chunksAll faissO idx chunk).2 0 st 0).1
                (pyStr (pyGet chunk "chunk_id"))
            else (groupLoop f (chunkPrep f chunksAll faissO idx chunk).1 (planO idx)
              (genO idx) (chunkPrep f chunksAll faissO idx chunk).2 0 st 0).1)).records := hmem0
      clear hmem0
      generalize hcg : chunkPrep f chunksAll faissO idx chunk = cg at hmem
      generalize hR : groupLoop f cg.1 (planO idx) (genO idx) cg.2 0 st 0 = R at hmem
      by_cases hdbg : f.cfg.debug.limit_num_chunks ≠ 0 ∧
          f.cfg.debug.limit_num_chunks ≤ (idx : Int)
      · rw [if_pos hdbg] at hmem
        exact hst rec hmem
      · rw [if_neg hdbg] at hmem
        by_cases hblank : pyStr (pyGet chunk "chunk_id") = ""
        · rw [if_pos hblank] at hmem
          exact ih _ _ hst rec hmem
        · rw [if_neg hblank] at hmem
          by_cases hres : pyStr (pyGet chunk "chunk_id") ∈ st.processed
          · rw [if_pos hres] at hmem
            exact ih _ _ hst rec hmem
          · rw [if_neg hres] at hmem
            by_cases hcand : is_candidate_chunk chunk f.cfg = true
            · rw [if_neg (not_not_intro hcand)] at hmem
              by_cases hdoc : remExhausted st.remaining_doc = true
              · rw [if_pos hdoc] at hmem
                exact hst rec hmem
              · rw [if_neg hdoc] at hmem
                by_cases hglob : remExhausted st.remaining_global = true
                · rw [if_pos hglob] at hmem
                  exact hst rec hmem
                · rw [if_neg hglob] at hmem
                  by_cases hempty : cg.2.isEmpty = true
                  · rw [if_pos hempty] at hmem
                    exact ih _ _ hst rec hmem
                  · rw [if_neg hempty] at hmem
                    have hA : anchorIdOf chunk ≠ "" := hblank
                    have hgs : ∀ g ∈ cg.2, allChunkIds g ≠ [] := by
                      rw [← hcg]
                      exact build_groups_allChunkIds chunk
                        (get_local_neighbors chunksAll idx f.cfg)
                        (filter_faiss_neighbors chunk (faissO idx) f.cfg f.metric) f.cfg
                        f.cfg.sampling.max_groups_per_chunk hmin hminmax hA
                    have hRinv : ∀ r' ∈ R.1.records, r'.source_chunks ≠ [] ∧
                        ∀ s ∈ r'.source_chunks, s ∈ r'.context_chunks := by
                      rw [← hR]
                      exact groupLoop_evidence f cg.1 (planO idx) (genO idx) cg.2 0 st 0 hgs hst
                    by_cases herr : R.1.err.isSome = true
                    · rw [if_pos herr] at hmem
                      exact hRinv rec hmem
                    · rw [if_neg herr] at hmem
                      by_cases h02 : 0 < R.2
                      · rw [if_pos h02] at hmem
                        by_cases hrem : remExhausted
                            (markProcessed R.1 (pyStr (pyGet chunk "chunk_id"))).remaining_global
                            = true
                        · rw [if_pos hrem] at hmem
                          exact hRinv rec hmem
                        · rw [if_neg hrem] at hmem
                          exact ih _ _ (by exact fun r' hr' => hRinv r' hr') rec hmem
                      · rw [if_neg h02] at hmem
                        by_cases hrem : remExhausted R.1.remaining_global = true
                        · rw [if_pos hrem] at hmem
                          exact hRinv rec hmem
                        · rw [if_neg hrem] at hmem
                          exact ih _ _ (by exact fun r' hr' => hRinv r' hr') rec hmem
            · rw [if_pos hcand] at hmem
              exact ih _ _ hst rec hmem

/-- C1: every candidate record written by `process_semantic_file` has a
non-empty `source_chunks` list, and every id in it also appears in the
record's `context_chunks` (the chunk ids of the group offered to the
model); non-emptiness holds because the full context id list is
substituted when the filtered evidence list is empty. -/
theorem process_semantic_file_evidence (cfg : QAConfig) (metric : FaissMetricInfo)
    (prompts : PromptBundle) (config_hash : String) (in_name : String)
    (chunks : List Obj) (processed_anchor_ids : List String)
    (remaining_global : Option Int) (faissO : Nat → List Obj)
    (planO genO : Nat → Nat → Nat → Except LLMErr (List Jval))
    (hmin : 1 ≤ cfg.grouping.min_group_size)
    (hminmax : cfg.grouping.min_group_size ≤ cfg.grouping.max_group_size) :
    ∀ rec ∈ (process_semantic_file cfg metric prompts config_hash in_name chunks
        processed_anchor_ids remaining_global faissO planO genO).records,
      rec.source_chunks ≠ [] ∧ ∀ s ∈ rec.source_chunks, s ∈ rec.context_chunks := by
  intro rec hmem
  rw [process_semantic_file] at hmem
  simp only [] at hmem
  split at hmem
  · exact absurd hmem (List.not_mem_nil rec)
  · exact chunkLoop_evidence _ chunks faissO planO genO hmin hminmax chunks 0 _
      (fun r hr => absurd hr (List.not_mem_nil r)) rec hmem

/-- Witness for C1: the default configuration satisfies the grouping sanity
hypotheses, and the evidence-containment property holds for the records of
a concrete two-chunk run whose plan and generate passes succeed. -/
theorem process_semantic_file_evidence_witness :
    (1 ≤ ({} : QAConfig).grouping.min_group_size ∧
      ({} : QAConfig).grouping.min_group_size ≤ ({} : QAConfig).grouping.max_group_size) ∧
    ∀ rec ∈ (process_semantic_file {} {} ⟨"p", "p", "p", "p"⟩ "h" "f.jsonl"
        [[("chunk_id", Jval.jstr "d2_c0"), ("content", Jval.jstr "Inhalt null")],
         [("chunk_id", Jval.jstr "d2_c1"), ("content", Jval.jstr "Inhalt eins")]]
        [] none (fun _ => [])
        (fun _ _ _ => .ok [Jval.jobj
          [("takeaways", Jval.jarr
             [Jval.jobj [("takeaway", Jval.jstr "T1"),
                         ("evidence_chunks", Jval.jarr [Jval.jstr "d2_c0"])],
              Jval.jobj [("takeaway", Jval.jstr "T2"),
                         ("evidence_chunks", Jval.jarr [Jval.jstr "d2_c0"])]]),
           ("equations_present", Jval.jbool false),
           ("equation_quotes", Jval.jarr []),
           ("generator_checks", Jval.jarr [])]])
        (fun _ _ _ => .ok [Jval.jobj
          [("question", Jval.jstr "Frage?"), ("answer", Jval.jstr "Antwort."),
           ("difficulty", Jval.jstr "basic")]])).records,
      rec.source_chunks ≠ [] ∧ ∀ s ∈ rec.source_chunks, s ∈ rec.context_chunks :=
  ⟨⟨by decide, by decide⟩,
   process_semantic_file_evidence {} {} ⟨"p", "p", "p", "p"⟩ "h" "f.jsonl"
     [[("chunk_id", Jval.jstr "d2_c0"), ("content", Jval.jstr "Inhalt null")],
      [("chunk_id", Jval.jstr "d2_c1"), ("content", Jval.jstr "Inhalt eins")]]
     [] none (fun _ => [])
     (fun _ _ _ => .ok [Jval.jobj
       [("takeaways", Jval.jarr
          [Jval.jobj [("takeaway", Jval.jstr "T1"),
                      ("evidence_chunks", Jval.jarr [Jval.jstr "d2_c0"])],
           Jval.jobj [("takeaway", Jval.jstr "T2"),
                      ("evidence_chunks", Jval.jarr [Jval.jstr "d2_c0"])]]),
        ("equations_present", Jval.jbool false),
        ("equation_quotes", Jval.jarr []),
        ("generator_checks", Jval.jarr [])]])
     (fun _ _ _ => .ok [Jval.jobj
       [("question", Jval.jstr "Frage?"), ("answer", Jval.jstr "Antwort."),
        ("difficulty", Jval.jstr "basic")]])
     (by decide) (by decide)⟩

/-- C8: the global half of the claim fails.  With `global_qa_limit = 2`
pre-divided over two shards, the worker's share is `ceil(2/2) = 1`; yet
over two documents whose per-document quota is 1, the worker writes two
records while its `remaining_global` counter never moves: the write that
exhausts a document's quota `break`s (line 1087) before the global
decrement of lines 1089-1092 is reached, so documents capped by their own
quota never consume the global budget and the worker exceeds its
pre-divided share. -/
theorem worker_global_share_exceeded :
    mainGlobalLimit c8Cfg.sampling.global_qa_limit 2 = 1 ∧
    (runFiles c8Cfg {} ⟨"p", "p", "p", "p"⟩ "h" c8Orc c8Files 0
        (initialGlobalState (mainGlobalLimit c8Cfg.sampling.global_qa_limit 2)) 0).1 = 2 ∧
    (runFiles c8Cfg {} ⟨"p", "p", "p", "p"⟩ "h" c8Orc c8Files 0
        (initialGlobalState (mainGlobalLimit c8Cfg.sampling.global_qa_limit 2)) 0).2.1 =
      some 1 ∧
    ¬ ((2 : Int) ≤ mainGlobalLimit c8Cfg.sampling.global_qa_limit 2) :=
  ⟨rfl, rfl, rfl, by decide⟩

/-- With a non-positive example limit the early-stop check never fires. -/
theorem limitReached_nonpos (cfg : DatasetConfig) (hlim : cfg.limit_num_examples ≤ 0)
    (kept : Nat) : limitReached cfg kept = false := by
  unfold limitReached
  rw [decide_eq_false (by omega : ¬ 0 < cfg.limit_num_examples)]
  rfl

/-- The stream fold splits over append. -/
theorem streamFold_append (cfg : DatasetConfig) (ca : String) :
    ∀ (a b : List (String × Nat × Obj)) (st : RedState),
    streamFold cfg ca (a ++ b) st = streamFold cfg ca b (streamFold cfg ca a st) := by
  intro a
  induction a with
  | nil => intro b st; rfl
  | cons e rest ih => intro b st; rw [List.cons_append, streamFold, streamFold, ih]

/-- Without an example limit the inner reduce loop is the stream fold over
the file's tagged rows. -/
theorem redRows_streamFold (cfg : DatasetConfig) (ca fn : String)
    (hlim : cfg.limit_num_examples ≤ 0) :
    ∀ (rows : List (Nat × Obj)) (st : RedState),
    redRows cfg ca fn rows st = streamFold cfg ca (rows.map (fun r => (fn, r))) st := by
  intro rows
  induction rows with
  | nil => intro st; rfl
  | cons row rest ih =>
      intro st
      rw [redRows, List.map_cons, streamFold]
      simp only [limitReached_nonpos cfg hlim, Bool.false_eq_true, and_false, if_false]
      exact ih _

/-- Without an example limit the outer reduce loop is the stream fold over
the concatenated tagged rows of all files. -/
theorem redFiles_streamFold (cfg : DatasetConfig) (ca : String)
    (hlim : cfg.limit_num_examples ≤ 0) :
    ∀ (files : List (String × List (Nat × Obj))) (st : RedState),
    redFiles cfg ca files st =
      streamFold cfg ca (files.flatMap (fun f => f.2.map (fun r => (f.1, r)))) st := by
  intro files
  induction files with
  | nil => intro st; rfl
  | cons f rest ih =>
      intro st
      rw [redFiles, List.flatMap_cons, streamFold_append,
        redRows_streamFold cfg ca f.1 hlim]
      simp only [limitReached_nonpos cfg hlim, Bool.false_eq_true, if_false]
      exact ih _

/-- A structurally invalid row is dropped: it changes neither the seen set
nor the output. -/
theorem redRow_invalid (cfg : DatasetConfig) (ca fn : String) (ln : Nat) (sample : Obj)
    (st : RedState) (hval : validRow sample = false) :
    (redRow cfg ca fn (ln, sample) st).1.seen = st.seen ∧
    (redRow cfg ca fn (ln, sample) st).1.out = st.out := by
  have hcond : ¬ (isStr (pyGet sample "instruction") = true ∧
      isStr (pyGet sample "output") = true) := by
    rintro ⟨h1, h2⟩
    rw [validRow, h1, h2] at hval
    exact absurd hval (by decide)
  rw [redRow]
  simp only []
  rw [if_pos hcond]
  exact ⟨rfl, rfl⟩

/-- In exact mode a valid row whose fingerprint was already seen is counted
as a duplicate: it changes neither the seen set nor the output. -/
theorem redRow_dup (cfg : DatasetConfig) (ca fn : String) (ln : Nat) (sample : Obj)
    (st : RedState) (hmode : cfg.dedup_mode = "exact")
    (hval : validRow sample = true)
    (hseen : dedup_fingerprint cfg sample ∈ st.seen) :
    (redRow cfg ca fn (ln, sample) st).1.seen = st.seen ∧
    (redRow cfg ca fn (ln, sample) st).1.out = st.out := by
  simp only [validRow, Bool.and_eq_true] at hval
  rw [redRow]
  simp only []
  rw [if_neg (not_not_intro hval), if_pos ⟨hmode, hseen⟩]
  exact ⟨rfl, rfl⟩

/-- In exact mode (not a dry run) a valid row with a new fingerprint is
kept: its fingerprint is pushed on the seen set and the row - with
`created_at` and `id` set - is appended to the output. -/
theorem redRow_kept (cfg : DatasetConfig) (ca fn : String) (ln : Nat) (sample : Obj)
    (st : RedState) (hmode : cfg.dedup_mode = "exact") (hdry : cfg.dry_run = false)
    (hval : validRow sample = true)
    (hnew : dedup_fingerprint cfg sample ∉ st.seen) :
    (redRow cfg ca fn (ln, sample) st).1.seen =
      dedup_fingerprint cfg sample :: st.seen ∧
    (redRow cfg ca fn (ln, sample) st).1.out = st.out ++
      [setKey (setKey sample "created_at" (.jstr ca)) "id"
        (.jstr (make_id cfg (st.seq + 1) (setKey sample "created_at" (.jstr ca))))] := by
  simp only [validRow, Bool.and_eq_true] at hval
  rw [redRow]
  simp only []
  rw [if_neg (not_not_intro hval), if_neg (fun hc => hnew hc.2), if_pos hmode,
    if_pos (by rw [hdry]; exact fun hc => Bool.noConfusion hc)]
  exact ⟨rfl, rfl⟩

/-- A successful reduce without an example limit computes exactly the
stream fold of `reduceStream` from the empty state. -/
theorem run_reduce_state (cfg : DatasetConfig) (v ca : String)
    (shards : Nat → Option (List (Nat × Obj))) (res : ReduceResult)
    (hlim : cfg.limit_num_examples ≤ 0)
    (hok : run_reduce cfg v ca shards = .ok res) :
    res.state = streamFold cfg ca (reduceStream cfg shards) {} := by
  rw [run_reduce] at hok
  split at hok
  · exact Except.noConfusion hok
  · simp only [] at hok
    split at hok
    · exact Except.noConfusion hok
    · injection hok with h
      rw [← h]
      rw [redFiles_streamFold cfg ca hlim]
      have hstream : ((List.range cfg.num_shards.toNat).map
          (fun i => (shardFileName i, (shards i).getD []))).flatMap
            (fun f => f.2.map (fun r => (f.1, r))) = reduceStream cfg shards := by
        rw [List.flatMap_map]
        rfl
      rw [hstream]

/-- The stream fold keeps the counter identity. -/
theorem streamFold_counts (cfg : DatasetConfig) (ca : String) :
    ∀ (stream : List (String × Nat × Obj)) (st : RedState),
    st.counters.read = st.counters.kept + st.counters.dropped + st.counters.duped →
    (streamFold cfg ca stream st).counters.read =
      (streamFold cfg ca stream st).counters.kept +
      (streamFold cfg ca stream st).counters.dropped +
      (streamFold cfg ca stream st).counters.duped := by
  intro stream
  induction stream with
  | nil => intro st h; exact h
  | cons e rest ih =>
      intro st h
      rw [streamFold]
      exact ih _ (redRow_counts cfg ca e.1 e.2 st h)

/-- Processing rows none of which is a valid row with fingerprint `F`
leaves `F` unseen and the `F`-filtered output empty. -/
theorem streamFold_pre (cfg : DatasetConfig) (ca : String) (F : String)
    (hmode : cfg.dedup_mode = "exact") (hdry : cfg.dry_run = false)
    (hid : "id" ∉ cfg.dedup_keys) (hca : "created_at" ∉ cfg.dedup_keys) :
    ∀ (stream : List (String × Nat × Obj)) (st : RedState),
    (∀ p ∈ stream, validRow p.2.2 = true → dedup_fingerprint cfg p.2.2 ≠ F) →
    F ∉ st.seen →
    st.out.filter (fun o => dedup_fingerprint cfg o == F) = [] →
    F ∉ (streamFold cfg ca stream st).seen ∧
    (streamFold cfg ca stream st).out.filter
      (fun o => dedup_fingerprint cfg o == F) = [] := by
  intro stream
  induction stream with
  | nil => intro st _ h1 h2; exact ⟨h1, h2⟩
  | cons e rest ih =>
      intro st hstream hseen hout
      rw [streamFold]
      have hrest : ∀ p ∈ rest, validRow p.2.2 = true → dedup_fingerprint cfg p.2.2 ≠ F :=
        fun p hp => hstream p (List.mem_cons_of_mem _ hp)
      rcases e with ⟨fn, ln, sample⟩
      cases hval : validRow sample with
      | false =>
          obtain ⟨h1, h2⟩ := redRow_invalid cfg ca fn ln sample st hval
          exact ih _ hrest (h1 ▸ hseen) (h2 ▸ hout)
      | true =>
          by_cases hmem : dedup_fingerprint cfg sample ∈ st.seen
          · obtain ⟨h1, h2⟩ := redRow_dup cfg ca fn ln sample st hmode hval hmem
            exact ih _ hrest (h1 ▸ hseen) (h2 ▸ hout)
          · obtain ⟨h1, h2⟩ := redRow_kept cfg ca fn ln sample st hmode hdry hval hmem
            have hne : dedup_fingerprint cfg sample ≠ F :=
              hstream (fn, ln, sample) (List.mem_cons_self _ _) hval
            refine ih _ hrest ?_ ?_
            · rw [h1]
              intro hc
              rcases List.mem_cons.mp hc with hc | hc
              · exact hne hc.symm
              · exact hseen hc
            · rw [h2, List.filter_append, hout, List.nil_append]
              have hfp : dedup_fingerprint cfg (setKey (setKey sample "created_at"
                  (.jstr ca)) "id" (.jstr (make_id cfg (st.seq + 1)
                    (setKey sample "created_at" (.jstr ca))))) =
                  dedup_fingerprint cfg sample := by
                rw [dedup_fingerprint_setKey cfg _ _ _ hid,
                  dedup_fingerprint_setKey cfg _ _ _ hca]
              simp only [List.filter, hfp]
              rw [beq_eq_false_iff_ne.mpr hne]

/-- Once the fingerprint `F` is in the seen set, the `F`-filtered output
never changes again. -/
theorem streamFold_post (cfg : DatasetConfig) (ca : String) (F : String)
    (hmode : cfg.dedup_mode = "exact") (hdry : cfg.dry_run = false)
    (hid : "id" ∉ cfg.dedup_keys) (hca : "created_at" ∉ cfg.dedup_keys) :
    ∀ (stream : List (String × Nat × Obj)) (st : RedState),
    F ∈ st.seen →
    F ∈ (streamFold cfg ca stream st).seen ∧
    (streamFold cfg ca stream st).out.filter (fun o => dedup_fingerprint cfg o == F) =
      st.out.filter (fun o => dedup_fingerprint cfg o == F) := by
  intro stream
  induction stream with
  | nil => intro st h; exact ⟨h, rfl⟩
  | cons e rest ih =>
      intro st hseen
      rw [streamFold]
      rcases e with ⟨fn, ln, sample⟩
      cases hval : validRow sample with
      | false =>
          obtain ⟨h1, h2⟩ := redRow_invalid cfg ca fn ln sample st hval
          obtain ⟨g1, g2⟩ := ih _ (h1 ▸ hseen)
          exact ⟨g1, by rw [g2, h2]⟩
      | true =>
          by_cases hmem : dedup_fingerprint cfg sample ∈ st.seen
          · obtain ⟨h1, h2⟩ := redRow_dup cfg ca fn ln sample st hmode hval hmem
            obtain ⟨g1, g2⟩ := ih _ (h1 ▸ hseen)
            exact ⟨g1, by rw [g2, h2]⟩
          · obtain ⟨h1, h2⟩ := redRow_kept cfg ca fn ln sample st hmode hdry hval hmem
            have hne : dedup_fingerprint cfg sample ≠ F := fun hc => hmem (hc ▸ hseen)
            obtain ⟨g1, g2⟩ := ih _ (h1 ▸ List.mem_cons_of_mem _ hseen)
            refine ⟨g1, ?_⟩
            rw [g2, h2, List.filter_append]
            have hfp : dedup_fingerprint cfg (setKey (setKey sample "created_at"
                (.jstr ca)) "id" (.jstr (make_id cfg (st.seq + 1)
                  (setKey sample "created_at" (.jstr ca))))) =
                dedup_fingerprint cfg sample := by
              rw [dedup_fingerprint_setKey cfg _ _ _ hid,
                dedup_fingerprint_setKey cfg _ _ _ hca]
            simp only [List.filter, hfp]
            rw [beq_eq_false_iff_ne.mpr hne, List.append_nil]

/-- C2: in an exact-mode reduce (no dry run, no example limit, and the
configured dedup keys not overlapping the generated `id`/`created_at`
fields), consider the first structurally valid stream row `e` carrying a
given dedup fingerprint.  The final dataset contains exactly one record
with that fingerprint — no matter how many later rows (from the same or
other shard files) duplicate it — and that record is `e`'s sample itself,
agreeing with it on every key other than the generated `id` and
`created_at`; moreover the changelog counters satisfy
`read = kept + dropped + duped`, so every duplicate that was removed is
counted in `duped`. -/
theorem run_reduce_exact_dedup (cfg : DatasetConfig) (v ca : String)
    (shards : Nat → Option (List (Nat × Obj))) (res : ReduceResult)
    (pre post : List (String × Nat × Obj)) (e : String × Nat × Obj)
    (hmode : cfg.dedup_mode = "exact") (hdry : cfg.dry_run = false)
    (hlim : cfg.limit_num_examples ≤ 0)
    (hid : "id" ∉ cfg.dedup_keys) (hca : "created_at" ∉ cfg.dedup_keys)
    (hok : run_reduce cfg v ca shards = .ok res)
    (hsplit : reduceStream cfg shards = pre ++ e :: post)
    (hval : validRow e.2.2 = true)
    (hfirst : ∀ p ∈ pre, validRow p.2.2 = true →
      dedup_fingerprint cfg p.2.2 ≠ dedup_fingerprint cfg e.2.2) :
    (∃ kept0,
      res.state.out.filter
        (fun o => dedup_fingerprint cfg o == dedup_fingerprint cfg e.2.2) = [kept0] ∧
      ∀ k, k ≠ "id" → k ≠ "created_at" → getKey kept0 k = getKey e.2.2 k) ∧
    res.state.counters.read =
      res.state.counters.kept + res.state.counters.dropped + res.state.counters.duped := by
  obtain ⟨fn, ln, sample⟩ := e
  have hstate := run_reduce_state cfg v ca shards res hlim hok
  rw [hstate, hsplit]
  constructor
  · rw [streamFold_append, streamFold]
    have hpre := streamFold_pre cfg ca (dedup_fingerprint cfg sample) hmode hdry hid hca
      pre {} hfirst (List.not_mem_nil _) rfl
    obtain ⟨h1, h2⟩ := redRow_kept cfg ca fn ln sample (streamFold cfg ca pre {})
      hmode hdry hval hpre.1
    have hpost := streamFold_post cfg ca (dedup_fingerprint cfg sample) hmode hdry hid hca
      post ((redRow cfg ca fn (ln, sample) (streamFold cfg ca pre {})).1)
      (by rw [h1]; exact List.mem_cons_self _ _)
    refine ⟨setKey (setKey sample "created_at" (.jstr ca)) "id"
      (.jstr (make_id cfg ((streamFold cfg ca pre {}).seq + 1)
        (setKey sample "created_at" (.jstr ca)))), ?_, ?_⟩
    · rw [hpost.2, h2, List.filter_append, hpre.2, List.nil_append]
      have hfp : dedup_fingerprint cfg (setKey (setKey sample "created_at"
          (.jstr ca)) "id" (.jstr (make_id cfg ((streamFold cfg ca pre {}).seq + 1)
            (setKey sample "created_at" (.jstr ca))))) =
          dedup_fingerprint cfg sample := by
        rw [dedup_fingerprint_setKey cfg _ _ _ hid,
          dedup_fingerprint_setKey cfg _ _ _ hca]
      simp only [List.filter, hfp, beq_self_eq_true]
    · intro k hkid hkca
      rw [getKey_setKey_ne _ "id" _ k hkid, getKey_setKey_ne _ "created_at" _ k hkca]
  · exact streamFold_counts cfg ca _ {} rfl

/-- Witness for C2 (Scenario D): a reduce over two shard files whose single
rows form one exact cross-shard (instruction, output) duplicate satisfies
every hypothesis; the theorem then yields the unique kept record, and the
counters show `duped = 1` with `kept = read - dropped - 1`. -/
theorem run_reduce_exact_dedup_witness :
    (c2Cfg.dedup_mode = "exact" ∧ c2Cfg.dry_run = false ∧
      c2Cfg.limit_num_examples ≤ 0 ∧
      "id" ∉ c2Cfg.dedup_keys ∧ "created_at" ∉ c2Cfg.dedup_keys ∧
      run_reduce c2Cfg "0.1" "2024-01-01T00:00:00Z" c2Shards = .ok c2Res ∧
      reduceStream c2Cfg c2Shards =
        [] ++ ("shard_00.jsonl", 1, c2RowA) :: [("shard_01.jsonl", 1, c2RowB)] ∧
      validRow c2RowA = true ∧
      dedup_fingerprint c2Cfg c2RowB = dedup_fingerprint c2Cfg c2RowA) ∧
    ((∃ kept0,
      c2Res.state.out.filter
        (fun o => dedup_fingerprint c2Cfg o == dedup_fingerprint c2Cfg c2RowA) = [kept0] ∧
      ∀ k, k ≠ "id" → k ≠ "created_at" → getKey kept0 k = getKey c2RowA k) ∧
    c2Res.state.counters.read =
      c2Res.state.counters.kept + c2Res.state.counters.dropped +
        c2Res.state.counters.duped) ∧
    (c2Res.state.counters.duped = 1 ∧ c2Res.state.counters.read = 2 ∧
      c2Res.state.counters.kept =
        c2Res.state.counters.read - c2Res.state.counters.dropped - 1) :=
  ⟨⟨rfl, rfl, by decide, by decide, by decide, rfl, rfl, rfl, rfl⟩,
   run_reduce_exact_dedup c2Cfg "0.1" "2024-01-01T00:00:00Z" c2Shards c2Res
     [] [("shard_01.jsonl", 1, c2RowB)] ("shard_00.jsonl", 1, c2RowA)
     rfl rfl (by decide) (by decide) (by decide) rfl rfl rfl
     (fun p hp => absurd hp (List.not_mem_nil p)),
   ⟨rfl, rfl, rfl⟩⟩

/-- The quota bookkeeping decrements a tracked document quota by one. -/
theorem quotaStep_doc (st : ProcState) :
    (quotaStep st).1.remaining_doc = st.remaining_doc.map (fun r => r - 1) := by
  rw [quotaStep]
  rcases hd : st.remaining_doc with _ | r <;>
    rcases hg : st.remaining_global with _ | g <;>
      simp only [hd, hg] <;>
      (repeat' split) <;> simp_all

/-- When the quota bookkeeping does not signal a break, a tracked document
quota is still positive after the decrement. -/
theorem quotaStep_nobreak (st : ProcState) (r : Int) (hr : st.remaining_doc = some r)
    (h : (quotaStep st).2 = false) : 1 ≤ r - 1 := by
  by_contra hc
  push_neg at hc
  have hb : r - 1 ≤ 0 := by omega
  rw [quotaStep] at h
  simp only [hr] at h
  rw [if_pos (by simpa using hb)] at h
  simp at h

/-- Through the question/answer loop, a tracked positive document quota
keeps bounding the written records: `records + remaining` never grows. -/
theorem qaLoop_doc (f : FileCtx) (cc : ChunkCtx) (plan_obj : Obj) (group : List Obj)
    (C : Nat) :
    ∀ (l : List Jval) (qaIdx : Nat) (st : ProcState) (wfg : Nat),
    (∃ r, st.remaining_doc = some r ∧ 1 ≤ r ∧ st.records.length + r.toNat ≤ C) →
    ∃ r', (qaLoop f cc plan_obj group l qaIdx st wfg).1.remaining_doc = some r' ∧
      (qaLoop f cc plan_obj group l qaIdx st wfg).1.records.length + r'.toNat ≤ C := by
  intro l
  induction l with
  | nil =>
      intro qaIdx st wfg hS
      obtain ⟨r, hr, _, hb⟩ := hS
      exact ⟨r, hr, hb⟩
  | cons qa rest ih =>
      intro qaIdx st wfg hS
      obtain ⟨r, hr, hpos, hb⟩ := hS
      rw [qaLoop.eq_def]
      simp only []
      split
      · exact ⟨r, hr, hb⟩
      · split
        · split
          · split
            · exact ih _ _ _ ⟨r, hr, hpos, hb⟩
            · split
              · exact ih _ _ _ ⟨r, hr, hpos, hb⟩
              · rename_i qa_obj x1 x2 x3 q a d htq hta htd hvalid hleak
                have hd' : (quotaStep { st with records := st.records ++ [buildRecord f cc plan_obj group qaIdx qa_obj q a d], total_written := st.total_written + 1 }).1.remaining_doc = some (r - 1) := by
                  rw [quotaStep_doc]
                  show st.remaining_doc.map (fun x => x - 1) = some (r - 1)
                  rw [hr]
                  rfl
                have hlen : (quotaStep { st with records := st.records ++ [buildRecord f cc plan_obj group qaIdx qa_obj q a d], total_written := st.total_written + 1 }).1.records.length = st.records.length + 1 := by
                  rw [quotaStep_records]
                  show (st.records ++ [buildRecord f cc plan_obj group qaIdx qa_obj q a d]).length = st.records.length + 1
                  rw [List.length_append]
                  rfl
                split
                · exact ⟨r - 1, hd', by rw [hlen]; omega⟩
                · rename_i hnb
                  refine ih _ _ _ ⟨r - 1, hd', ?_, by rw [hlen]; omega⟩
                  exact quotaStep_nobreak { st with records := st.records ++ [buildRecord f cc plan_obj group qaIdx qa_obj q a d], total_written := st.total_written + 1 } r (by exact hr) (by simpa using hnb)
          · exact ih _ _ _ ⟨r, hr, hpos, hb⟩
        · exact ih _ _ _ ⟨r, hr, hpos, hb⟩

/-- Through the per-group loop, a tracked document quota keeps bounding the
written records. -/
theorem groupLoop_doc (f : FileCtx) (cc : ChunkCtx)
    (planO genO : Nat → Nat → Except LLMErr (List Jval)) (C : Nat) :
    ∀ (gs : List (List Obj)) (gIdx : Nat) (st : ProcState) (wa : Nat),
    (∃ r, st.remaining_doc = some r ∧ st.records.length + r.toNat ≤ C) →
    ∃ r', (groupLoop f cc planO genO gs gIdx st wa).1.remaining_doc = some r' ∧
      (groupLoop f cc planO genO gs gIdx st wa).1.records.length + r'.toNat ≤ C := by
  intro gs
  induction gs with
  | nil => intro gIdx st wa h; exact h
  | cons g rest ih =>
      intro gIdx st wa hW
      obtain ⟨r, hr, hb⟩ := hW
      rw [groupLoop.eq_def]
      simp only []
      split
      · exact ⟨r, hr, hb⟩
      · rename_i hdoc
        have hpos : 1 ≤ r := by
          rw [hr] at hdoc
          simp [remExhausted] at hdoc
          omega
        split
        · exact ⟨r, hr, hb⟩
        · split
          · exact ⟨r, hr, hb⟩
          · split
            · exact ih _ _ _ ⟨r, hr, hb⟩
            · split
              · exact ih _ _ _ ⟨r, hr, hb⟩
              · split
                · exact ih _ _ _ ⟨r, hr, hb⟩
                · split
                  · exact ih _ _ _ ⟨r, hr, hb⟩
                  · split
                    · exact ih _ _ _ ⟨r, hr, hb⟩
                    · refine ih _ _ _ ?_
                      exact qaLoop_doc f cc _ g C _ _ _ _ ⟨r, hr, hpos, hb⟩

/-- Through the per-chunk loop, a tracked document quota keeps bounding the
written records. -/
theorem chunkLoop_doc (f : FileCtx) (chunksAll : List Obj) (faissO : Nat → List Obj)
    (planO genO : Nat → Nat → Nat → Except LLMErr (List Jval)) (C : Nat) :
    ∀ (cl : List Obj) (idx : Nat) (st : ProcState),
    (∃ r, st.remaining_doc = some r ∧ st.records.length + r.toNat ≤ C) →
    ∃ r', (chunkLoop f chunksAll faissO planO genO cl idx st).remaining_doc = some r' ∧
      (chunkLoop f chunksAll faissO planO genO cl idx st).records.length + r'.toNat ≤ C := by
  intro cl
  induction cl with
  | nil => intro idx st h; exact h
  | cons chunk rest ih =>
      intro idx st hW
      obtain ⟨r, hr, hb⟩ := hW
      have hbody : chunkLoop f chunksAll faissO planO genO (chunk :: rest) idx st = (
          if f.cfg.debug.limit_num_chunks ≠ 0 ∧ f.cfg.debug.limit_num_chunks ≤ (idx : Int)
            then st
          else if pyStr (pyGet chunk "chunk_id") = "" then
            chunkLoop f chunksAll faissO planO genO rest (idx + 1) st
          else if pyStr (pyGet chunk "chunk_id") ∈ st.processed then
            chunkLoop f chunksAll faissO planO genO rest (idx + 1) st
          else if ¬ is_candidate_chunk chunk f.cfg then
            chunkLoop f chunksAll faissO planO genO rest (idx + 1) st
          else if remExhausted st.remaining_doc then st
          else if remExhausted st.remaining_global then st
          else if (chunkPrep f chunksAll faissO idx chunk).2.isEmpty then
            chunkLoop f chunksAll faissO planO genO rest (idx + 1) st
          else if (groupLoop f (chunkPrep f chunksAll faissO idx chunk).1 (planO idx)
              (genO idx) (chunkPrep f chunksAll faissO idx chunk).2 0 st 0).1.err.isSome then
            (groupLoop f (chunkPrep f chunksAll faissO idx chunk).1 (planO idx)
              (genO idx) (chunkPrep f chunksAll faissO idx chunk).2 0 st 0).1
          else if remExhausted (if 0 < (groupLoop f (chunkPrep f chunksAll faissO idx chunk).1
              (planO idx) (genO idx) (chunkPrep f chunksAll faissO idx chunk).2 0 st 0).2 then
                markProcessed (groupLoop f (chunkPrep f chunksAll faissO idx chunk).1 (planO idx)
                  (genO idx) (chunkPrep f chunksAll faissO idx chunk).2 0 st 0).1
                  (pyStr (pyGet chunk "chunk_id"))
              else (groupLoop f (chunkPrep f chunksAll faissO idx chunk).1 (planO idx)
                (genO idx) (chunkPrep f chunksAll faissO idx chunk).2 0 st 0).1).remaining_global
            then
            (if 0 < (groupLoop f (chunkPrep f chunksAll faissO idx chunk).1
                (planO idx) (genO idx) (chunkPrep f chunksAll faissO idx chunk).2 0 st 0).2 then
              markProcessed (groupLoop f (chunkPrep f chunksAll faissO idx chunk).1 (planO idx)
                (genO idx) (chunkPrep f chunksAll faissO idx chunk).2 0 st 0).1
                (pyStr (pyGet chunk "chunk_id"))
            else (groupLoop f (chunkPrep f chunksAll faissO idx chunk).1 (planO idx)
              (genO idx) (chunkPrep f chunksAll faissO idx chunk).2 0 st 0).1)
          else chunkLoop f chunksAll faissO planO genO rest (idx + 1)
            (if 0 < (groupLoop f (chunkPrep f chunksAll faissO idx chunk).1
                (planO idx) (genO idx) (chunkPrep f chunksAll faissO idx chunk).2 0 st 0).2 then
              markProcessed (groupLoop f (chunkPrep f chunksAll faissO idx chunk).1 (planO idx)
                (genO idx) (chunkPrep f chunksAll faissO idx chunk).2 0 st 0).1
                (pyStr (pyGet chunk "chunk_id"))
            else (groupLoop f (chunkPrep f chunksAll faissO idx chunk).1 (planO idx)
              (genO idx) (chunkPrep f chunksAll faissO idx chunk).2 0 st 0).1)) := rfl
      rw [hbody]
      generalize hcg : chunkPrep f chunksAll faissO idx chunk = cg
      generalize hR : groupLoop f cg.1 (planO idx) (genO idx) cg.2 0 st 0 = R
      have hRW : ∃ r', R.1.remaining_doc = some r' ∧
          R.1.records.length + r'.toNat ≤ C := by
        rw [← hR]
        exact groupLoop_doc f cg.1 (planO idx) (genO idx) C cg.2 0 st 0 ⟨r, hr, hb⟩
      by_cases hdbg : f.cfg.debug.limit_num_chunks ≠ 0 ∧
          f.cfg.debug.limit_num_chunks ≤ (idx : Int)
      · rw [if_pos hdbg]
        exact ⟨r, hr, hb⟩
      · rw [if_neg hdbg]
        by_cases hblank : pyStr (pyGet chunk "chunk_id") = ""
        · rw [if_pos hblank]
          exact ih _ _ ⟨r, hr, hb⟩
        · rw [if_neg hblank]
          by_cases hres : pyStr (pyGet chunk "chunk_id") ∈ st.processed
          · rw [if_pos hres]
            exact ih _ _ ⟨r, hr, hb⟩
          · rw [if_neg hres]
            by_cases hcand : is_candidate_chunk chunk f.cfg = true
            · rw [if_neg (not_not_intro hcand)]
              by_cases hdoc : remExhausted st.remaining_doc = true
              · rw [if_pos hdoc]
                exact ⟨r, hr, hb⟩
              · rw [if_neg hdoc]
                by_cases hglob : remExhausted st.remaining_global = true
                · rw [if_pos hglob]
                  exact ⟨r, hr, hb⟩
                · rw [if_neg hglob]
                  by_cases hempty : cg.2.isEmpty = true
                  · rw [if_pos hempty]
                    exact ih _ _ ⟨r, hr, hb⟩
                  · rw [if_neg hempty]
                    by_cases herr : R.1.err.isSome = true
                    · rw [if_pos herr]
                      exact hRW
                    · rw [if_neg herr]
                      by_cases h02 : 0 < R.2
                      · rw [if_pos h02]
                        by_cases hrem : remExhausted
                            (markProcessed R.1 (pyStr (pyGet chunk "chunk_id"))).remaining_global
                            = true
                        · rw [if_pos hrem]
                          exact hRW
                        · rw [if_neg hrem]
                          exact ih _ _ (by exact hRW)
                      · rw [if_neg h02]
                        by_cases hrem : remExhausted R.1.remaining_global = true
                        · rw [if_pos hrem]
                          exact hRW
                        · rw [if_neg hrem]
                          exact ih _ _ (by exact hRW)
            · rw [if_pos hcand]
              exact ih _ _ ⟨r, hr, hb⟩

/-- The per-document half of the quota claim: when the per-document quota
is tracked (`docQuotaInit = some q`), `process_semantic_file` never writes
more than `q` records (as a natural number: more than `q.toNat`). -/
theorem process_semantic_file_doc_quota (cfg : QAConfig) (metric : FaissMetricInfo)
    (prompts : PromptBundle) (config_hash : String) (in_name : String)
    (chunks : List Obj) (processed_anchor_ids : List String)
    (remaining_global : Option Int) (faissO : Nat → List Obj)
    (planO genO : Nat → Nat → Nat → Except LLMErr (List Jval))
    (q : Int) (hq : docQuotaInit cfg chunks = some q) :
    (process_semantic_file cfg metric prompts config_hash in_name chunks
        processed_anchor_ids remaining_global faissO planO genO).records.length ≤
      q.toNat := by
  rw [process_semantic_file]
  simp only []
  split
  · simp
  · obtain ⟨r', _, hb⟩ := chunkLoop_doc
      { cfg := cfg, metric := metric, prompts := prompts, config_hash := config_hash,
        in_name := in_name }
      chunks faissO planO genO q.toNat chunks 0
      { records := [], total_written := 0, total_groups := 0,
        remaining_doc := docQuotaInit cfg chunks, remaining_global := remaining_global,
        processed := processed_anchor_ids, err := none }
      ⟨q, by exact hq, by simp⟩
    omega
